import Mathlib

/-!
# Martian performance reducers (`src/martian/core/perf.go`)

A shallow embedding of `reduceJobInfo` and `computeStats` together with the
machine arithmetic they rely on:

* Go `int` / `uint` / `uint64` on a 64-bit target are `Int` / `Nat` with explicit
  wrap-around (`wrapInt`, `wrapUint`);
* Go `float64` is `F64`, an executable model of IEEE-754 binary64 with
  round-to-nearest-even (`F64.add`, `F64.mul`, `F64.div`, `F64.ofInt`);
* `time.Time` is an instant counted in nanoseconds from the zero instant
  (January 1, year 1, 00:00:00 UTC), `time.Duration` a 64-bit nanosecond count;
* `os.Stat` is a function from path to optional size.
-/

namespace Martian

/-! ## Machine integers -/

/-- Go `int` on a 64-bit target: two's-complement wrap-around into `[-2^63, 2^63)`. -/
def wrapInt (x : Int) : Int := (x + 2 ^ 63) % 2 ^ 64 - 2 ^ 63

/-- Go `uint` / `uint64` on a 64-bit target: wrap-around into `[0, 2^64)`. -/
def wrapUint (x : Nat) : Nat := x % 2 ^ 64

/-- Conversion `uint64(x)` of a signed 64-bit value. -/
def toUint64 (x : Int) : Nat := (x % 2 ^ 64).toNat

/-! ## IEEE-754 binary64 -/

/-- A binary64 value. `fin neg m e` denotes `(-1)^neg * m * 2^e`; the canonical
finite values have `m < 2^53`, `-1074 ≤ e ≤ 971` and `2^52 ≤ m` unless `e = -1074`.
All NaNs are identified. -/
inductive F64 where
  | nan : F64
  | inf (neg : Bool) : F64
  | fin (neg : Bool) (m : Nat) (e : Int) : F64
  deriving DecidableEq, Repr

namespace F64

/-- Number of binary digits of `n`, by halving; `fuel` bounds the number of halvings. -/
def bitlenAux : Nat → Nat → Nat
  | 0, _ => 0
  | fuel + 1, n => if n = 0 then 0 else bitlenAux fuel (n / 2) + 1

/-- Number of binary digits of `n` (`0` for `0`). -/
def bitlen (n : Nat) : Nat := bitlenAux n n

/-- Positive zero, the value of the literal `0.0` and of a zero-initialised field. -/
def zero : F64 := fin false 0 (-1074)

/-- Round the positive rational `n / d * 2^x` (`0 < n`, `0 < d`) to the nearest
binary64 value, ties to even, with sign `neg`. -/
def round (neg : Bool) (n d : Nat) (x : Int) : F64 :=
  -- exponent at which the quotient has 53 or 54 binary digits
  let e1 : Int := (bitlen n : Int) - (bitlen d : Int) - 53 + x
  let s1 : Int := x - e1
  let num1 : Nat := n * 2 ^ s1.toNat
  let den1 : Nat := d * 2 ^ (-s1).toNat
  -- normalise to exactly 53 digits
  let e2 : Int := if num1 / den1 < 2 ^ 53 then e1 else e1 + 1
  -- subnormal range: the exponent is at least -1074
  let e : Int := if e2 < -1074 then -1074 else e2
  let s : Int := x - e
  let num : Nat := n * 2 ^ s.toNat
  let den : Nat := d * 2 ^ (-s).toNat
  let q : Nat := num / den
  let r : Nat := num % den
  let q1 : Nat := if den < 2 * r ∨ (2 * r = den ∧ q % 2 = 1) then q + 1 else q
  let m : Nat := if q1 = 2 ^ 53 then 2 ^ 52 else q1
  let e3 : Int := if q1 = 2 ^ 53 then e + 1 else e
  if 971 < e3 then inf neg else fin neg m e3

/-- Conversion `float64(i)` of an integer. -/
def ofInt (i : Int) : F64 :=
  if i = 0 then zero else round (decide (i < 0)) i.natAbs 1 0

/-- Comparison `x > 0`; false for NaN. -/
def gtZero : F64 → Bool
  | nan => false
  | inf neg => !neg
  | fin neg m _ => !neg && decide (0 < m)

/-- Signed integer `s * 2^e` rounded to binary64; an exact zero takes the sign `zneg`. -/
def ofScaled (s : Int) (e : Int) (zneg : Bool) : F64 :=
  if s = 0 then fin zneg 0 (-1074) else round (decide (s < 0)) s.natAbs 1 e

/-- Signed mantissa of a finite value. -/
def smant (neg : Bool) (m : Nat) : Int := if neg then -(m : Int) else (m : Int)

/-- Binary64 addition `x + y`: NaN and infinities by the IEEE rules; a zero added to a
non-zero value leaves it unchanged; two zeros give `-0` only when both are `-0`; any
other sum is computed exactly and rounded once, an exact zero being `+0`. -/
def add : F64 → F64 → F64
  | nan, _ => nan
  | _, nan => nan
  | inf a, inf b => if a = b then inf a else nan
  | inf a, fin _ _ _ => inf a
  | fin _ _ _, inf b => inf b
  | fin a m e, fin b n f =>
    if n = 0 then (if m = 0 then fin (a && b) 0 (-1074) else fin a m e)
    else if m = 0 then fin b n f
    else
      let g : Int := if e ≤ f then e else f
      ofScaled (smant a m * 2 ^ (e - g).toNat + smant b n * 2 ^ (f - g).toNat) g false

/-- Binary64 multiplication `x * y`: NaN, infinities and zeros by the IEEE rules
(`0 * inf` is NaN); any other product is computed exactly and rounded once. -/
def mul : F64 → F64 → F64
  | nan, _ => nan
  | _, nan => nan
  | inf a, inf b => inf (xor a b)
  | inf a, fin b n _ => if n = 0 then nan else inf (xor a b)
  | fin a m _, inf b => if m = 0 then nan else inf (xor a b)
  | fin a m e, fin b n f =>
    if m = 0 ∨ n = 0 then fin (xor a b) 0 (-1074)
    else round (xor a b) (m * n) 1 (e + f)

/-- Binary64 division `x / y`: NaN, infinities and zeros by the IEEE rules (`0 / 0` and
`inf / inf` are NaN, a non-zero value over zero is an infinity); any other quotient is
rounded once from the exact rational. -/
def div : F64 → F64 → F64
  | nan, _ => nan
  | _, nan => nan
  | inf _, inf _ => nan
  | inf a, fin b _ _ => inf (xor a b)
  | fin a _ _, inf b => fin (xor a b) 0 (-1074)
  | fin a m e, fin b n f =>
    if n = 0 then (if m = 0 then nan else inf (xor a b))
    else if m = 0 then fin (xor a b) 0 (-1074)
    else round (xor a b) m n (e - f)

end F64

/-! ## `time.Time` and `time.Duration` (Go standard library) -/

/-- An instant, in nanoseconds since the zero instant `time.Time{}`
(January 1, year 1, 00:00:00 UTC). -/
structure Time where
  ns : Int
  deriving DecidableEq, Repr

namespace Time

/-- The zero value `time.Time{}`. -/
def zero : Time := ⟨0⟩

/-- Method `t.After(u)`. -/
def After (t u : Time) : Bool := decide (u.ns < t.ns)

/-- Method `t.Before(u)`. -/
def Before (t u : Time) : Bool := decide (t.ns < u.ns)

/-- Largest `time.Duration`, `1<<63 - 1` nanoseconds. -/
def maxDuration : Int := 2 ^ 63 - 1

/-- Smallest `time.Duration`, `-1 << 63` nanoseconds. -/
def minDuration : Int := -(2 ^ 63)

/-- Method `t.Sub(u)`: the duration `t - u` in nanoseconds; when it does not fit a
`time.Duration` the maximum (or minimum) duration is returned. -/
def Sub (t u : Time) : Int :=
  let d := t.ns - u.ns
  if d < minDuration then minDuration
  else if maxDuration < d then maxDuration
  else d

end Time

/-- Method `d.Seconds()` of `time.Duration`:
`sec := d / Second; nsec := d % Second; float64(sec) + float64(nsec)/1e9`. -/
def Seconds (d : Int) : F64 :=
  let sec := Int.tdiv d 1000000000
  let nsec := Int.tmod d 1000000000
  F64.add (F64.ofInt sec) (F64.div (F64.ofInt nsec) (F64.ofInt 1000000000))

/-! ### `time.Parse` for the layout `"2006-01-02 15:04:05"` -/

/-- Byte is a decimal digit. -/
def isDigit (c : Char) : Bool := decide ('0'.toNat ≤ c.toNat ∧ c.toNat ≤ '9'.toNat)

/-- Value of a decimal digit. -/
def digitVal (c : Char) : Nat := c.toNat - '0'.toNat

/-- Helper `getnum(s, fixed)`: a one- or two-digit number (exactly two when `fixed`)
and the rest of the input. -/
def getnum (s : List Char) (fixed : Bool) : Option (Nat × List Char) :=
  match s with
  | [] => none
  | c0 :: rest =>
    if !isDigit c0 then none
    else match rest with
      | c1 :: rest1 =>
        if isDigit c1 then some (digitVal c0 * 10 + digitVal c1, rest1)
        else if fixed then none else some (digitVal c0, rest)
      | [] => if fixed then none else some (digitVal c0, rest)

/-- Helper `skip(value, prefix)` for a one-byte prefix other than the blank: the byte
of the layout must be matched exactly. -/
def skipChar (c : Char) (s : List Char) : Option (List Char) :=
  match s with
  | c0 :: rest => if c0 = c then some rest else none
  | [] => none

/-- Helper `cutspace(s)`: the input without its leading blanks. -/
def cutspace (s : List Char) : List Char := s.dropWhile (fun c => c == ' ')

/-- Helper `skip(value, " ")`: the blank of the layout stands for a run of blanks. An
input that is not empty must start with a blank, and its whole run of leading blanks is
removed; an empty input is left as it is. -/
def skipSpace (s : List Char) : Option (List Char) :=
  match s with
  | c0 :: _ => if c0 = ' ' then some (cutspace s) else none
  | [] => some []

/-- Four-digit year (`stdLongYear`). -/
def getYear (s : List Char) : Option (Nat × List Char) :=
  match s with
  | a :: b :: c :: d :: rest =>
    if isDigit a && isDigit b && isDigit c && isDigit d then
      some (digitVal a * 1000 + digitVal b * 100 + digitVal c * 10 + digitVal d, rest)
    else none
  | _ => none

/-- Decimal value of a run of digits. -/
def digitsVal (ds : List Char) : Nat := ds.foldl (fun acc c => acc * 10 + digitVal c) 0

/-- Optional fractional second after the seconds field, accepted by `time.Parse` even
though the layout has none: a period or comma followed by at least one digit; all
digits are consumed and the first nine give the nanoseconds. -/
def getFrac (s : List Char) : Nat × List Char :=
  match s with
  | p :: c :: rest =>
    if (p = '.' ∨ p = ',') ∧ isDigit c = true then
      let ds := (c :: rest).takeWhile isDigit
      let used := ds.take 9
      (digitsVal used * 10 ^ (9 - used.length), (c :: rest).dropWhile isDigit)
    else (0, s)
  | _ => (0, s)

/-- Leap-year test of the proleptic Gregorian calendar. -/
def isLeap (year : Nat) : Bool := year % 4 == 0 && (year % 100 != 0 || year % 400 == 0)

/-- Days before the first of `month` in a non-leap year. -/
def daysBefore (month : Nat) : Nat :=
  [0, 31, 59, 90, 120, 151, 181, 212, 243, 273, 304, 334].getD (month - 1) 0

/-- Number of days of `month` in `year`. -/
def daysIn (month year : Nat) : Nat :=
  if month = 2 ∧ isLeap year = true then 29
  else [31, 28, 31, 30, 31, 30, 31, 31, 30, 31, 30, 31].getD (month - 1) 0

/-- Function `time.Date(year, month, day, hour, min, sec, nsec, time.UTC)` for fields
that are already in range. -/
def Date (year month day hour min sec nsec : Nat) : Time :=
  let y : Int := (year : Int) - 1
  let days : Int := 365 * y + y / 4 - y / 100 + y / 400 + daysBefore month
    + (if 2 < month ∧ isLeap year = true then 1 else 0) + ((day : Int) - 1)
  ⟨(days * 86400 + hour * 3600 + min * 60 + sec) * 1000000000 + nsec⟩

/-- A two-digit field (`stdZeroMonth`, `stdZeroDay`, `stdZeroMinute`, `stdZeroSecond`)
or the one- or two-digit hour (`stdHour`), followed by the range check `lo ≤ n ≤ hi`. -/
def getField (s : List Char) (fixed : Bool) (lo hi : Nat) : Option (Nat × List Char) :=
  match getnum s fixed with
  | some (n, rest) => if lo ≤ n ∧ n ≤ hi then some (n, rest) else none
  | none => none

/-- The date part `2006-01-02` followed by the blank of the layout, which matches a run
of blanks: year, month, day and the rest. The day is only required to have two digits
here; it is checked against the month once the whole input is read. -/
def parseDay (value : List Char) : Option (Nat × Nat × Nat × List Char) :=
  match getYear value with
  | none => none
  | some (year, v1) =>
    match skipChar '-' v1 with
    | none => none
    | some v2 =>
      match getField v2 true 1 12 with
      | none => none
      | some (month, v3) =>
        match skipChar '-' v3 with
        | none => none
        | some v4 =>
          match getnum v4 true with
          | none => none
          | some (day, v5) =>
            match skipSpace v5 with
            | none => none
            | some v6 => some (year, month, day, v6)

/-- The clock part `15:04:05`: hour, minute, second and the rest. -/
def parseClock (value : List Char) : Option (Nat × Nat × Nat × List Char) :=
  match getField value false 0 23 with
  | none => none
  | some (hour, v1) =>
    match skipChar ':' v1 with
    | none => none
    | some v2 =>
      match getField v2 true 0 59 with
      | none => none
      | some (min, v3) =>
        match skipChar ':' v3 with
        | none => none
        | some v4 =>
          match getField v4 true 0 59 with
          | none => none
          | some (sec, v5) => some (hour, min, sec, v5)

/-- Function `time.Parse("2006-01-02 15:04:05", value)` on the bytes of `value`;
`none` stands for a non-nil error. -/
def parseChars (value : List Char) : Option Time :=
  match parseDay value with
  | none => none
  | some (year, month, day, v1) =>
    match parseClock v1 with
    | none => none
    | some (hour, min, sec, v2) =>
      if (getFrac v2).2 = [] ∧ 1 ≤ day ∧ day ≤ daysIn month year then
        some (Date year month day hour min sec (getFrac v2).1)
      else none

/-- The statement `t, _ = time.Parse(timeLayout, value)`: the parsed instant, or the
zero instant when parsing fails (the error is discarded). -/
def parseTime (value : String) : Time := (parseChars value.data).getD Time.zero

/-! ## Data model (`perf.go`) -/

/-- Struct `PythonInfo`. -/
structure PythonInfo where
  BinPath : String
  Version : String
  deriving DecidableEq, Repr

/-- Struct `Rusage`: one set of operating-system resource counters. -/
structure Rusage where
  MaxRss : Int
  SharedRss : Int
  UnsharedRss : Int
  MinorFaults : Int
  MajorFaults : Int
  SwapOuts : Int
  UserTime : F64
  SystemTime : F64
  InBlocks : Int
  OutBlocks : Int
  MessagesSent : Int
  MessagesRcvd : Int
  SignalsRcvd : Int
  deriving DecidableEq, Repr

/-- Struct `RusageInfo`; the pointers `Self` and `Children` may be nil. -/
structure RusageInfo where
  Self : Option Rusage
  Children : Option Rusage
  deriving DecidableEq, Repr

/-- Struct `WallClockInfo`. -/
structure WallClockInfo where
  Start : String
  End : String
  Duration : F64
  deriving DecidableEq, Repr

/-- Struct `JobInfo` as declared in `perf.go`; the pointers `PythonInfo`, `RusageInfo`
and `WallClockInfo` may be nil. The field `Type` is a reserved word here and is
called `JobType`. -/
structure JobInfo where
  Name : String
  Pid : Int
  Host : String
  JobType : String
  Cwd : String
  PythonInfo : Option PythonInfo
  RusageInfo : Option RusageInfo
  WallClockInfo : Option WallClockInfo
  deriving DecidableEq, Repr

/-- Struct `PerfInfo`. -/
structure PerfInfo where
  NumJobs : Int
  NumThreads : Int
  Duration : F64
  CoreHours : F64
  MaxRss : Int
  InBlocks : Int
  OutBlocks : Int
  TotalBlocks : Int
  InBlocksRate : F64
  OutBlocksRate : F64
  TotalBlocksRate : F64
  Start : Time
  End : Time
  WallTime : F64
  UserTime : F64
  SystemTime : F64
  TotalFiles : Nat
  TotalBytes : Nat
  OutputFiles : Nat
  OutputBytes : Nat
  VdrFiles : Nat
  VdrBytes : Nat
  deriving DecidableEq, Repr

/-- The zero value `&PerfInfo{}`. -/
def PerfInfo.zero : PerfInfo :=
  { NumJobs := 0, NumThreads := 0, Duration := F64.zero, CoreHours := F64.zero,
    MaxRss := 0, InBlocks := 0, OutBlocks := 0, TotalBlocks := 0,
    InBlocksRate := F64.zero, OutBlocksRate := F64.zero, TotalBlocksRate := F64.zero,
    Start := Time.zero, End := Time.zero, WallTime := F64.zero,
    UserTime := F64.zero, SystemTime := F64.zero,
    TotalFiles := 0, TotalBytes := 0, OutputFiles := 0, OutputBytes := 0,
    VdrFiles := 0, VdrBytes := 0 }

/-- Modelled from the spec: the type `VDRKillReport` is declared outside `perf.go`; the
spec describes it as `{count: integer, size: integer}`, and `computeStats` assigns
`Count` to a `uint` field and `Size` to a `uint64` field. -/
structure VDRKillReport where
  Count : Nat
  Size : Nat
  deriving DecidableEq, Repr

/-- Modelled from the spec: the helper `max` on `int` is declared outside `perf.go`;
the spec calls it the pairwise maximum. -/
def max (x y : Int) : Int := if x > y then x else y

/-- A Go run-time panic. -/
inductive Panic where
  | nilDereference : Panic
  deriving DecidableEq, Repr

/-! ## `reduceJobInfo` -/

/-- Lines 86-91 of `reduceJobInfo`: the wall-clock section. -/
def reduceWallClock (perfInfo : PerfInfo) (wallClockInfo : Option WallClockInfo) : PerfInfo :=
  match wallClockInfo with
  | none => perfInfo
  | some w =>
    let perfInfo := { perfInfo with Start := parseTime w.Start }
    let perfInfo := { perfInfo with End := parseTime w.End }
    let perfInfo := { perfInfo with Duration := w.Duration }
    { perfInfo with WallTime := Seconds (perfInfo.End.Sub perfInfo.Start) }

/-- Lines 103-107 of `reduceJobInfo`: the three rates, only when `Duration > 0`. -/
def reduceRates (perfInfo : PerfInfo) : PerfInfo :=
  if perfInfo.Duration.gtZero then
    let perfInfo := { perfInfo with
      InBlocksRate := F64.div (F64.ofInt perfInfo.InBlocks) perfInfo.Duration }
    let perfInfo := { perfInfo with
      OutBlocksRate := F64.div (F64.ofInt perfInfo.OutBlocks) perfInfo.Duration }
    { perfInfo with
      TotalBlocksRate := F64.div (F64.ofInt perfInfo.TotalBlocks) perfInfo.Duration }
  else perfInfo

/-- Lines 92-108 of `reduceJobInfo`: the resource-usage section. Reading a field of
`self` or `children` dereferences the pointer and panics when it is nil. -/
def reduceRusage (perfInfo : PerfInfo) (rusageInfo : Option RusageInfo) :
    Except Panic PerfInfo :=
  match rusageInfo with
  | none => .ok perfInfo
  | some r =>
    let perfInfo := { perfInfo with
      CoreHours := F64.div (F64.mul (F64.ofInt perfInfo.NumThreads) perfInfo.Duration)
        (F64.ofInt 3600) }
    match r.Self, r.Children with
    | none, _ => .error Panic.nilDereference
    | some _, none => .error Panic.nilDereference
    | some self, some children =>
      let perfInfo := { perfInfo with MaxRss := max self.MaxRss children.MaxRss }
      let perfInfo := { perfInfo with InBlocks := wrapInt (self.InBlocks + children.InBlocks) }
      let perfInfo := { perfInfo with OutBlocks := wrapInt (self.OutBlocks + children.OutBlocks) }
      let perfInfo := { perfInfo with
        TotalBlocks := wrapInt (perfInfo.InBlocks + perfInfo.OutBlocks) }
      let perfInfo := { perfInfo with UserTime := F64.add self.UserTime children.UserTime }
      let perfInfo := { perfInfo with
        SystemTime := F64.add self.SystemTime children.SystemTime }
      .ok (reduceRates perfInfo)

/-- One iteration of the loop over `fpaths` (lines 110-115): `stat` is `os.Stat`,
giving the size of the file or `none` when it returns an error. -/
def reduceOutput (stat : String → Option Int) (perfInfo : PerfInfo) (fpath : String) :
    PerfInfo :=
  match stat fpath with
  | some size =>
    let perfInfo := { perfInfo with OutputFiles := wrapUint (perfInfo.OutputFiles + 1) }
    { perfInfo with OutputBytes := wrapUint (perfInfo.OutputBytes + toUint64 size) }
  | none => perfInfo

/-- Lines 110-117 of `reduceJobInfo`: the loop over `fpaths` and the two totals. -/
def reduceOutputs (stat : String → Option Int) (perfInfo : PerfInfo) (fpaths : List String) :
    PerfInfo :=
  let perfInfo := fpaths.foldl (reduceOutput stat) perfInfo
  let perfInfo := { perfInfo with TotalFiles := perfInfo.OutputFiles }
  { perfInfo with TotalBytes := perfInfo.OutputBytes }

/-- Function `reduceJobInfo(jobInfo, fpaths, numThreads)`, for a non-nil `jobInfo`,
with the file system given by `stat`. -/
def reduceJobInfo (stat : String → Option Int) (jobInfo : JobInfo) (fpaths : List String)
    (numThreads : Int) : Except Panic PerfInfo :=
  let perfInfo := PerfInfo.zero
  let perfInfo := { perfInfo with NumJobs := 1 }
  let perfInfo := { perfInfo with NumThreads := numThreads }
  let perfInfo := reduceWallClock perfInfo jobInfo.WallClockInfo
  match reduceRusage perfInfo jobInfo.RusageInfo with
  | .error e => .error e
  | .ok perfInfo => .ok (reduceOutputs stat perfInfo fpaths)

/-! ## `computeStats` -/

/-- Lines 125-135: the running earliest start and latest end; the record with index
`0` seeds both. -/
def aggWindow (i : Nat) (aggPerfInfo perfInfo : PerfInfo) : PerfInfo :=
  if i = 0 then
    let aggPerfInfo := { aggPerfInfo with Start := perfInfo.Start }
    { aggPerfInfo with End := perfInfo.End }
  else
    let aggPerfInfo :=
      if aggPerfInfo.Start.After perfInfo.Start then
        { aggPerfInfo with Start := perfInfo.Start }
      else aggPerfInfo
    if aggPerfInfo.End.Before perfInfo.End then { aggPerfInfo with End := perfInfo.End }
    else aggPerfInfo

/-- Lines 137-148: the accumulating assignments of one iteration. -/
def aggSums (aggPerfInfo perfInfo : PerfInfo) : PerfInfo :=
  { aggPerfInfo with
    NumJobs := wrapInt (aggPerfInfo.NumJobs + perfInfo.NumJobs)
    NumThreads := wrapInt (aggPerfInfo.NumThreads + perfInfo.NumThreads)
    Duration := F64.add aggPerfInfo.Duration perfInfo.Duration
    CoreHours := F64.add aggPerfInfo.CoreHours perfInfo.CoreHours
    MaxRss := max aggPerfInfo.MaxRss perfInfo.MaxRss
    OutBlocks := wrapInt (aggPerfInfo.OutBlocks + perfInfo.OutBlocks)
    InBlocks := wrapInt (aggPerfInfo.InBlocks + perfInfo.InBlocks)
    TotalBlocks := wrapInt (aggPerfInfo.TotalBlocks + perfInfo.TotalBlocks)
    OutputFiles := wrapUint (aggPerfInfo.OutputFiles + perfInfo.OutputFiles)
    OutputBytes := wrapUint (aggPerfInfo.OutputBytes + perfInfo.OutputBytes)
    UserTime := F64.add aggPerfInfo.UserTime perfInfo.UserTime
    SystemTime := F64.add aggPerfInfo.SystemTime perfInfo.SystemTime }

/-- The loop `for i, perfInfo := range perfInfos` (lines 124-149), from index `i`. -/
def aggLoop : Nat → PerfInfo → List PerfInfo → PerfInfo
  | _, aggPerfInfo, [] => aggPerfInfo
  | i, aggPerfInfo, perfInfo :: rest =>
    aggLoop (i + 1) (aggSums (aggWindow i aggPerfInfo perfInfo) perfInfo) rest

/-- Lines 150-154: the three rates from the summed duration, only when it is positive. -/
def aggRates (aggPerfInfo : PerfInfo) : PerfInfo :=
  if aggPerfInfo.Duration.gtZero then
    { aggPerfInfo with
      InBlocksRate := F64.div (F64.ofInt aggPerfInfo.InBlocks) aggPerfInfo.Duration
      OutBlocksRate := F64.div (F64.ofInt aggPerfInfo.OutBlocks) aggPerfInfo.Duration
      TotalBlocksRate := F64.div (F64.ofInt aggPerfInfo.TotalBlocks) aggPerfInfo.Duration }
  else aggPerfInfo

/-- Function `computeStats(perfInfos, vdrKillReport)`, for non-nil records and a
non-nil report. -/
def computeStats (perfInfos : List PerfInfo) (vdrKillReport : VDRKillReport) : PerfInfo :=
  let aggPerfInfo := aggLoop 0 PerfInfo.zero perfInfos
  let aggPerfInfo := aggRates aggPerfInfo
  let aggPerfInfo := { aggPerfInfo with
    WallTime := Seconds (aggPerfInfo.End.Sub aggPerfInfo.Start) }
  let aggPerfInfo := { aggPerfInfo with VdrFiles := vdrKillReport.Count }
  let aggPerfInfo := { aggPerfInfo with VdrBytes := vdrKillReport.Size }
  let aggPerfInfo := { aggPerfInfo with
    TotalFiles := wrapUint (aggPerfInfo.OutputFiles + aggPerfInfo.VdrFiles) }
  { aggPerfInfo with TotalBytes := wrapUint (aggPerfInfo.OutputBytes + aggPerfInfo.VdrBytes) }

/-! ## Auxiliary definitions for the statements -/

/-- Running earliest start of one iteration with a positive index. -/
def minStart (s : Time) (p : PerfInfo) : Time := if s.After p.Start then p.Start else s

/-- Running latest end of one iteration with a positive index. -/
def maxEnd (e : Time) (p : PerfInfo) : Time := if e.Before p.End then p.End else e

/-- A file system holding the single file `/exists`, of 100 bytes. -/
def exStat : String → Option Int := fun p => if p = "/exists" then some 100 else none

/-- Resource counters with the given peak memory and block counts. -/
def exRusage (maxRss inBlocks outBlocks : Int) : Rusage :=
  { MaxRss := maxRss, SharedRss := 0, UnsharedRss := 0, MinorFaults := 0, MajorFaults := 0,
    SwapOuts := 0, UserTime := F64.ofInt 3, SystemTime := F64.ofInt 1,
    InBlocks := inBlocks, OutBlocks := outBlocks,
    MessagesSent := 0, MessagesRcvd := 0, SignalsRcvd := 0 }

/-- A raw job record with the given optional sections. -/
def exJob (rusageInfo : Option RusageInfo) (wallClockInfo : Option WallClockInfo) : JobInfo :=
  { Name := "stage", Pid := 1, Host := "host", JobType := "local", Cwd := "/",
    PythonInfo := none, RusageInfo := rusageInfo, WallClockInfo := wallClockInfo }

/-- A half-hour wall-clock section on January 1, 2014. -/
def exClock : WallClockInfo :=
  { Start := "2014-01-01 10:00:00", End := "2014-01-01 10:30:00", Duration := F64.ofInt 1800 }

/-- The same wall-clock section with a duration of zero. -/
def exClockZero : WallClockInfo :=
  { Start := "2014-01-01 10:00:00", End := "2014-01-01 10:30:00", Duration := F64.zero }

/-- A performance record with the given window on January 1, 2014 (hour and minute of
start and end) and the wall time of that window. -/
def exWindow (h1 m1 h2 m2 : Nat) : PerfInfo :=
  { PerfInfo.zero with
    NumJobs := 1
    Start := Date 2014 1 1 h1 m1 0 0
    End := Date 2014 1 1 h2 m2 0 0
    WallTime := Seconds ((Date 2014 1 1 h2 m2 0 0).Sub (Date 2014 1 1 h1 m1 0 0)) }

/-- The three windows 10:00-10:30, 10:05-10:20 and 09:55-10:10. -/
def exThree : List PerfInfo := [exWindow 10 0 10 30, exWindow 10 5 10 20, exWindow 9 55 10 10]

/-- Both sub-records of a resource-usage section, each with its own counters. -/
def exUsage : RusageInfo :=
  { Self := some (exRusage 100 10 20), Children := some (exRusage 300 30 40) }

/-- A resource-usage section whose `self` sub-record is absent. -/
def exUsageNoSelf : RusageInfo :=
  { Self := none, Children := some (exRusage 300 30 40) }

/-- The record of `reduceJobInfo` after its first two assignments. -/
def initPerf (numThreads : Int) : PerfInfo :=
  { PerfInfo.zero with NumJobs := 1, NumThreads := numThreads }

/-- The record of `reduceJobInfo` after the assignments of lines 96-102, for non-nil
`self` and `children`. -/
def usagePerf (perfInfo : PerfInfo) (self children : Rusage) : PerfInfo :=
  { perfInfo with
    CoreHours := F64.div (F64.mul (F64.ofInt perfInfo.NumThreads) perfInfo.Duration)
      (F64.ofInt 3600)
    MaxRss := max self.MaxRss children.MaxRss
    InBlocks := wrapInt (self.InBlocks + children.InBlocks)
    OutBlocks := wrapInt (self.OutBlocks + children.OutBlocks)
    TotalBlocks := wrapInt (wrapInt (self.InBlocks + children.InBlocks)
      + wrapInt (self.OutBlocks + children.OutBlocks))
    UserTime := F64.add self.UserTime children.UserTime
    SystemTime := F64.add self.SystemTime children.SystemTime }

/-- A performance record with the given block counts; `TotalBlocks` is their 64-bit sum. -/
def exBlocks (inBlocks outBlocks : Int) : PerfInfo :=
  { PerfInfo.zero with
    NumJobs := 1
    InBlocks := inBlocks
    OutBlocks := outBlocks
    TotalBlocks := wrapInt (inBlocks + outBlocks) }

/-- A performance record whose `TotalBlocks` is not the sum of its block counts. -/
def exBadBlocks : PerfInfo := { PerfInfo.zero with NumJobs := 1, TotalBlocks := 5 }

/-- A performance record with the given peak memory. -/
def exRss (maxRss : Int) : PerfInfo := { PerfInfo.zero with NumJobs := 1, MaxRss := maxRss }

/-- Three tasks: raw record, output paths and thread count. -/
def exTasks : List (JobInfo × List String × Int) :=
  [(exJob none none, ["/exists"], 2),
   (exJob (some exUsage) (some exClock), ["/exists", "/missing"], 4),
   (exJob none (some exClock), [], 1)]

/-- The record of a call that returned; the zero record stands in for a panic. -/
def returned (x : Except Panic PerfInfo) : PerfInfo :=
  match x with
  | .ok r => r
  | .error _ => PerfInfo.zero

/-- The records of the three tasks. -/
def exTaskRecords : List PerfInfo :=
  exTasks.map (fun t => returned (reduceJobInfo exStat t.1 t.2.1 t.2.2))

/-- A record with its three rate fields replaced. -/
def setRates (f g h : PerfInfo → F64) (r : PerfInfo) : PerfInfo :=
  { r with InBlocksRate := f r, OutBlocksRate := g r, TotalBlocksRate := h r }

/-- A performance record of one job with one input block and a duration of `num / den`
seconds. -/
def exDur (num den : Int) : PerfInfo :=
  { PerfInfo.zero with
    NumJobs := 1
    InBlocks := 1
    TotalBlocks := 1
    Duration := F64.div (F64.ofInt num) (F64.ofInt den) }

/-- Negative zero, `-0.0`: it compares equal to `0` but carries the sign bit. -/
def F64.negZero : F64 := F64.fin true 0 (-1074)

/-- The duration that `reduceJobInfo` works with: the raw duration of the wall-clock
section, or the zero of the fresh record when the section is absent. -/
def clockDuration (wallClockInfo : Option WallClockInfo) : F64 :=
  match wallClockInfo with
  | some w => w.Duration
  | none => F64.zero

/-- A job record whose end timestamp is empty, as written for a task that has not
finished. -/
def exClockNoEnd : WallClockInfo :=
  { Start := "2014-01-01 10:00:00", End := "", Duration := F64.ofInt 1800 }

/-- The fields that `computeStats` reads from an input record; two records agree on
them when they differ at most in the rates, `WallTime`, and the total and reclaim
counts. -/
def agreeOnInputs (a b : PerfInfo) : Prop :=
  a.NumJobs = b.NumJobs ∧ a.NumThreads = b.NumThreads ∧ a.Duration = b.Duration ∧
  a.CoreHours = b.CoreHours ∧ a.MaxRss = b.MaxRss ∧ a.InBlocks = b.InBlocks ∧
  a.OutBlocks = b.OutBlocks ∧ a.TotalBlocks = b.TotalBlocks ∧ a.Start = b.Start ∧
  a.End = b.End ∧ a.UserTime = b.UserTime ∧ a.SystemTime = b.SystemTime ∧
  a.OutputFiles = b.OutputFiles ∧ a.OutputBytes = b.OutputBytes

/-- A copy of a record with other rates, another wall time and other total and reclaim
counts, as an earlier aggregate could carry them. -/
def exScrambled (r : PerfInfo) : PerfInfo :=
  { r with
    InBlocksRate := F64.ofInt 7
    OutBlocksRate := F64.ofInt 8
    TotalBlocksRate := F64.ofInt 9
    WallTime := F64.ofInt 12345
    TotalFiles := 11
    TotalBytes := 12
    VdrFiles := 13
    VdrBytes := 14 }

/-- The value of `0.0 + x`: `x` itself, except that a zero comes back as `+0.0`. -/
def F64.posZero : F64 → F64
  | F64.fin _ 0 _ => F64.zero
  | x => x

/-- What every record returned by `reduceJobInfo` for the thread count `n` satisfies:
one job, `n` threads, block counts and file counts in their 64-bit ranges, totals equal
to the output counts, nothing reclaimed, the wall time of its own window, and rates
derived from its own blocks and duration. -/
def TaskRecord (n : Int) (r : PerfInfo) : Prop :=
  r.NumJobs = 1 ∧ r.NumThreads = n ∧
  wrapInt r.InBlocks = r.InBlocks ∧ wrapInt r.OutBlocks = r.OutBlocks ∧
  wrapInt r.TotalBlocks = r.TotalBlocks ∧
  wrapUint r.OutputFiles = r.OutputFiles ∧ wrapUint r.OutputBytes = r.OutputBytes ∧
  r.TotalFiles = r.OutputFiles ∧ r.TotalBytes = r.OutputBytes ∧
  r.VdrFiles = 0 ∧ r.VdrBytes = 0 ∧
  r.WallTime = Seconds (r.End.Sub r.Start) ∧
  r.InBlocksRate
    = (if r.Duration.gtZero = true then F64.div (F64.ofInt r.InBlocks) r.Duration
        else F64.zero) ∧
  r.OutBlocksRate
    = (if r.Duration.gtZero = true then F64.div (F64.ofInt r.OutBlocks) r.Duration
        else F64.zero) ∧
  r.TotalBlocksRate
    = (if r.Duration.gtZero = true then F64.div (F64.ofInt r.TotalBlocks) r.Duration
        else F64.zero)

/-- A wall-clock section with a duration of negative zero. -/
def exClockNegZero : WallClockInfo :=
  { Start := "2014-01-01 10:00:00", End := "2014-01-01 10:00:00", Duration := F64.negZero }

/-! ### The parts of `round`, and the order of binary64 values -/

namespace F64

/-- The exponent chosen by `round`. -/
def roundExp (n d : Nat) (x : Int) : Int :=
  let e1 : Int := (bitlen n : Int) - (bitlen d : Int) - 53 + x
  let s1 : Int := x - e1
  let num1 : Nat := n * 2 ^ s1.toNat
  let den1 : Nat := d * 2 ^ (-s1).toNat
  let e2 : Int := if num1 / den1 < 2 ^ 53 then e1 else e1 + 1
  if e2 < -1074 then -1074 else e2

/-- The scaled numerator of `round` at its exponent. -/
def roundNum (n d : Nat) (x : Int) : Nat := n * 2 ^ (x - roundExp n d x).toNat

/-- The scaled denominator of `round` at its exponent. -/
def roundDen (n d : Nat) (x : Int) : Nat := d * 2 ^ (-(x - roundExp n d x)).toNat

/-- The mantissa of `round` after rounding to nearest, ties to even. -/
def roundMant (n d : Nat) (x : Int) : Nat :=
  let q := roundNum n d x / roundDen n d x
  let r := roundNum n d x % roundDen n d x
  if roundDen n d x < 2 * r ∨ (2 * r = roundDen n d x ∧ q % 2 = 1) then q + 1 else q

/-- The rational `n / d * 2^(x - t)`: the input of `round` in units of `2^t`. -/
def scaled (n d : Nat) (x t : Int) : ℚ := (n : ℚ) / d * (2 : ℚ) ^ (x - t)

/-- Rounding `a / b` to the nearest natural number, ties to even. -/
def rne (a b : Nat) : Nat :=
  let q := a / b
  let r := a % b
  if b < 2 * r ∨ (2 * r = b ∧ q % 2 = 1) then q + 1 else q

/-- Go's comparison `x <= y`; false when either side is NaN. -/
def le : F64 → F64 → Bool
  | nan, _ => false
  | _, nan => false
  | inf a, inf b => a || !b
  | inf a, fin _ _ _ => a
  | fin _ _ _, inf b => !b
  | fin a m e, fin b n f =>
    let g : Int := if e ≤ f then e else f
    decide (smant a m * 2 ^ (e - g).toNat ≤ smant b n * 2 ^ (f - g).toNat)

end F64

/-- A job record whose start timestamp is empty. -/
def exClockNoStart : WallClockInfo :=
  { Start := "", End := "2014-01-01 10:30:00", Duration := F64.ofInt 1800 }

/-- A wall-clock section whose start string has two blanks between day and hour. -/
def exClockBlanks : WallClockInfo :=
  { Start := "2014-01-01  10:00:00", End := "2014-01-01 10:30:00", Duration := F64.ofInt 1800 }

/-! ## Machine-integer lemmas -/

theorem wrapInt_wrapInt_add (a b : Int) : wrapInt (wrapInt a + b) = wrapInt (a + b) := by
  unfold wrapInt; omega

theorem wrapInt_add_wrapInt (a b : Int) : wrapInt (a + wrapInt b) = wrapInt (a + b) := by
  unfold wrapInt; omega

theorem wrapInt_idem (a : Int) : wrapInt (wrapInt a) = wrapInt a := by
  unfold wrapInt; omega

theorem wrapInt_of_range (a : Int) (h1 : -(2 ^ 63) ≤ a) (h2 : a < 2 ^ 63) : wrapInt a = a := by
  unfold wrapInt; omega

theorem wrapUint_wrapUint_add (a b : Nat) : wrapUint (wrapUint a + b) = wrapUint (a + b) := by
  unfold wrapUint; omega

theorem wrapUint_add_wrapUint (a b : Nat) : wrapUint (a + wrapUint b) = wrapUint (a + b) := by
  unfold wrapUint; omega

theorem wrapUint_of_lt (a : Nat) (h : a < 2 ^ 64) : wrapUint a = a := by
  unfold wrapUint; omega

/-- A chain of wrapping additions is the wrapped exact sum. -/
theorem foldl_wrapInt {α : Type} (g : α → Int) (xs : List α) (a : Int) :
    xs.foldl (fun x p => wrapInt (x + g p)) (wrapInt a) = wrapInt (a + (xs.map g).sum) := by
  induction xs generalizing a with
  | nil => simp
  | cons x xs ih =>
    simp only [List.foldl_cons, List.map_cons, List.sum_cons]
    rw [wrapInt_wrapInt_add, ih, add_assoc]

/-- A chain of wrapping unsigned additions is the wrapped exact sum. -/
theorem foldl_wrapUint {α : Type} (g : α → Nat) (xs : List α) (a : Nat) :
    xs.foldl (fun x p => wrapUint (x + g p)) (wrapUint a) = wrapUint (a + (xs.map g).sum) := by
  induction xs generalizing a with
  | nil => simp
  | cons x xs ih =>
    simp only [List.foldl_cons, List.map_cons, List.sum_cons]
    rw [wrapUint_wrapUint_add, ih, add_assoc]

/-! ## The loop of `computeStats`, field by field -/

/-- A field that each iteration updates by `op`, whatever the index, is a left fold. -/
theorem aggLoop_field {α : Type} (f : PerfInfo → α) (op : α → PerfInfo → α)
    (h : ∀ i a p, f (aggSums (aggWindow i a p) p) = op (f a) p) :
    ∀ (ps : List PerfInfo) (i : Nat) (a : PerfInfo), f (aggLoop i a ps) = ps.foldl op (f a) := by
  intro ps
  induction ps with
  | nil => intro i a; rfl
  | cons p ps ih => intro i a; simp only [aggLoop, List.foldl_cons]; rw [ih, h]

theorem aggLoop_NumJobs (ps : List PerfInfo) (i : Nat) (a : PerfInfo) :
    (aggLoop i a ps).NumJobs = ps.foldl (fun x p => wrapInt (x + p.NumJobs)) a.NumJobs :=
  aggLoop_field (fun r => r.NumJobs) _
    (by intro i a p; simp only [aggSums, aggWindow]; split <;> (try split) <;> (try split) <;> rfl)
    ps i a

theorem aggLoop_NumThreads (ps : List PerfInfo) (i : Nat) (a : PerfInfo) :
    (aggLoop i a ps).NumThreads
      = ps.foldl (fun x p => wrapInt (x + p.NumThreads)) a.NumThreads :=
  aggLoop_field (fun r => r.NumThreads) _
    (by intro i a p; simp only [aggSums, aggWindow]; split <;> (try split) <;> (try split) <;> rfl)
    ps i a

theorem aggLoop_InBlocks (ps : List PerfInfo) (i : Nat) (a : PerfInfo) :
    (aggLoop i a ps).InBlocks = ps.foldl (fun x p => wrapInt (x + p.InBlocks)) a.InBlocks :=
  aggLoop_field (fun r => r.InBlocks) _
    (by intro i a p; simp only [aggSums, aggWindow]; split <;> (try split) <;> (try split) <;> rfl)
    ps i a

theorem aggLoop_OutBlocks (ps : List PerfInfo) (i : Nat) (a : PerfInfo) :
    (aggLoop i a ps).OutBlocks = ps.foldl (fun x p => wrapInt (x + p.OutBlocks)) a.OutBlocks :=
  aggLoop_field (fun r => r.OutBlocks) _
    (by intro i a p; simp only [aggSums, aggWindow]; split <;> (try split) <;> (try split) <;> rfl)
    ps i a

theorem aggLoop_TotalBlocks (ps : List PerfInfo) (i : Nat) (a : PerfInfo) :
    (aggLoop i a ps).TotalBlocks
      = ps.foldl (fun x p => wrapInt (x + p.TotalBlocks)) a.TotalBlocks :=
  aggLoop_field (fun r => r.TotalBlocks) _
    (by intro i a p; simp only [aggSums, aggWindow]; split <;> (try split) <;> (try split) <;> rfl)
    ps i a

theorem aggLoop_OutputFiles (ps : List PerfInfo) (i : Nat) (a : PerfInfo) :
    (aggLoop i a ps).OutputFiles
      = ps.foldl (fun x p => wrapUint (x + p.OutputFiles)) a.OutputFiles :=
  aggLoop_field (fun r => r.OutputFiles) _
    (by intro i a p; simp only [aggSums, aggWindow]; split <;> (try split) <;> (try split) <;> rfl)
    ps i a

theorem aggLoop_OutputBytes (ps : List PerfInfo) (i : Nat) (a : PerfInfo) :
    (aggLoop i a ps).OutputBytes
      = ps.foldl (fun x p => wrapUint (x + p.OutputBytes)) a.OutputBytes :=
  aggLoop_field (fun r => r.OutputBytes) _
    (by intro i a p; simp only [aggSums, aggWindow]; split <;> (try split) <;> (try split) <;> rfl)
    ps i a

theorem aggLoop_MaxRss (ps : List PerfInfo) (i : Nat) (a : PerfInfo) :
    (aggLoop i a ps).MaxRss = ps.foldl (fun x p => max x p.MaxRss) a.MaxRss :=
  aggLoop_field (fun r => r.MaxRss) _
    (by intro i a p; simp only [aggSums, aggWindow]; split <;> (try split) <;> (try split) <;> rfl)
    ps i a

theorem aggLoop_Duration (ps : List PerfInfo) (i : Nat) (a : PerfInfo) :
    (aggLoop i a ps).Duration = ps.foldl (fun x p => F64.add x p.Duration) a.Duration :=
  aggLoop_field (fun r => r.Duration) _
    (by intro i a p; simp only [aggSums, aggWindow]; split <;> (try split) <;> (try split) <;> rfl)
    ps i a

/-- The loop never touches the rate, wall-time, total and reclaim fields. -/
theorem aggLoop_untouched (ps : List PerfInfo) (i : Nat) (a : PerfInfo) :
    (aggLoop i a ps).InBlocksRate = a.InBlocksRate ∧
    (aggLoop i a ps).OutBlocksRate = a.OutBlocksRate ∧
    (aggLoop i a ps).TotalBlocksRate = a.TotalBlocksRate ∧
    (aggLoop i a ps).WallTime = a.WallTime ∧
    (aggLoop i a ps).TotalFiles = a.TotalFiles ∧
    (aggLoop i a ps).TotalBytes = a.TotalBytes ∧
    (aggLoop i a ps).VdrFiles = a.VdrFiles ∧
    (aggLoop i a ps).VdrBytes = a.VdrBytes := by
  induction ps generalizing i a with
  | nil => simp [aggLoop]
  | cons p ps ih =>
    simp only [aggLoop]
    rw [(ih _ _).1, (ih _ _).2.1, (ih _ _).2.2.1, (ih _ _).2.2.2.1, (ih _ _).2.2.2.2.1,
      (ih _ _).2.2.2.2.2.1, (ih _ _).2.2.2.2.2.2.1, (ih _ _).2.2.2.2.2.2.2]
    simp only [aggSums, aggWindow]
    split <;> (try split) <;> (try split) <;> simp

theorem aggLoop_Start_succ (ps : List PerfInfo) (i : Nat) (a : PerfInfo) :
    (aggLoop (i + 1) a ps).Start = ps.foldl minStart a.Start := by
  induction ps generalizing i a with
  | nil => rfl
  | cons p ps ih =>
    simp only [aggLoop, List.foldl_cons]
    rw [ih]
    congr 1
    simp only [aggSums, aggWindow, minStart]
    split
    · omega
    · split <;> split <;> rfl

theorem aggLoop_End_succ (ps : List PerfInfo) (i : Nat) (a : PerfInfo) :
    (aggLoop (i + 1) a ps).End = ps.foldl maxEnd a.End := by
  induction ps generalizing i a with
  | nil => rfl
  | cons p ps ih =>
    simp only [aggLoop, List.foldl_cons]
    rw [ih]
    congr 1
    simp only [aggSums, aggWindow, maxEnd]
    split
    · omega
    · split <;> split <;> simp_all

theorem aggLoop_Start_cons (p : PerfInfo) (ps : List PerfInfo) (a : PerfInfo) :
    (aggLoop 0 a (p :: ps)).Start = ps.foldl minStart p.Start := by
  simp only [aggLoop]
  rw [aggLoop_Start_succ]
  simp [aggSums, aggWindow]

theorem aggLoop_End_cons (p : PerfInfo) (ps : List PerfInfo) (a : PerfInfo) :
    (aggLoop 0 a (p :: ps)).End = ps.foldl maxEnd p.End := by
  simp only [aggLoop]
  rw [aggLoop_End_succ]
  simp [aggSums, aggWindow]

theorem foldl_minStart_le (ps : List PerfInfo) (s : Time) :
    (ps.foldl minStart s).ns ≤ s.ns ∧ (∀ r ∈ ps, (ps.foldl minStart s).ns ≤ r.Start.ns) ∧
    (ps.foldl minStart s = s ∨ ∃ r ∈ ps, ps.foldl minStart s = r.Start) := by
  induction ps generalizing s with
  | nil => simp
  | cons p ps ih =>
    simp only [List.foldl_cons, List.mem_cons, forall_eq_or_imp, exists_eq_or_imp]
    obtain ⟨h1, h2, h3⟩ := ih (minStart s p)
    have hs : (minStart s p).ns ≤ s.ns ∧ (minStart s p).ns ≤ p.Start.ns ∧
        (minStart s p = s ∨ minStart s p = p.Start) := by
      unfold minStart Time.After
      split
      · rename_i h; simp at h; exact ⟨by omega, le_refl _, Or.inr rfl⟩
      · rename_i h; simp at h; exact ⟨le_refl _, by omega, Or.inl rfl⟩
    refine ⟨by omega, ⟨by omega, h2⟩, ?_⟩
    rcases h3 with h3 | h3
    · rcases hs.2.2 with h4 | h4
      · left; rw [h3, h4]
      · right; left; rw [h3, h4]
    · right; right; exact h3

theorem foldl_maxEnd_ge (ps : List PerfInfo) (e : Time) :
    e.ns ≤ (ps.foldl maxEnd e).ns ∧ (∀ r ∈ ps, r.End.ns ≤ (ps.foldl maxEnd e).ns) ∧
    (ps.foldl maxEnd e = e ∨ ∃ r ∈ ps, ps.foldl maxEnd e = r.End) := by
  induction ps generalizing e with
  | nil => simp
  | cons p ps ih =>
    simp only [List.foldl_cons, List.mem_cons, forall_eq_or_imp, exists_eq_or_imp]
    obtain ⟨h1, h2, h3⟩ := ih (maxEnd e p)
    have hs : e.ns ≤ (maxEnd e p).ns ∧ p.End.ns ≤ (maxEnd e p).ns ∧
        (maxEnd e p = e ∨ maxEnd e p = p.End) := by
      unfold maxEnd Time.Before
      split
      · rename_i h; simp at h; exact ⟨by omega, le_refl _, Or.inr rfl⟩
      · rename_i h; simp at h; exact ⟨le_refl _, by omega, Or.inl rfl⟩
    refine ⟨by omega, ⟨by omega, h2⟩, ?_⟩
    rcases h3 with h3 | h3
    · rcases hs.2.2 with h4 | h4
      · left; rw [h3, h4]
      · right; left; rw [h3, h4]
    · right; right; exact h3

/-! ## The fields of the record returned by `computeStats` -/

theorem aggRates_fields (a : PerfInfo) :
    (aggRates a).NumJobs = a.NumJobs ∧ (aggRates a).NumThreads = a.NumThreads ∧
    (aggRates a).Duration = a.Duration ∧ (aggRates a).CoreHours = a.CoreHours ∧
    (aggRates a).MaxRss = a.MaxRss ∧ (aggRates a).InBlocks = a.InBlocks ∧
    (aggRates a).OutBlocks = a.OutBlocks ∧ (aggRates a).TotalBlocks = a.TotalBlocks ∧
    (aggRates a).Start = a.Start ∧ (aggRates a).End = a.End ∧
    (aggRates a).OutputFiles = a.OutputFiles ∧ (aggRates a).OutputBytes = a.OutputBytes := by
  unfold aggRates; split <;> simp

theorem computeStats_NumJobs (rs : List PerfInfo) (v : VDRKillReport) :
    (computeStats rs v).NumJobs = (aggLoop 0 PerfInfo.zero rs).NumJobs := by
  simp only [computeStats]; exact (aggRates_fields _).1

theorem computeStats_NumThreads (rs : List PerfInfo) (v : VDRKillReport) :
    (computeStats rs v).NumThreads = (aggLoop 0 PerfInfo.zero rs).NumThreads := by
  simp only [computeStats]; exact (aggRates_fields _).2.1

theorem computeStats_Duration (rs : List PerfInfo) (v : VDRKillReport) :
    (computeStats rs v).Duration = (aggLoop 0 PerfInfo.zero rs).Duration := by
  simp only [computeStats]; exact (aggRates_fields _).2.2.1

theorem computeStats_MaxRss (rs : List PerfInfo) (v : VDRKillReport) :
    (computeStats rs v).MaxRss = (aggLoop 0 PerfInfo.zero rs).MaxRss := by
  simp only [computeStats]; exact (aggRates_fields _).2.2.2.2.1

theorem computeStats_InBlocks (rs : List PerfInfo) (v : VDRKillReport) :
    (computeStats rs v).InBlocks = (aggLoop 0 PerfInfo.zero rs).InBlocks := by
  simp only [computeStats]; exact (aggRates_fields _).2.2.2.2.2.1

theorem computeStats_OutBlocks (rs : List PerfInfo) (v : VDRKillReport) :
    (computeStats rs v).OutBlocks = (aggLoop 0 PerfInfo.zero rs).OutBlocks := by
  simp only [computeStats]; exact (aggRates_fields _).2.2.2.2.2.2.1

theorem computeStats_TotalBlocks (rs : List PerfInfo) (v : VDRKillReport) :
    (computeStats rs v).TotalBlocks = (aggLoop 0 PerfInfo.zero rs).TotalBlocks := by
  simp only [computeStats]; exact (aggRates_fields _).2.2.2.2.2.2.2.1

theorem computeStats_Start (rs : List PerfInfo) (v : VDRKillReport) :
    (computeStats rs v).Start = (aggLoop 0 PerfInfo.zero rs).Start := by
  simp only [computeStats]; exact (aggRates_fields _).2.2.2.2.2.2.2.2.1

theorem computeStats_End (rs : List PerfInfo) (v : VDRKillReport) :
    (computeStats rs v).End = (aggLoop 0 PerfInfo.zero rs).End := by
  simp only [computeStats]; exact (aggRates_fields _).2.2.2.2.2.2.2.2.2.1

theorem computeStats_OutputFiles (rs : List PerfInfo) (v : VDRKillReport) :
    (computeStats rs v).OutputFiles = (aggLoop 0 PerfInfo.zero rs).OutputFiles := by
  simp only [computeStats]; exact (aggRates_fields _).2.2.2.2.2.2.2.2.2.2.1

theorem computeStats_OutputBytes (rs : List PerfInfo) (v : VDRKillReport) :
    (computeStats rs v).OutputBytes = (aggLoop 0 PerfInfo.zero rs).OutputBytes := by
  simp only [computeStats]; exact (aggRates_fields _).2.2.2.2.2.2.2.2.2.2.2

theorem computeStats_WallTime (rs : List PerfInfo) (v : VDRKillReport) :
    (computeStats rs v).WallTime
      = Seconds ((computeStats rs v).End.Sub (computeStats rs v).Start) := by
  rfl

/-! ## Exact cases of the binary64 arithmetic -/

namespace F64

theorem bitlenAux_zero (fuel : Nat) : bitlenAux fuel 0 = 0 := by
  cases fuel <;> simp [bitlenAux]

theorem bitlenAux_pow_le (fuel : Nat) : ∀ n : Nat, n ≤ fuel → 1 ≤ n →
    1 ≤ bitlenAux fuel n ∧ 2 ^ (bitlenAux fuel n - 1) ≤ n := by
  induction fuel with
  | zero => intro n h h1; omega
  | succ fuel ih =>
    intro n h h1
    have hn : n ≠ 0 := by omega
    simp only [bitlenAux, hn, if_false]
    refine ⟨by omega, ?_⟩
    simp only [Nat.add_sub_cancel]
    by_cases h2 : n / 2 = 0
    · rw [h2, bitlenAux_zero]; simpa using h1
    · obtain ⟨h3, h4⟩ := ih (n / 2) (by omega) (by omega)
      have h5 : bitlenAux fuel (n / 2) = (bitlenAux fuel (n / 2) - 1) + 1 := by omega
      rw [h5, pow_succ]
      omega

theorem bitlen_pow_le (n : Nat) (h : 1 ≤ n) : 1 ≤ bitlen n ∧ 2 ^ (bitlen n - 1) ≤ n :=
  bitlenAux_pow_le n n (le_refl n) h

/-- Converting a non-zero integer never yields a zero mantissa. -/
theorem round_int_cases (b : Bool) (k : Nat) (h : 1 ≤ k) :
    round b k 1 0 = inf b ∨ ∃ m e, 0 < m ∧ round b k 1 0 = fin b m e := by
  obtain ⟨hb1, hb2⟩ := bitlen_pow_le k h
  have hone : bitlen 1 = 1 := by decide
  unfold round
  simp only [hone]
  generalize hE2 : (if k * 2 ^ (0 - ((bitlen k : Int) - ((1 : Nat) : Int) - 53 + 0)).toNat /
      (1 * 2 ^ (-(0 - ((bitlen k : Int) - ((1 : Nat) : Int) - 53 + 0))).toNat) < 2 ^ 53
      then ((bitlen k : Int) - ((1 : Nat) : Int) - 53 + 0)
      else ((bitlen k : Int) - ((1 : Nat) : Int) - 53 + 0) + 1) = e2
  have he2 : e2 ≤ (bitlen k : Int) - 53 := by
    rw [← hE2]; split <;> omega
  generalize hE : (if e2 < -1074 then (-1074 : Int) else e2) = e
  have he : e ≤ (bitlen k : Int) - 53 ∨ e < 0 := by
    rw [← hE]; split <;> omega
  have hq : 1 ≤ k * 2 ^ (0 - e).toNat / (1 * 2 ^ (-(0 - e)).toNat) := by
    rw [Nat.one_mul]
    apply (Nat.one_le_div_iff (by positivity)).2
    by_cases hs : e < 0
    · have : (-(0 - e)).toNat = 0 := by omega
      rw [this]
      calc 2 ^ 0 = 1 := by norm_num
        _ ≤ k := h
        _ ≤ k * 2 ^ (0 - e).toNat := Nat.le_mul_of_pos_right _ (by positivity)
    · have h1 : (0 - e).toNat = 0 := by omega
      have h2 : (-(0 - e)).toNat ≤ bitlen k - 1 := by omega
      rw [h1]
      calc 2 ^ (-(0 - e)).toNat ≤ 2 ^ (bitlen k - 1) := Nat.pow_le_pow_right (by norm_num) h2
        _ ≤ k := hb2
        _ = k * 2 ^ 0 := by norm_num
  generalize k * 2 ^ (0 - e).toNat / (1 * 2 ^ (-(0 - e)).toNat) = q at hq ⊢
  generalize k * 2 ^ (0 - e).toNat % (1 * 2 ^ (-(0 - e)).toNat) = r
  generalize hQ1 : (if 1 * 2 ^ (-(0 - e)).toNat < 2 * r ∨
      (2 * r = 1 * 2 ^ (-(0 - e)).toNat ∧ q % 2 = 1) then q + 1 else q) = q1
  have hq1 : 1 ≤ q1 := by
    rw [← hQ1]; split <;> omega
  by_cases h971 : 971 < (if q1 = 2 ^ 53 then e + 1 else e)
  · left; rw [if_pos h971]
  · right
    rw [if_neg h971]
    refine ⟨_, _, ?_, rfl⟩
    split
    · norm_num
    · omega

theorem ofInt_add_zero (n : Int) : add (ofInt n) zero = ofInt n := by
  unfold ofInt
  split
  · decide
  · rename_i hn
    have hk : 1 ≤ n.natAbs := by omega
    rcases round_int_cases (decide (n < 0)) n.natAbs hk with h | ⟨m, e, hm, h⟩
    · rw [h]; rfl
    · rw [h]
      have hm0 : m ≠ 0 := by omega
      simp [add, zero, hm0]

theorem div_zero_billion : div (ofInt 0) (ofInt 1000000000) = zero := by decide

end F64

theorem Seconds_whole (n : Int) : Seconds (n * 1000000000) = F64.ofInt n := by
  unfold Seconds
  have h1 : Int.tdiv (n * 1000000000) 1000000000 = n := by
    rw [Int.mul_tdiv_cancel _ (by norm_num)]
  have h2 : Int.tmod (n * 1000000000) 1000000000 = 0 := by
    simp
  simp only [h1, h2, F64.div_zero_billion, F64.ofInt_add_zero]

/-! ## C1: the time window of the aggregate -/

/-- C1 (as amended): for every non-empty sequence of records and every reclaim report,
the aggregate `Start` is the earliest input `Start`, the aggregate `End` is the latest
input `End`, and `WallTime` is `Seconds()` of the span `End - Start` clamped to the
range of `time.Duration` (what `Time.Sub` returns); whenever the span is a whole number
`n` of seconds inside that range, `WallTime` is exactly `float64(n)`. The inputs'
`WallTime` fields are not used. -/
theorem computeStats_window (rs : List PerfInfo) (v : VDRKillReport) (h : rs ≠ []) :
    (∃ r ∈ rs, (computeStats rs v).Start = r.Start) ∧
    (∀ r ∈ rs, (computeStats rs v).Start.ns ≤ r.Start.ns) ∧
    (∃ r ∈ rs, (computeStats rs v).End = r.End) ∧
    (∀ r ∈ rs, r.End.ns ≤ (computeStats rs v).End.ns) ∧
    (∀ d : Int, d = (computeStats rs v).End.ns - (computeStats rs v).Start.ns →
      (computeStats rs v).WallTime
        = Seconds (if d < -(2 ^ 63) then -(2 ^ 63) else if 2 ^ 63 - 1 < d then 2 ^ 63 - 1 else d)) ∧
    (∀ n : Int, (computeStats rs v).End.ns - (computeStats rs v).Start.ns = n * 1000000000 →
      -(2 ^ 63) ≤ n * 1000000000 → n * 1000000000 ≤ 2 ^ 63 - 1 →
      (computeStats rs v).WallTime = F64.ofInt n) := by
  obtain ⟨p, ps, rfl⟩ := List.exists_cons_of_ne_nil h
  have hS : (computeStats (p :: ps) v).Start = ps.foldl minStart p.Start := by
    rw [computeStats_Start, aggLoop_Start_cons]
  have hE : (computeStats (p :: ps) v).End = ps.foldl maxEnd p.End := by
    rw [computeStats_End, aggLoop_End_cons]
  obtain ⟨s1, s2, s3⟩ := foldl_minStart_le ps p.Start
  obtain ⟨e1, e2, e3⟩ := foldl_maxEnd_ge ps p.End
  have hW : ∀ d : Int,
      d = (computeStats (p :: ps) v).End.ns - (computeStats (p :: ps) v).Start.ns →
      (computeStats (p :: ps) v).WallTime
        = Seconds (if d < -(2 ^ 63) then -(2 ^ 63)
            else if 2 ^ 63 - 1 < d then 2 ^ 63 - 1 else d) := by
    intro d hd
    rw [computeStats_WallTime, hd]
    rfl
  refine ⟨?_, ?_, ?_, ?_, hW, ?_⟩
  · rw [hS]
    rcases s3 with s3 | ⟨r, hr, s3⟩
    · exact ⟨p, List.mem_cons_self _ _, s3⟩
    · exact ⟨r, List.mem_cons_of_mem _ hr, s3⟩
  · intro r hr
    rw [hS]
    rcases List.mem_cons.1 hr with rfl | hr
    · exact s1
    · exact s2 r hr
  · rw [hE]
    rcases e3 with e3 | ⟨r, hr, e3⟩
    · exact ⟨p, List.mem_cons_self _ _, e3⟩
    · exact ⟨r, List.mem_cons_of_mem _ hr, e3⟩
  · intro r hr
    rw [hE]
    rcases List.mem_cons.1 hr with rfl | hr
    · exact e1
    · exact e2 r hr
  · intro n hn h1 h2
    rw [hW _ rfl, hn, if_neg (by omega), if_neg (by omega), Seconds_whole]

/-- C1 witness: the windows 10:00-10:30, 10:05-10:20 and 09:55-10:10 of one day give
`Start` 09:55, `End` 10:30 and `WallTime` 2100 seconds (not the 3600 seconds that the
three wall times add up to). -/
theorem computeStats_window_witness :
    exThree ≠ [] ∧
    (computeStats exThree ⟨0, 0⟩).Start = Date 2014 1 1 9 55 0 0 ∧
    (computeStats exThree ⟨0, 0⟩).End = Date 2014 1 1 10 30 0 0 ∧
    (computeStats exThree ⟨0, 0⟩).WallTime = F64.ofInt 2100 ∧
    (exThree.map (fun r => r.WallTime)).foldl F64.add F64.zero = F64.ofInt 3600 :=
  ⟨by decide, by decide, by decide,
    (computeStats_window exThree ⟨0, 0⟩ (by decide)).2.2.2.2.2 2100 (by decide) (by decide)
      (by decide),
    by decide⟩

set_option maxRecDepth 100000 in
/-- C1 counterexample: aggregating the record of a task without a wall-clock section
(its `Start` and `End` are the zero instant) with the record of a half-hour task of
January 1, 2014 gives a span of 63524169000 seconds from `Start` to `End`, but a
`WallTime` of 9223372036.854776 seconds, the largest `time.Duration`. -/
theorem computeStats_wallTime_clamped :
    ∃ r0 r1 : PerfInfo,
      reduceJobInfo exStat (exJob none none) [] 1 = .ok r0 ∧
      reduceJobInfo exStat (exJob none (some exClock)) [] 1 = .ok r1 ∧
      [r0, r1] ≠ [] ∧
      (computeStats [r0, r1] ⟨0, 0⟩).Start = Time.zero ∧
      (computeStats [r0, r1] ⟨0, 0⟩).End = Date 2014 1 1 10 30 0 0 ∧
      (computeStats [r0, r1] ⟨0, 0⟩).End.ns - (computeStats [r0, r1] ⟨0, 0⟩).Start.ns
        = 63524169000 * 1000000000 ∧
      (computeStats [r0, r1] ⟨0, 0⟩).WallTime = Seconds (2 ^ 63 - 1) ∧
      (computeStats [r0, r1] ⟨0, 0⟩).WallTime = F64.fin false 4835703278458517 (-19) ∧
      (computeStats [r0, r1] ⟨0, 0⟩).WallTime ≠ F64.ofInt 63524169000 :=
  ⟨_, _, rfl, rfl, by decide, by decide, by decide, by decide, by decide, by decide, by decide⟩

/-! ## The stages of `reduceJobInfo` -/

/-- The loop over the output paths changes `OutputFiles` and `OutputBytes` only. -/
theorem foldl_reduceOutput_fields (stat : String → Option Int) (fp : List String)
    (a : PerfInfo) :
    (fp.foldl (reduceOutput stat) a).NumJobs = a.NumJobs ∧
    (fp.foldl (reduceOutput stat) a).NumThreads = a.NumThreads ∧
    (fp.foldl (reduceOutput stat) a).Duration = a.Duration ∧
    (fp.foldl (reduceOutput stat) a).CoreHours = a.CoreHours ∧
    (fp.foldl (reduceOutput stat) a).MaxRss = a.MaxRss ∧
    (fp.foldl (reduceOutput stat) a).InBlocks = a.InBlocks ∧
    (fp.foldl (reduceOutput stat) a).OutBlocks = a.OutBlocks ∧
    (fp.foldl (reduceOutput stat) a).TotalBlocks = a.TotalBlocks ∧
    (fp.foldl (reduceOutput stat) a).InBlocksRate = a.InBlocksRate ∧
    (fp.foldl (reduceOutput stat) a).OutBlocksRate = a.OutBlocksRate ∧
    (fp.foldl (reduceOutput stat) a).TotalBlocksRate = a.TotalBlocksRate ∧
    (fp.foldl (reduceOutput stat) a).Start = a.Start ∧
    (fp.foldl (reduceOutput stat) a).End = a.End ∧
    (fp.foldl (reduceOutput stat) a).WallTime = a.WallTime ∧
    (fp.foldl (reduceOutput stat) a).UserTime = a.UserTime ∧
    (fp.foldl (reduceOutput stat) a).SystemTime = a.SystemTime ∧
    (fp.foldl (reduceOutput stat) a).VdrFiles = a.VdrFiles ∧
    (fp.foldl (reduceOutput stat) a).VdrBytes = a.VdrBytes := by
  induction fp generalizing a with
  | nil => simp
  | cons p fp ih =>
    simp only [List.foldl_cons]
    have h := ih (reduceOutput stat a p)
    have e : ∀ x : PerfInfo, reduceOutput stat a p = x →
        x.NumJobs = a.NumJobs ∧ x.NumThreads = a.NumThreads ∧ x.Duration = a.Duration ∧
        x.CoreHours = a.CoreHours ∧ x.MaxRss = a.MaxRss ∧ x.InBlocks = a.InBlocks ∧
        x.OutBlocks = a.OutBlocks ∧ x.TotalBlocks = a.TotalBlocks ∧
        x.InBlocksRate = a.InBlocksRate ∧ x.OutBlocksRate = a.OutBlocksRate ∧
        x.TotalBlocksRate = a.TotalBlocksRate ∧ x.Start = a.Start ∧ x.End = a.End ∧
        x.WallTime = a.WallTime ∧ x.UserTime = a.UserTime ∧ x.SystemTime = a.SystemTime ∧
        x.VdrFiles = a.VdrFiles ∧ x.VdrBytes = a.VdrBytes := by
      intro x hx
      subst hx
      unfold reduceOutput
      split <;> simp
    have e := e _ rfl
    generalize reduceOutput stat a p = x at h e
    generalize fp.foldl (reduceOutput stat) x = y at h
    simp_all

/-- The number of files counted by the loop over the output paths. -/
theorem foldl_reduceOutput_files (stat : String → Option Int) (fp : List String)
    (a : PerfInfo) :
    (fp.foldl (reduceOutput stat) a).OutputFiles
      = wrapUint (a.OutputFiles + (fp.filter (fun p => (stat p).isSome)).length)
      ∨ (fp.filter (fun p => (stat p).isSome) = [] ∧
          (fp.foldl (reduceOutput stat) a).OutputFiles = a.OutputFiles) := by
  induction fp generalizing a with
  | nil => right; simp
  | cons p fp ih =>
    simp only [List.foldl_cons]
    cases hs : stat p with
    | none =>
      have hr : reduceOutput stat a p = a := by simp [reduceOutput, hs]
      rw [hr]
      simpa [List.filter_cons, hs] using ih a
    | some size =>
      have hr : (reduceOutput stat a p).OutputFiles = wrapUint (a.OutputFiles + 1) := by
        simp [reduceOutput, hs]
      left
      rcases ih (reduceOutput stat a p) with h | ⟨h1, h2⟩
      · rw [h, hr, wrapUint_wrapUint_add]
        simp [List.filter_cons, hs]
        congr 1
        omega
      · rw [h2, hr]
        simp [List.filter_cons, hs, h1]

/-- The number of bytes counted by the loop over the output paths. -/
theorem foldl_reduceOutput_bytes (stat : String → Option Int) (fp : List String)
    (a : PerfInfo) :
    (fp.foldl (reduceOutput stat) a).OutputBytes
      = wrapUint (a.OutputBytes + ((fp.filterMap stat).map toUint64).sum)
      ∨ (fp.filterMap stat = [] ∧
          (fp.foldl (reduceOutput stat) a).OutputBytes = a.OutputBytes) := by
  induction fp generalizing a with
  | nil => right; simp
  | cons p fp ih =>
    simp only [List.foldl_cons]
    cases hs : stat p with
    | none =>
      have hr : reduceOutput stat a p = a := by simp [reduceOutput, hs]
      rw [hr]
      simpa [List.filterMap_cons, hs] using ih a
    | some size =>
      have hr : (reduceOutput stat a p).OutputBytes
          = wrapUint (a.OutputBytes + toUint64 size) := by
        simp [reduceOutput, hs]
      left
      rcases ih (reduceOutput stat a p) with h | ⟨h1, h2⟩
      · rw [h, hr, wrapUint_wrapUint_add]
        simp [List.filterMap_cons, hs, add_assoc]
      · rw [h2, hr]
        simp [List.filterMap_cons, hs, h1]

theorem toUint64_add (a b : Int) : wrapUint (toUint64 a + toUint64 b) = toUint64 (a + b) := by
  unfold wrapUint toUint64; omega

theorem wrapUint_toUint64 (a : Int) : wrapUint (toUint64 a) = toUint64 a := by
  unfold wrapUint toUint64; omega

/-- Adding the converted sizes with wrap-around is converting the exact sum. -/
theorem sum_toUint64 (xs : List Int) : wrapUint ((xs.map toUint64).sum) = toUint64 xs.sum := by
  induction xs with
  | nil => decide
  | cons x xs ih =>
    simp only [List.map_cons, List.sum_cons]
    rw [← wrapUint_add_wrapUint, ih, toUint64_add]

theorem reduceOutputs_fields (stat : String → Option Int) (fp : List String) (a : PerfInfo) :
    (reduceOutputs stat a fp).NumJobs = a.NumJobs ∧
    (reduceOutputs stat a fp).NumThreads = a.NumThreads ∧
    (reduceOutputs stat a fp).Duration = a.Duration ∧
    (reduceOutputs stat a fp).CoreHours = a.CoreHours ∧
    (reduceOutputs stat a fp).MaxRss = a.MaxRss ∧
    (reduceOutputs stat a fp).InBlocks = a.InBlocks ∧
    (reduceOutputs stat a fp).OutBlocks = a.OutBlocks ∧
    (reduceOutputs stat a fp).TotalBlocks = a.TotalBlocks ∧
    (reduceOutputs stat a fp).InBlocksRate = a.InBlocksRate ∧
    (reduceOutputs stat a fp).OutBlocksRate = a.OutBlocksRate ∧
    (reduceOutputs stat a fp).TotalBlocksRate = a.TotalBlocksRate ∧
    (reduceOutputs stat a fp).Start = a.Start ∧
    (reduceOutputs stat a fp).End = a.End ∧
    (reduceOutputs stat a fp).WallTime = a.WallTime ∧
    (reduceOutputs stat a fp).UserTime = a.UserTime ∧
    (reduceOutputs stat a fp).SystemTime = a.SystemTime ∧
    (reduceOutputs stat a fp).VdrFiles = a.VdrFiles ∧
    (reduceOutputs stat a fp).VdrBytes = a.VdrBytes :=
  foldl_reduceOutput_fields stat fp a

theorem reduceOutputs_files (stat : String → Option Int) (fp : List String) (a : PerfInfo)
    (h : a.OutputFiles = 0) :
    (reduceOutputs stat a fp).OutputFiles
      = wrapUint (fp.filter (fun p => (stat p).isSome)).length ∧
    (reduceOutputs stat a fp).TotalFiles = (reduceOutputs stat a fp).OutputFiles := by
  refine ⟨?_, rfl⟩
  show (fp.foldl (reduceOutput stat) a).OutputFiles = _
  rcases foldl_reduceOutput_files stat fp a with h1 | ⟨h1, h2⟩
  · rw [h1, h, Nat.zero_add]
  · rw [h2, h, h1]; rfl

theorem reduceOutputs_bytes (stat : String → Option Int) (fp : List String) (a : PerfInfo)
    (h : a.OutputBytes = 0) :
    (reduceOutputs stat a fp).OutputBytes = toUint64 (fp.filterMap stat).sum ∧
    (reduceOutputs stat a fp).TotalBytes = (reduceOutputs stat a fp).OutputBytes := by
  refine ⟨?_, rfl⟩
  show (fp.foldl (reduceOutput stat) a).OutputBytes = _
  rcases foldl_reduceOutput_bytes stat fp a with h1 | ⟨h1, h2⟩
  · rw [h1, h, Nat.zero_add, sum_toUint64]
  · rw [h2, h, h1]; rfl

theorem reduceWallClock_fields (a : PerfInfo) (w : Option WallClockInfo) :
    (reduceWallClock a w).NumJobs = a.NumJobs ∧
    (reduceWallClock a w).NumThreads = a.NumThreads ∧
    (reduceWallClock a w).CoreHours = a.CoreHours ∧
    (reduceWallClock a w).MaxRss = a.MaxRss ∧
    (reduceWallClock a w).InBlocks = a.InBlocks ∧
    (reduceWallClock a w).OutBlocks = a.OutBlocks ∧
    (reduceWallClock a w).TotalBlocks = a.TotalBlocks ∧
    (reduceWallClock a w).InBlocksRate = a.InBlocksRate ∧
    (reduceWallClock a w).OutBlocksRate = a.OutBlocksRate ∧
    (reduceWallClock a w).TotalBlocksRate = a.TotalBlocksRate ∧
    (reduceWallClock a w).UserTime = a.UserTime ∧
    (reduceWallClock a w).SystemTime = a.SystemTime ∧
    (reduceWallClock a w).OutputFiles = a.OutputFiles ∧
    (reduceWallClock a w).OutputBytes = a.OutputBytes ∧
    (reduceWallClock a w).VdrFiles = a.VdrFiles ∧
    (reduceWallClock a w).VdrBytes = a.VdrBytes := by
  cases w <;> simp [reduceWallClock]

theorem reduceRates_fields (a : PerfInfo) :
    (reduceRates a).NumJobs = a.NumJobs ∧
    (reduceRates a).NumThreads = a.NumThreads ∧
    (reduceRates a).Duration = a.Duration ∧
    (reduceRates a).CoreHours = a.CoreHours ∧
    (reduceRates a).MaxRss = a.MaxRss ∧
    (reduceRates a).InBlocks = a.InBlocks ∧
    (reduceRates a).OutBlocks = a.OutBlocks ∧
    (reduceRates a).TotalBlocks = a.TotalBlocks ∧
    (reduceRates a).Start = a.Start ∧
    (reduceRates a).End = a.End ∧
    (reduceRates a).WallTime = a.WallTime ∧
    (reduceRates a).UserTime = a.UserTime ∧
    (reduceRates a).SystemTime = a.SystemTime ∧
    (reduceRates a).OutputFiles = a.OutputFiles ∧
    (reduceRates a).OutputBytes = a.OutputBytes ∧
    (reduceRates a).VdrFiles = a.VdrFiles ∧
    (reduceRates a).VdrBytes = a.VdrBytes := by
  unfold reduceRates; split <;> simp

theorem reduceRates_pos (a : PerfInfo) (h : a.Duration.gtZero = true) :
    (reduceRates a).InBlocksRate = F64.div (F64.ofInt a.InBlocks) a.Duration ∧
    (reduceRates a).OutBlocksRate = F64.div (F64.ofInt a.OutBlocks) a.Duration ∧
    (reduceRates a).TotalBlocksRate = F64.div (F64.ofInt a.TotalBlocks) a.Duration := by
  simp [reduceRates, h]

theorem reduceRates_nonpos (a : PerfInfo) (h : a.Duration.gtZero = false) :
    reduceRates a = a := by
  simp [reduceRates, h]

/-- Without a resource-usage section `reduceJobInfo` returns. -/
theorem reduceJobInfo_of_none (stat : String → Option Int) (j : JobInfo) (fp : List String)
    (n : Int) (h : j.RusageInfo = none) :
    reduceJobInfo stat j fp n
      = .ok (reduceOutputs stat (reduceWallClock (initPerf n) j.WallClockInfo) fp) := by
  simp [reduceJobInfo, reduceRusage, h, initPerf]

/-- With a resource-usage section holding both sub-records `reduceJobInfo` returns. -/
theorem reduceJobInfo_of_both (stat : String → Option Int) (j : JobInfo) (fp : List String)
    (n : Int) (s c : Rusage) (h : j.RusageInfo = some ⟨some s, some c⟩) :
    reduceJobInfo stat j fp n
      = .ok (reduceOutputs stat
          (reduceRates (usagePerf (reduceWallClock (initPerf n) j.WallClockInfo) s c)) fp) := by
  simp [reduceJobInfo, reduceRusage, h, initPerf, usagePerf]

/-- With a resource-usage section lacking a sub-record `reduceJobInfo` panics. -/
theorem reduceJobInfo_of_nil (stat : String → Option Int) (j : JobInfo) (fp : List String)
    (n : Int) (ru : RusageInfo) (h : j.RusageInfo = some ru)
    (h1 : ru.Self = none ∨ ru.Children = none) :
    reduceJobInfo stat j fp n = .error Panic.nilDereference := by
  obtain ⟨s, c⟩ := ru
  cases s <;> cases c <;> simp_all [reduceJobInfo, reduceRusage]

/-- The three ways `reduceJobInfo` can run, by the shape of the resource-usage section. -/
theorem reduceJobInfo_cases (j : JobInfo) :
    j.RusageInfo = none ∨ (∃ s c, j.RusageInfo = some ⟨some s, some c⟩) ∨
    (∃ ru, j.RusageInfo = some ru ∧ (ru.Self = none ∨ ru.Children = none)) := by
  cases h : j.RusageInfo with
  | none => left; rfl
  | some ru =>
    obtain ⟨s, c⟩ := ru
    cases s with
    | none => right; right; exact ⟨_, rfl, Or.inl rfl⟩
    | some s =>
      cases c with
      | none => right; right; exact ⟨_, rfl, Or.inr rfl⟩
      | some c => right; left; exact ⟨s, c, rfl⟩

/-- `reduceJobInfo` panics exactly when a sub-record of a present resource-usage
section is nil. -/
theorem reduceJobInfo_panics_iff (stat : String → Option Int) (j : JobInfo)
    (fp : List String) (n : Int) :
    reduceJobInfo stat j fp n = .error Panic.nilDereference ↔
      ∃ ru, j.RusageInfo = some ru ∧ (ru.Self = none ∨ ru.Children = none) := by
  constructor
  · intro h
    rcases reduceJobInfo_cases j with h1 | ⟨s, c, h1⟩ | h1
    · rw [reduceJobInfo_of_none stat j fp n h1] at h; cases h
    · rw [reduceJobInfo_of_both stat j fp n s c h1] at h; cases h
    · exact h1
  · rintro ⟨ru, h1, h2⟩
    exact reduceJobInfo_of_nil stat j fp n ru h1 h2

/-! ## C2: `reduceJobInfo` and absent sub-records -/

/-- C2 (the code at the failing input): a raw record whose resource-usage section is
present but whose `self` sub-record is nil makes `reduceJobInfo` panic with a nil
dereference instead of returning a record with zero-valued fields, with or without a
wall-clock section; a record with both sections absent does return. -/
theorem reduceJobInfo_nil_self_panics :
    reduceJobInfo exStat (exJob (some exUsageNoSelf) (some exClock)) ["/exists"] 4
      = .error Panic.nilDereference ∧
    reduceJobInfo exStat (exJob (some exUsageNoSelf) none) [] 0
      = .error Panic.nilDereference ∧
    reduceJobInfo exStat (exJob none none) [] 0 = .ok (initPerf 0) :=
  ⟨rfl, rfl, rfl⟩

/-! ## C3: the block total of the aggregate -/

theorem wrapInt_add_congr (a b c d : Int) (h1 : wrapInt a = wrapInt c)
    (h2 : wrapInt b = wrapInt d) : wrapInt (a + b) = wrapInt (c + d) := by
  unfold wrapInt at *; omega

theorem wrapInt_zero : wrapInt 0 = 0 := by decide

theorem computeStats_NumJobs_sum (rs : List PerfInfo) (v : VDRKillReport) :
    (computeStats rs v).NumJobs = wrapInt (rs.map (fun r => r.NumJobs)).sum := by
  rw [computeStats_NumJobs, aggLoop_NumJobs]
  have h := foldl_wrapInt (fun r : PerfInfo => r.NumJobs) rs 0
  rw [wrapInt_zero, Int.zero_add] at h
  exact h

theorem computeStats_NumThreads_sum (rs : List PerfInfo) (v : VDRKillReport) :
    (computeStats rs v).NumThreads = wrapInt (rs.map (fun r => r.NumThreads)).sum := by
  rw [computeStats_NumThreads, aggLoop_NumThreads]
  have h := foldl_wrapInt (fun r : PerfInfo => r.NumThreads) rs 0
  rw [wrapInt_zero, Int.zero_add] at h
  exact h

theorem computeStats_InBlocks_sum (rs : List PerfInfo) (v : VDRKillReport) :
    (computeStats rs v).InBlocks = wrapInt (rs.map (fun r => r.InBlocks)).sum := by
  rw [computeStats_InBlocks, aggLoop_InBlocks]
  have h := foldl_wrapInt (fun r : PerfInfo => r.InBlocks) rs 0
  rw [wrapInt_zero, Int.zero_add] at h
  exact h

theorem computeStats_OutBlocks_sum (rs : List PerfInfo) (v : VDRKillReport) :
    (computeStats rs v).OutBlocks = wrapInt (rs.map (fun r => r.OutBlocks)).sum := by
  rw [computeStats_OutBlocks, aggLoop_OutBlocks]
  have h := foldl_wrapInt (fun r : PerfInfo => r.OutBlocks) rs 0
  rw [wrapInt_zero, Int.zero_add] at h
  exact h

theorem computeStats_TotalBlocks_sum (rs : List PerfInfo) (v : VDRKillReport) :
    (computeStats rs v).TotalBlocks = wrapInt (rs.map (fun r => r.TotalBlocks)).sum := by
  rw [computeStats_TotalBlocks, aggLoop_TotalBlocks]
  have h := foldl_wrapInt (fun r : PerfInfo => r.TotalBlocks) rs 0
  rw [wrapInt_zero, Int.zero_add] at h
  exact h

theorem wrapUint_zero : wrapUint 0 = 0 := by decide

theorem computeStats_OutputFiles_sum (rs : List PerfInfo) (v : VDRKillReport) :
    (computeStats rs v).OutputFiles = wrapUint (rs.map (fun r => r.OutputFiles)).sum := by
  rw [computeStats_OutputFiles, aggLoop_OutputFiles]
  have h := foldl_wrapUint (fun r : PerfInfo => r.OutputFiles) rs 0
  rw [wrapUint_zero, Nat.zero_add] at h
  exact h

theorem computeStats_OutputBytes_sum (rs : List PerfInfo) (v : VDRKillReport) :
    (computeStats rs v).OutputBytes = wrapUint (rs.map (fun r => r.OutputBytes)).sum := by
  rw [computeStats_OutputBytes, aggLoop_OutputBytes]
  have h := foldl_wrapUint (fun r : PerfInfo => r.OutputBytes) rs 0
  rw [wrapUint_zero, Nat.zero_add] at h
  exact h

/-- Records that satisfy the block invariant modulo `2^64` have block sums that do. -/
theorem sum_blocks_congr (rs : List PerfInfo)
    (h : ∀ r ∈ rs, wrapInt r.TotalBlocks = wrapInt (r.InBlocks + r.OutBlocks)) :
    wrapInt (rs.map (fun r => r.TotalBlocks)).sum
      = wrapInt ((rs.map (fun r => r.InBlocks)).sum + (rs.map (fun r => r.OutBlocks)).sum) := by
  induction rs with
  | nil => rfl
  | cons p ps ih =>
    simp only [List.map_cons, List.sum_cons]
    have h1 := h p (List.mem_cons_self _ _)
    have h2 := ih (fun r hr => h r (List.mem_cons_of_mem _ hr))
    have h3 := wrapInt_add_congr _ _ _ _ h1 h2
    rw [h3]
    congr 1
    ring

/-- C3 (as amended): for every sequence of performance records each of which has
`TotalBlocks` equal to `InBlocks + OutBlocks` as 64-bit integers, and every reclaim
report, the record returned by `computeStats` has
`TotalBlocks = InBlocks + OutBlocks` in 64-bit integer addition. -/
theorem computeStats_blocks (rs : List PerfInfo) (v : VDRKillReport)
    (h : ∀ r ∈ rs, wrapInt r.TotalBlocks = wrapInt (r.InBlocks + r.OutBlocks)) :
    (computeStats rs v).TotalBlocks
      = wrapInt ((computeStats rs v).InBlocks + (computeStats rs v).OutBlocks) := by
  rw [computeStats_TotalBlocks_sum, computeStats_InBlocks_sum, computeStats_OutBlocks_sum,
    sum_blocks_congr rs h]
  exact wrapInt_add_congr _ _ _ _ (wrapInt_idem _).symm (wrapInt_idem _).symm

/-- C3 witness: two records satisfying the invariant, the second with block counts
whose sum overflows. -/
theorem computeStats_blocks_witness :
    (∀ r ∈ [exBlocks 10 20, exBlocks (2 ^ 62) (2 ^ 62)],
      wrapInt r.TotalBlocks = wrapInt (r.InBlocks + r.OutBlocks)) ∧
    (computeStats [exBlocks 10 20, exBlocks (2 ^ 62) (2 ^ 62)] ⟨0, 0⟩).TotalBlocks
      = wrapInt ((computeStats [exBlocks 10 20, exBlocks (2 ^ 62) (2 ^ 62)] ⟨0, 0⟩).InBlocks
        + (computeStats [exBlocks 10 20, exBlocks (2 ^ 62) (2 ^ 62)] ⟨0, 0⟩).OutBlocks) :=
  ⟨by decide, computeStats_blocks _ ⟨0, 0⟩ (by decide)⟩

/-- C3 counterexample: a single record with `TotalBlocks = 5` and no input or output
blocks is aggregated to `TotalBlocks = 5`, `InBlocks = 0`, `OutBlocks = 0`. -/
theorem computeStats_blocks_not_recomputed :
    (computeStats [exBadBlocks] ⟨0, 0⟩).TotalBlocks = 5 ∧
    (computeStats [exBadBlocks] ⟨0, 0⟩).InBlocks = 0 ∧
    (computeStats [exBadBlocks] ⟨0, 0⟩).OutBlocks = 0 ∧
    (computeStats [exBadBlocks] ⟨0, 0⟩).TotalBlocks
      ≠ (computeStats [exBadBlocks] ⟨0, 0⟩).InBlocks
        + (computeStats [exBadBlocks] ⟨0, 0⟩).OutBlocks := by
  decide

/-! ## C4: the block total of a task record -/

/-- C4: for every raw job record, list of output paths and thread count,
`reduceJobInfo` either returns a record with `TotalBlocks = InBlocks + OutBlocks` in
64-bit integer addition, or panics, which happens only when a sub-record of a present
resource-usage section is nil. -/
theorem reduceJobInfo_totalBlocks (stat : String → Option Int) (j : JobInfo)
    (fp : List String) (n : Int) :
    match reduceJobInfo stat j fp n with
    | .ok r => r.TotalBlocks = wrapInt (r.InBlocks + r.OutBlocks)
    | .error _ => ∃ ru, j.RusageInfo = some ru ∧ (ru.Self = none ∨ ru.Children = none) := by
  rcases reduceJobInfo_cases j with h1 | ⟨s, c, h1⟩ | ⟨ru, h1, h2⟩
  · rw [reduceJobInfo_of_none stat j fp n h1]
    have h := reduceOutputs_fields stat fp (reduceWallClock (initPerf n) j.WallClockInfo)
    have g := reduceWallClock_fields (initPerf n) j.WallClockInfo
    show _ = wrapInt (_ + _)
    rw [h.2.2.2.2.2.1, h.2.2.2.2.2.2.1, h.2.2.2.2.2.2.2.1, g.2.2.2.2.1, g.2.2.2.2.2.1,
      g.2.2.2.2.2.2.1]
    rfl
  · rw [reduceJobInfo_of_both stat j fp n s c h1]
    have h := reduceOutputs_fields stat fp
      (reduceRates (usagePerf (reduceWallClock (initPerf n) j.WallClockInfo) s c))
    have g := reduceRates_fields (usagePerf (reduceWallClock (initPerf n) j.WallClockInfo) s c)
    show _ = wrapInt (_ + _)
    rw [h.2.2.2.2.2.1, h.2.2.2.2.2.2.1, h.2.2.2.2.2.2.2.1, g.2.2.2.2.2.1, g.2.2.2.2.2.2.1,
      g.2.2.2.2.2.2.2.1]
    rfl
  · rw [reduceJobInfo_of_nil stat j fp n ru h1 h2]
    exact ⟨ru, h1, h2⟩

/-! ## C5: the peak memory of the aggregate -/

/-- The running maximum started at `a` bounds `a` and every input, and is one of them. -/
theorem foldl_max_spec (ps : List PerfInfo) (a : Int) :
    a ≤ ps.foldl (fun x p => max x p.MaxRss) a ∧
    (∀ r ∈ ps, r.MaxRss ≤ ps.foldl (fun x p => max x p.MaxRss) a) ∧
    (ps.foldl (fun x p => max x p.MaxRss) a = a ∨
      ∃ r ∈ ps, ps.foldl (fun x p => max x p.MaxRss) a = r.MaxRss) := by
  induction ps generalizing a with
  | nil => simp
  | cons p ps ih =>
    simp only [List.foldl_cons, List.mem_cons, forall_eq_or_imp, exists_eq_or_imp]
    obtain ⟨h1, h2, h3⟩ := ih (max a p.MaxRss)
    have hm : a ≤ max a p.MaxRss ∧ p.MaxRss ≤ max a p.MaxRss ∧
        (max a p.MaxRss = a ∨ max a p.MaxRss = p.MaxRss) := by
      unfold max
      split
      · exact ⟨le_refl _, by omega, Or.inl rfl⟩
      · exact ⟨by omega, le_refl _, Or.inr rfl⟩
    refine ⟨by omega, ⟨by omega, h2⟩, ?_⟩
    rcases h3 with h3 | h3
    · rcases hm.2.2 with h4 | h4
      · left; rw [h3, h4]
      · right; left; rw [h3, h4]
    · right; right; exact h3

/-- C5 (as amended): for every sequence of performance records in which at least one
`MaxRss` is non-negative, and every reclaim report, the `MaxRss` of the record returned
by `computeStats` is the maximum of the inputs' `MaxRss` values: it is one of them and
no input exceeds it. -/
theorem computeStats_maxRss (rs : List PerfInfo) (v : VDRKillReport)
    (h : ∃ r ∈ rs, 0 ≤ r.MaxRss) :
    (∃ r ∈ rs, (computeStats rs v).MaxRss = r.MaxRss) ∧
    (∀ r ∈ rs, r.MaxRss ≤ (computeStats rs v).MaxRss) := by
  rw [computeStats_MaxRss, aggLoop_MaxRss]
  obtain ⟨h1, h2, h3⟩ := foldl_max_spec rs (PerfInfo.zero).MaxRss
  refine ⟨?_, h2⟩
  rcases h3 with h3 | h3
  · obtain ⟨r, hr, h0⟩ := h
    refine ⟨r, hr, ?_⟩
    have h4 := h2 r hr
    rw [h3] at h4 ⊢
    have h5 : (PerfInfo.zero).MaxRss = 0 := rfl
    omega
  · exact h3

/-- C5 witness: peak memories 3 and 5 aggregate to 5, not to their sum 8. -/
theorem computeStats_maxRss_witness :
    (∃ r ∈ [exRss 3, exRss 5], 0 ≤ r.MaxRss) ∧
    ((∃ r ∈ [exRss 3, exRss 5], (computeStats [exRss 3, exRss 5] ⟨0, 0⟩).MaxRss = r.MaxRss) ∧
      (∀ r ∈ [exRss 3, exRss 5], r.MaxRss ≤ (computeStats [exRss 3, exRss 5] ⟨0, 0⟩).MaxRss)) ∧
    (computeStats [exRss 3, exRss 5] ⟨0, 0⟩).MaxRss = 5 :=
  ⟨by decide, computeStats_maxRss _ ⟨0, 0⟩ (by decide), by decide⟩

/-- C5 counterexample: a single record with `MaxRss = -1` aggregates to `MaxRss = 0`,
which is not the maximum of the inputs' values. -/
theorem computeStats_maxRss_negative :
    [exRss (-1)] ≠ [] ∧
    (computeStats [exRss (-1)] ⟨0, 0⟩).MaxRss = 0 ∧
    (∀ r ∈ [exRss (-1)], r.MaxRss = -1) ∧
    ¬ (∃ r ∈ [exRss (-1)], (computeStats [exRss (-1)] ⟨0, 0⟩).MaxRss = r.MaxRss) := by
  decide

/-! ## C6: the rates of a task record -/

/-- C6: for a raw job record with wall-clock duration `d` and a resource-usage section
with both sub-records, `reduceJobInfo` returns a record whose `InBlocks` `i` and
`OutBlocks` `o` are the 64-bit sums over `self` and `children`; when `d > 0` its rates
are `float64(i)/d`, `float64(o)/d` and `float64(i+o)/d`, and when `d > 0` is false (zero,
negative or NaN) all three rates are the zero they were initialised with. -/
theorem reduceJobInfo_rates (stat : String → Option Int) (j : JobInfo) (fp : List String)
    (n : Int) (w : WallClockInfo) (s c : Rusage)
    (hw : j.WallClockInfo = some w) (hr : j.RusageInfo = some ⟨some s, some c⟩) :
    ∃ r, reduceJobInfo stat j fp n = .ok r ∧
      r.Duration = w.Duration ∧
      r.InBlocks = wrapInt (s.InBlocks + c.InBlocks) ∧
      r.OutBlocks = wrapInt (s.OutBlocks + c.OutBlocks) ∧
      (w.Duration.gtZero = true →
        r.InBlocksRate = F64.div (F64.ofInt r.InBlocks) w.Duration ∧
        r.OutBlocksRate = F64.div (F64.ofInt r.OutBlocks) w.Duration ∧
        r.TotalBlocksRate
          = F64.div (F64.ofInt (wrapInt (r.InBlocks + r.OutBlocks))) w.Duration) ∧
      (w.Duration.gtZero = false →
        r.InBlocksRate = F64.zero ∧ r.OutBlocksRate = F64.zero ∧
        r.TotalBlocksRate = F64.zero) := by
  refine ⟨_, reduceJobInfo_of_both stat j fp n s c hr, ?_⟩
  have h := reduceOutputs_fields stat fp
    (reduceRates (usagePerf (reduceWallClock (initPerf n) j.WallClockInfo) s c))
  have g := reduceRates_fields (usagePerf (reduceWallClock (initPerf n) j.WallClockInfo) s c)
  have hd : (usagePerf (reduceWallClock (initPerf n) j.WallClockInfo) s c).Duration
      = w.Duration := by
    rw [hw]; rfl
  rw [h.2.2.1, h.2.2.2.2.2.1, h.2.2.2.2.2.2.1, h.2.2.2.2.2.2.2.2.1, h.2.2.2.2.2.2.2.2.2.1,
    h.2.2.2.2.2.2.2.2.2.2.1, g.2.2.1, g.2.2.2.2.2.1, g.2.2.2.2.2.2.1]
  refine ⟨hd, rfl, rfl, ?_, ?_⟩
  · intro hp
    rw [← hd] at hp
    obtain ⟨r1, r2, r3⟩ := reduceRates_pos _ hp
    rw [r1, r2, r3, hd]
    exact ⟨rfl, rfl, rfl⟩
  · intro hp
    rw [← hd] at hp
    rw [reduceRates_nonpos _ hp, hw]
    exact ⟨rfl, rfl, rfl⟩

set_option maxRecDepth 100000 in
/-- C6 witness: 40 input and 60 output blocks over 1800 seconds give the rates
`40/1800`, `60/1800` and `100/1800`; over a duration of zero all three rates are zero. -/
theorem reduceJobInfo_rates_witness :
    (exJob (some exUsage) (some exClock)).WallClockInfo = some exClock ∧
    (exJob (some exUsage) (some exClock)).RusageInfo
      = some ⟨some (exRusage 100 10 20), some (exRusage 300 30 40)⟩ ∧
    (∃ r, reduceJobInfo exStat (exJob (some exUsage) (some exClock)) ["/exists"] 4 = .ok r ∧
      r.Duration = exClock.Duration ∧
      r.InBlocks = wrapInt ((exRusage 100 10 20).InBlocks + (exRusage 300 30 40).InBlocks) ∧
      r.OutBlocks = wrapInt ((exRusage 100 10 20).OutBlocks + (exRusage 300 30 40).OutBlocks) ∧
      (exClock.Duration.gtZero = true →
        r.InBlocksRate = F64.div (F64.ofInt r.InBlocks) exClock.Duration ∧
        r.OutBlocksRate = F64.div (F64.ofInt r.OutBlocks) exClock.Duration ∧
        r.TotalBlocksRate
          = F64.div (F64.ofInt (wrapInt (r.InBlocks + r.OutBlocks))) exClock.Duration) ∧
      (exClock.Duration.gtZero = false →
        r.InBlocksRate = F64.zero ∧ r.OutBlocksRate = F64.zero ∧
        r.TotalBlocksRate = F64.zero)) ∧
    (∃ r, reduceJobInfo exStat (exJob (some exUsage) (some exClock)) ["/exists"] 4 = .ok r ∧
      r.InBlocks = 40 ∧ r.OutBlocks = 60 ∧ r.TotalBlocks = 100 ∧
      r.InBlocksRate = F64.div (F64.ofInt 40) (F64.ofInt 1800) ∧
      r.OutBlocksRate = F64.div (F64.ofInt 60) (F64.ofInt 1800) ∧
      r.TotalBlocksRate = F64.div (F64.ofInt 100) (F64.ofInt 1800)) ∧
    (∃ r, reduceJobInfo exStat (exJob (some exUsage) (some exClockZero)) ["/exists"] 4
        = .ok r ∧
      r.InBlocks = 40 ∧ r.OutBlocks = 60 ∧ r.InBlocksRate = F64.zero ∧
      r.OutBlocksRate = F64.zero ∧ r.TotalBlocksRate = F64.zero) :=
  ⟨rfl, rfl, reduceJobInfo_rates exStat _ ["/exists"] 4 exClock _ _ rfl rfl,
    ⟨_, rfl, by decide⟩, ⟨_, rfl, by decide⟩⟩

/-! ## C7: the rates of the aggregate -/

theorem aggRates_rates (a : PerfInfo) :
    (aggRates a).InBlocksRate
      = (if a.Duration.gtZero = true then F64.div (F64.ofInt a.InBlocks) a.Duration
          else a.InBlocksRate) ∧
    (aggRates a).OutBlocksRate
      = (if a.Duration.gtZero = true then F64.div (F64.ofInt a.OutBlocks) a.Duration
          else a.OutBlocksRate) ∧
    (aggRates a).TotalBlocksRate
      = (if a.Duration.gtZero = true then F64.div (F64.ofInt a.TotalBlocks) a.Duration
          else a.TotalBlocksRate) := by
  unfold aggRates; split <;> simp

/-- The loop does not read the rate fields of its inputs. -/
theorem aggLoop_setRates (f g h : PerfInfo → F64) (rs : List PerfInfo) (i : Nat)
    (a : PerfInfo) : aggLoop i a (rs.map (setRates f g h)) = aggLoop i a rs := by
  induction rs generalizing i a with
  | nil => rfl
  | cons p ps ih =>
    simp only [List.map_cons, aggLoop]
    rw [ih]
    rfl

/-- C7: for every sequence of performance records and every reclaim report, the
`Duration` `D` of the record returned by `computeStats` is the left-to-right float64 sum
of the inputs' `Duration`, and its three rates are `float64(InBlocks)/D`,
`float64(OutBlocks)/D` and `float64(TotalBlocks)/D` of the record itself when `D > 0`,
and zero otherwise; replacing the rate fields of the inputs by anything does not change
the result. -/
theorem computeStats_rates (rs : List PerfInfo) (v : VDRKillReport) :
    (computeStats rs v).Duration = rs.foldl (fun d r => F64.add d r.Duration) F64.zero ∧
    (computeStats rs v).InBlocksRate
      = (if (computeStats rs v).Duration.gtZero = true then
          F64.div (F64.ofInt (computeStats rs v).InBlocks) (computeStats rs v).Duration
        else F64.zero) ∧
    (computeStats rs v).OutBlocksRate
      = (if (computeStats rs v).Duration.gtZero = true then
          F64.div (F64.ofInt (computeStats rs v).OutBlocks) (computeStats rs v).Duration
        else F64.zero) ∧
    (computeStats rs v).TotalBlocksRate
      = (if (computeStats rs v).Duration.gtZero = true then
          F64.div (F64.ofInt (computeStats rs v).TotalBlocks) (computeStats rs v).Duration
        else F64.zero) ∧
    (∀ f g h : PerfInfo → F64,
      computeStats (rs.map (setRates f g h)) v = computeStats rs v) := by
  have hu := aggLoop_untouched rs 0 PerfInfo.zero
  have hr := aggRates_rates (aggLoop 0 PerfInfo.zero rs)
  rw [hu.1, hu.2.1, hu.2.2.1] at hr
  refine ⟨?_, ?_, ?_, ?_, ?_⟩
  · rw [computeStats_Duration, aggLoop_Duration]; rfl
  · rw [computeStats_Duration, computeStats_InBlocks]; exact hr.1
  · rw [computeStats_Duration, computeStats_OutBlocks]; exact hr.2.1
  · rw [computeStats_Duration, computeStats_TotalBlocks]; exact hr.2.2
  · intro f g h
    unfold computeStats
    rw [aggLoop_setRates]

/-! ## C8: the output files of a task record -/

/-- What `reduceJobInfo` returns in the fields fixed by its first two assignments and
by the loop over the output paths. -/
theorem reduceJobInfo_ok_fields (stat : String → Option Int) (j : JobInfo)
    (fp : List String) (n : Int) (r : PerfInfo) (h : reduceJobInfo stat j fp n = .ok r) :
    r.NumJobs = 1 ∧ r.NumThreads = n ∧
    r.OutputFiles = wrapUint (fp.filter (fun p => (stat p).isSome)).length ∧
    r.OutputBytes = toUint64 (fp.filterMap stat).sum ∧
    r.TotalFiles = r.OutputFiles ∧ r.TotalBytes = r.OutputBytes ∧
    r.VdrFiles = 0 ∧ r.VdrBytes = 0 := by
  have hw := reduceWallClock_fields (initPerf n) j.WallClockInfo
  rcases reduceJobInfo_cases j with h1 | ⟨s, c, h1⟩ | ⟨ru, h1, h2⟩
  · rw [reduceJobInfo_of_none stat j fp n h1] at h
    injection h with h
    subst h
    have hf := reduceOutputs_fields stat fp (reduceWallClock (initPerf n) j.WallClockInfo)
    have h0 : (reduceWallClock (initPerf n) j.WallClockInfo).OutputFiles = 0 := by
      rw [hw.2.2.2.2.2.2.2.2.2.2.2.2.1]; rfl
    have h0b : (reduceWallClock (initPerf n) j.WallClockInfo).OutputBytes = 0 := by
      rw [hw.2.2.2.2.2.2.2.2.2.2.2.2.2.1]; rfl
    obtain ⟨f1, f2⟩ := reduceOutputs_files stat fp _ h0
    obtain ⟨b1, b2⟩ := reduceOutputs_bytes stat fp _ h0b
    refine ⟨?_, ?_, f1, b1, f2, b2, ?_, ?_⟩
    · rw [hf.1, hw.1]; rfl
    · rw [hf.2.1, hw.2.1]; rfl
    · rw [hf.2.2.2.2.2.2.2.2.2.2.2.2.2.2.2.2.1, hw.2.2.2.2.2.2.2.2.2.2.2.2.2.2.1]; rfl
    · rw [hf.2.2.2.2.2.2.2.2.2.2.2.2.2.2.2.2.2, hw.2.2.2.2.2.2.2.2.2.2.2.2.2.2.2]; rfl
  · rw [reduceJobInfo_of_both stat j fp n s c h1] at h
    injection h with h
    subst h
    have hf := reduceOutputs_fields stat fp
      (reduceRates (usagePerf (reduceWallClock (initPerf n) j.WallClockInfo) s c))
    have hg := reduceRates_fields
      (usagePerf (reduceWallClock (initPerf n) j.WallClockInfo) s c)
    have h0 : (reduceRates
        (usagePerf (reduceWallClock (initPerf n) j.WallClockInfo) s c)).OutputFiles = 0 := by
      rw [hg.2.2.2.2.2.2.2.2.2.2.2.2.2.1]
      show (reduceWallClock (initPerf n) j.WallClockInfo).OutputFiles = 0
      rw [hw.2.2.2.2.2.2.2.2.2.2.2.2.1]; rfl
    have h0b : (reduceRates
        (usagePerf (reduceWallClock (initPerf n) j.WallClockInfo) s c)).OutputBytes = 0 := by
      rw [hg.2.2.2.2.2.2.2.2.2.2.2.2.2.2.1]
      show (reduceWallClock (initPerf n) j.WallClockInfo).OutputBytes = 0
      rw [hw.2.2.2.2.2.2.2.2.2.2.2.2.2.1]; rfl
    obtain ⟨f1, f2⟩ := reduceOutputs_files stat fp _ h0
    obtain ⟨b1, b2⟩ := reduceOutputs_bytes stat fp _ h0b
    refine ⟨?_, ?_, f1, b1, f2, b2, ?_, ?_⟩
    · rw [hf.1, hg.1]
      show (reduceWallClock (initPerf n) j.WallClockInfo).NumJobs = 1
      rw [hw.1]; rfl
    · rw [hf.2.1, hg.2.1]
      show (reduceWallClock (initPerf n) j.WallClockInfo).NumThreads = n
      rw [hw.2.1]; rfl
    · rw [hf.2.2.2.2.2.2.2.2.2.2.2.2.2.2.2.2.1, hg.2.2.2.2.2.2.2.2.2.2.2.2.2.2.2.1]
      show (reduceWallClock (initPerf n) j.WallClockInfo).VdrFiles = 0
      rw [hw.2.2.2.2.2.2.2.2.2.2.2.2.2.2.1]; rfl
    · rw [hf.2.2.2.2.2.2.2.2.2.2.2.2.2.2.2.2.2, hg.2.2.2.2.2.2.2.2.2.2.2.2.2.2.2.2]
      show (reduceWallClock (initPerf n) j.WallClockInfo).VdrBytes = 0
      rw [hw.2.2.2.2.2.2.2.2.2.2.2.2.2.2.2]; rfl
  · rw [reduceJobInfo_of_nil stat j fp n ru h1 h2] at h
    cases h

/-- C8: for every raw job record, thread count and list of output paths, with the file
system a function `stat` from path to optional size, `reduceJobInfo` either panics
(only for a nil sub-record of a present resource-usage section) or returns a record
whose `OutputFiles` is the number of list entries, counted with repetition, whose stat
succeeds and whose `OutputBytes` is the sum of their sizes, both as 64-bit unsigned
values and hence exact whenever they fit 64 bits; entries whose stat fails contribute
nothing; `TotalFiles = OutputFiles`, `TotalBytes = OutputBytes`, `VdrFiles = 0` and
`VdrBytes = 0`. -/
theorem reduceJobInfo_outputs (stat : String → Option Int) (j : JobInfo)
    (fp : List String) (n : Int) :
    match reduceJobInfo stat j fp n with
    | .ok r =>
      r.OutputFiles = wrapUint (fp.filter (fun p => (stat p).isSome)).length ∧
      r.OutputBytes = toUint64 (fp.filterMap stat).sum ∧
      ((fp.filter (fun p => (stat p).isSome)).length < 2 ^ 64 →
        r.OutputFiles = (fp.filter (fun p => (stat p).isSome)).length) ∧
      ((∀ x ∈ fp.filterMap stat, 0 ≤ x) → (fp.filterMap stat).sum < 2 ^ 64 →
        (r.OutputBytes : Int) = (fp.filterMap stat).sum) ∧
      r.TotalFiles = r.OutputFiles ∧ r.TotalBytes = r.OutputBytes ∧
      r.VdrFiles = 0 ∧ r.VdrBytes = 0
    | .error _ => ∃ ru, j.RusageInfo = some ru ∧ (ru.Self = none ∨ ru.Children = none) := by
  cases h : reduceJobInfo stat j fp n with
  | ok r =>
    obtain ⟨_, _, h3, h4, h5, h6, h7, h8⟩ := reduceJobInfo_ok_fields stat j fp n r h
    refine ⟨h3, h4, ?_, ?_, h5, h6, h7, h8⟩
    · intro hl
      rw [h3, wrapUint_of_lt _ hl]
    · intro hx hs
      have h0 : 0 ≤ (fp.filterMap stat).sum := List.sum_nonneg hx
      rw [h4]
      unfold toUint64
      omega
  | error e =>
    cases e
    exact (reduceJobInfo_panics_iff stat j fp n).1 h

/-- C8 witness: with `/exists` of 100 bytes and `/missing` absent, the paths
`["/exists", "/missing"]` give `OutputFiles = 1` and `OutputBytes = 100`. -/
theorem reduceJobInfo_outputs_witness :
    exStat "/exists" = some 100 ∧ exStat "/missing" = none ∧
    (match reduceJobInfo exStat (exJob none none) ["/exists", "/missing"] 1 with
      | .ok r =>
        r.OutputFiles
          = wrapUint (["/exists", "/missing"].filter (fun p => (exStat p).isSome)).length ∧
        r.OutputBytes = toUint64 (["/exists", "/missing"].filterMap exStat).sum ∧
        ((["/exists", "/missing"].filter (fun p => (exStat p).isSome)).length < 2 ^ 64 →
          r.OutputFiles = (["/exists", "/missing"].filter (fun p => (exStat p).isSome)).length) ∧
        ((∀ x ∈ ["/exists", "/missing"].filterMap exStat, 0 ≤ x) →
          (["/exists", "/missing"].filterMap exStat).sum < 2 ^ 64 →
          (r.OutputBytes : Int) = (["/exists", "/missing"].filterMap exStat).sum) ∧
        r.TotalFiles = r.OutputFiles ∧ r.TotalBytes = r.OutputBytes ∧
        r.VdrFiles = 0 ∧ r.VdrBytes = 0
      | .error _ =>
        ∃ ru, (exJob none none).RusageInfo = some ru ∧ (ru.Self = none ∨ ru.Children = none)) ∧
    ∃ r, reduceJobInfo exStat (exJob none none) ["/exists", "/missing"] 1 = .ok r ∧
      r.OutputFiles = 1 ∧ r.OutputBytes = 100 ∧ r.TotalFiles = 1 ∧ r.TotalBytes = 100 ∧
      r.VdrFiles = 0 ∧ r.VdrBytes = 0 :=
  ⟨by decide, by decide,
    reduceJobInfo_outputs exStat (exJob none none) ["/exists", "/missing"] 1,
    ⟨_, rfl, by decide⟩⟩

/-! ## C9: the sums of the aggregate -/

theorem sum_wrapUint (xs : List Nat) : wrapUint ((xs.map wrapUint).sum) = wrapUint xs.sum := by
  induction xs with
  | nil => rfl
  | cons x xs ih =>
    simp only [List.map_cons, List.sum_cons]
    rw [← wrapUint_add_wrapUint, ih, wrapUint_add_wrapUint, wrapUint_wrapUint_add]

/-- The sums over the records of tasks that all returned. -/
theorem sums_of_tasks (stat : String → Option Int) (tasks : List (JobInfo × List String × Int))
    (rs : List PerfInfo)
    (h : List.Forall₂ (fun t r => reduceJobInfo stat t.1 t.2.1 t.2.2 = .ok r) tasks rs) :
    (rs.map (fun r => r.NumJobs)).sum = tasks.length ∧
    (rs.map (fun r => r.NumThreads)).sum = (tasks.map (fun t => t.2.2)).sum ∧
    rs.map (fun r => r.OutputFiles)
      = (tasks.map (fun t => (t.2.1.filter (fun p => (stat p).isSome)).length)).map wrapUint ∧
    rs.map (fun r => r.OutputBytes)
      = (tasks.map (fun t => (t.2.1.filterMap stat).sum)).map toUint64 := by
  induction h with
  | nil => simp
  | cons h1 _ ih =>
    obtain ⟨a1, a2, a3, a4, _⟩ := reduceJobInfo_ok_fields stat _ _ _ _ h1
    obtain ⟨i1, i2, i3, i4⟩ := ih
    simp only [List.map_cons, List.sum_cons, List.length_cons, a1, a2, a3, a4, i1, i2, i3, i4]
    refine ⟨?_, trivial, trivial, trivial⟩
    push_cast
    ring

/-- C9: for every sequence of performance records and every reclaim report, the
`NumJobs`, `NumThreads`, `InBlocks`, `OutBlocks`, `TotalBlocks`, `OutputFiles` and
`OutputBytes` of the record returned by `computeStats` are the 64-bit sums of the
inputs' fields; and when the inputs are the records returned by `reduceJobInfo` for
`N` tasks with thread counts `t_1..t_N`, the aggregate has `NumJobs = N`,
`NumThreads = t_1 + ... + t_N`, `OutputFiles` the total number of output paths whose stat
succeeds and `OutputBytes` the total of their sizes (again as 64-bit values). -/
theorem computeStats_sums (rs : List PerfInfo) (v : VDRKillReport) :
    ((computeStats rs v).NumJobs = wrapInt (rs.map (fun r => r.NumJobs)).sum ∧
     (computeStats rs v).NumThreads = wrapInt (rs.map (fun r => r.NumThreads)).sum ∧
     (computeStats rs v).InBlocks = wrapInt (rs.map (fun r => r.InBlocks)).sum ∧
     (computeStats rs v).OutBlocks = wrapInt (rs.map (fun r => r.OutBlocks)).sum ∧
     (computeStats rs v).TotalBlocks = wrapInt (rs.map (fun r => r.TotalBlocks)).sum ∧
     (computeStats rs v).OutputFiles = wrapUint (rs.map (fun r => r.OutputFiles)).sum ∧
     (computeStats rs v).OutputBytes = wrapUint (rs.map (fun r => r.OutputBytes)).sum) ∧
    (∀ (stat : String → Option Int) (tasks : List (JobInfo × List String × Int)),
      List.Forall₂ (fun t r => reduceJobInfo stat t.1 t.2.1 t.2.2 = .ok r) tasks rs →
      (computeStats rs v).NumJobs = wrapInt tasks.length ∧
      (computeStats rs v).NumThreads = wrapInt (tasks.map (fun t => t.2.2)).sum ∧
      (computeStats rs v).OutputFiles
        = wrapUint (tasks.map
            (fun t => (t.2.1.filter (fun p => (stat p).isSome)).length)).sum ∧
      (computeStats rs v).OutputBytes
        = toUint64 (tasks.map (fun t => (t.2.1.filterMap stat).sum)).sum) := by
  refine ⟨⟨computeStats_NumJobs_sum rs v, computeStats_NumThreads_sum rs v,
    computeStats_InBlocks_sum rs v, computeStats_OutBlocks_sum rs v,
    computeStats_TotalBlocks_sum rs v, computeStats_OutputFiles_sum rs v,
    computeStats_OutputBytes_sum rs v⟩, ?_⟩
  intro stat tasks h
  obtain ⟨s1, s2, s3, s4⟩ := sums_of_tasks stat tasks rs h
  refine ⟨?_, ?_, ?_, ?_⟩
  · rw [computeStats_NumJobs_sum, s1]
  · rw [computeStats_NumThreads_sum, s2]
  · rw [computeStats_OutputFiles_sum, s3, sum_wrapUint]
  · rw [computeStats_OutputBytes_sum, s4, sum_toUint64]

set_option maxRecDepth 100000 in
/-- C9 witness: three tasks with 2, 4 and 1 threads and three existing outputs of 100
bytes each, among four listed paths, aggregate to `NumJobs = 3`, `NumThreads = 7`,
`OutputFiles = 2` and `OutputBytes = 200`. -/
theorem computeStats_sums_witness :
    List.Forall₂ (fun t r => reduceJobInfo exStat t.1 t.2.1 t.2.2 = .ok r)
      exTasks exTaskRecords ∧
    (computeStats exTaskRecords ⟨0, 0⟩).NumJobs = 3 ∧
    (computeStats exTaskRecords ⟨0, 0⟩).NumThreads = 7 ∧
    (computeStats exTaskRecords ⟨0, 0⟩).OutputFiles = 2 ∧
    (computeStats exTaskRecords ⟨0, 0⟩).OutputBytes = 200 := by
  have hall : List.Forall₂ (fun t r => reduceJobInfo exStat t.1 t.2.1 t.2.2 = .ok r)
      exTasks exTaskRecords :=
    List.Forall₂.cons rfl (List.Forall₂.cons rfl (List.Forall₂.cons rfl List.Forall₂.nil))
  obtain ⟨h1, h2, h3, h4⟩ := (computeStats_sums exTaskRecords ⟨0, 0⟩).2 exStat exTasks hall
  refine ⟨hall, ?_, ?_, ?_, ?_⟩
  · rw [h1]; decide
  · rw [h2]; decide
  · rw [h3]; decide
  · rw [h4]; decide

/-! ## C10: the aggregate of no records -/

theorem Seconds_zero : Seconds (Time.zero.Sub Time.zero) = F64.zero := by decide

/-- C10: for the empty sequence and every reclaim report `{count: c, size: s}` of
64-bit unsigned values, `computeStats` returns the zero record (`NumJobs`, every sum,
`MaxRss`, every rate and `WallTime` zero, `Start` and `End` the zero instant) except
for `VdrFiles = c`, `VdrBytes = s`, `TotalFiles = c` and `TotalBytes = s`. -/
theorem computeStats_empty (c s : Nat) (hc : c < 2 ^ 64) (hs : s < 2 ^ 64) :
    computeStats [] ⟨c, s⟩
      = { PerfInfo.zero with VdrFiles := c, VdrBytes := s, TotalFiles := c, TotalBytes := s } := by
  have h1 : wrapUint (0 + c) = c := by rw [Nat.zero_add]; exact wrapUint_of_lt c hc
  have h2 : wrapUint (0 + s) = s := by rw [Nat.zero_add]; exact wrapUint_of_lt s hs
  have h3 : aggRates PerfInfo.zero = PerfInfo.zero := by decide
  have h4 : (PerfInfo.zero).OutputFiles = 0 := rfl
  have h5 : (PerfInfo.zero).OutputBytes = 0 := rfl
  have h6 : Seconds ((PerfInfo.zero).End.Sub (PerfInfo.zero).Start) = F64.zero := Seconds_zero
  simp only [computeStats, aggLoop, h3, h4, h5, h6, h1, h2]
  rfl

/-- C10 witness: `c = 5`, `s = 1000`. -/
theorem computeStats_empty_witness :
    (5 : Nat) < 2 ^ 64 ∧ (1000 : Nat) < 2 ^ 64 ∧
    computeStats [] ⟨5, 1000⟩
      = { PerfInfo.zero with
          VdrFiles := 5, VdrBytes := 1000, TotalFiles := 5, TotalBytes := 1000 } ∧
    (computeStats [] ⟨5, 1000⟩).NumJobs = 0 ∧
    (computeStats [] ⟨5, 1000⟩).WallTime = F64.zero ∧
    (computeStats [] ⟨5, 1000⟩).Start = Time.zero ∧
    (computeStats [] ⟨5, 1000⟩).End = Time.zero :=
  ⟨by decide, by decide, computeStats_empty 5 1000 (by decide) (by decide),
    by decide, by decide, by decide, by decide⟩

/-! ## C11: the reclaim fields of the aggregate -/

theorem computeStats_reclaim (rs : List PerfInfo) (v : VDRKillReport) :
    (computeStats rs v).VdrFiles = v.Count ∧ (computeStats rs v).VdrBytes = v.Size ∧
    (computeStats rs v).TotalFiles = wrapUint ((computeStats rs v).OutputFiles + v.Count) ∧
    (computeStats rs v).TotalBytes = wrapUint ((computeStats rs v).OutputBytes + v.Size) :=
  ⟨rfl, rfl, rfl, rfl⟩

/-- C11: for every sequence of performance records and every reclaim report
`{count: c, size: s}`, the record returned by `computeStats` has `VdrFiles = c`,
`VdrBytes = s`, `TotalFiles = OutputFiles + VdrFiles` and
`TotalBytes = OutputBytes + VdrBytes` in 64-bit unsigned addition, where `OutputFiles`
and `OutputBytes` are the aggregate's own 64-bit sums over the inputs. -/
theorem computeStats_totals (rs : List PerfInfo) (c s : Nat) :
    (computeStats rs ⟨c, s⟩).VdrFiles = c ∧
    (computeStats rs ⟨c, s⟩).VdrBytes = s ∧
    (computeStats rs ⟨c, s⟩).TotalFiles
      = wrapUint ((computeStats rs ⟨c, s⟩).OutputFiles + (computeStats rs ⟨c, s⟩).VdrFiles) ∧
    (computeStats rs ⟨c, s⟩).TotalBytes
      = wrapUint ((computeStats rs ⟨c, s⟩).OutputBytes + (computeStats rs ⟨c, s⟩).VdrBytes) ∧
    (computeStats rs ⟨c, s⟩).OutputFiles = wrapUint (rs.map (fun r => r.OutputFiles)).sum ∧
    (computeStats rs ⟨c, s⟩).OutputBytes = wrapUint (rs.map (fun r => r.OutputBytes)).sum :=
  ⟨rfl, rfl, rfl, rfl, computeStats_OutputFiles_sum rs ⟨c, s⟩,
    computeStats_OutputBytes_sum rs ⟨c, s⟩⟩

/-! ## C12: the order of the input sequence -/

/-- Two records with the same fields are the same record. -/
theorem PerfInfo_eq_of_fields (a b : PerfInfo)
    (h1 : a.NumJobs = b.NumJobs) (h2 : a.NumThreads = b.NumThreads)
    (h3 : a.Duration = b.Duration) (h4 : a.CoreHours = b.CoreHours)
    (h5 : a.MaxRss = b.MaxRss) (h6 : a.InBlocks = b.InBlocks)
    (h7 : a.OutBlocks = b.OutBlocks) (h8 : a.TotalBlocks = b.TotalBlocks)
    (h9 : a.InBlocksRate = b.InBlocksRate) (h10 : a.OutBlocksRate = b.OutBlocksRate)
    (h11 : a.TotalBlocksRate = b.TotalBlocksRate) (h12 : a.Start = b.Start)
    (h13 : a.End = b.End) (h14 : a.WallTime = b.WallTime) (h15 : a.UserTime = b.UserTime)
    (h16 : a.SystemTime = b.SystemTime) (h17 : a.TotalFiles = b.TotalFiles)
    (h18 : a.TotalBytes = b.TotalBytes) (h19 : a.OutputFiles = b.OutputFiles)
    (h20 : a.OutputBytes = b.OutputBytes) (h21 : a.VdrFiles = b.VdrFiles)
    (h22 : a.VdrBytes = b.VdrBytes) : a = b := by
  cases a; cases b; simp_all

/-- For a non-empty sequence the aggregate `Start` is an input `Start` and the earliest,
and the aggregate `End` is an input `End` and the latest. -/
theorem computeStats_extremes (rs : List PerfInfo) (v : VDRKillReport) (h : rs ≠ []) :
    (∃ r ∈ rs, (computeStats rs v).Start = r.Start) ∧
    (∀ r ∈ rs, (computeStats rs v).Start.ns ≤ r.Start.ns) ∧
    (∃ r ∈ rs, (computeStats rs v).End = r.End) ∧
    (∀ r ∈ rs, r.End.ns ≤ (computeStats rs v).End.ns) := by
  obtain ⟨p, ps, rfl⟩ := List.exists_cons_of_ne_nil h
  rw [computeStats_Start, aggLoop_Start_cons, computeStats_End, aggLoop_End_cons]
  obtain ⟨s1, s2, s3⟩ := foldl_minStart_le ps p.Start
  obtain ⟨e1, e2, e3⟩ := foldl_maxEnd_ge ps p.End
  refine ⟨?_, ?_, ?_, ?_⟩
  · rcases s3 with s3 | ⟨r, hr, s3⟩
    · exact ⟨p, List.mem_cons_self _ _, s3⟩
    · exact ⟨r, List.mem_cons_of_mem _ hr, s3⟩
  · intro r hr
    rcases List.mem_cons.1 hr with rfl | hr
    · exact s1
    · exact s2 r hr
  · rcases e3 with e3 | ⟨r, hr, e3⟩
    · exact ⟨p, List.mem_cons_self _ _, e3⟩
    · exact ⟨r, List.mem_cons_of_mem _ hr, e3⟩
  · intro r hr
    rcases List.mem_cons.1 hr with rfl | hr
    · exact e1
    · exact e2 r hr

theorem Time_eq_of_ns (a b : Time) (h : a.ns = b.ns) : a = b := by
  cases a; cases b; simp_all

/-- The window of the aggregate does not depend on the order of the inputs. -/
theorem computeStats_window_perm (rs rs' : List PerfInfo) (v : VDRKillReport)
    (h : rs.Perm rs') :
    (computeStats rs' v).Start = (computeStats rs v).Start ∧
    (computeStats rs' v).End = (computeStats rs v).End := by
  by_cases hn : rs = []
  · subst hn
    have : rs' = [] := List.Perm.eq_nil h.symm
    subst this
    exact ⟨rfl, rfl⟩
  · have hn' : rs' ≠ [] := fun h0 => hn (by subst h0; exact List.Perm.eq_nil h)
    obtain ⟨⟨a, ha, a1⟩, a2, ⟨b, hb, b1⟩, b2⟩ := computeStats_extremes rs v hn
    obtain ⟨⟨c, hc, c1⟩, c2, ⟨d, hd, d1⟩, d2⟩ := computeStats_extremes rs' v hn'
    constructor
    · apply Time_eq_of_ns
      have k1 := a2 c (h.mem_iff.2 hc)
      have k2 := c2 a (h.mem_iff.1 ha)
      rw [← a1] at k2
      rw [← c1] at k1
      omega
    · apply Time_eq_of_ns
      have k1 := b2 d (h.mem_iff.2 hd)
      have k2 := d2 b (h.mem_iff.1 hb)
      rw [← b1] at k2
      rw [← d1] at k1
      omega

/-- The peak memory of the aggregate does not depend on the order of the inputs. -/
theorem computeStats_MaxRss_perm (rs rs' : List PerfInfo) (v : VDRKillReport)
    (h : rs.Perm rs') : (computeStats rs' v).MaxRss = (computeStats rs v).MaxRss := by
  rw [computeStats_MaxRss, aggLoop_MaxRss, computeStats_MaxRss, aggLoop_MaxRss]
  obtain ⟨a1, a2, a3⟩ := foldl_max_spec rs (PerfInfo.zero).MaxRss
  obtain ⟨b1, b2, b3⟩ := foldl_max_spec rs' (PerfInfo.zero).MaxRss
  generalize rs.foldl (fun x p => max x p.MaxRss) (PerfInfo.zero).MaxRss = x at a1 a2 a3
  generalize rs'.foldl (fun x p => max x p.MaxRss) (PerfInfo.zero).MaxRss = y at b1 b2 b3
  have hx : y ≤ x := by
    rcases b3 with b3 | ⟨r, hr, b3⟩
    · omega
    · rw [b3]; exact a2 r (h.mem_iff.2 hr)
  have hy : x ≤ y := by
    rcases a3 with a3 | ⟨r, hr, a3⟩
    · omega
    · rw [a3]; exact b2 r (h.mem_iff.1 hr)
  omega

/-- C12 (as amended): for every sequence of performance records, every permutation of it
and every reclaim report, the two records returned by `computeStats` agree in every
field except possibly the float64 sums `Duration`, `CoreHours`, `UserTime`, `SystemTime`
and the three rates: the counts, the block and file/byte sums, `MaxRss`, `Start`, `End`,
`WallTime` and the reclaim and total fields are the same; and when the two `Duration`
sums agree, the three rates agree as well. -/
theorem computeStats_perm (rs rs' : List PerfInfo) (v : VDRKillReport) (h : rs.Perm rs') :
    computeStats rs' v
      = { computeStats rs v with
          Duration := (computeStats rs' v).Duration
          CoreHours := (computeStats rs' v).CoreHours
          UserTime := (computeStats rs' v).UserTime
          SystemTime := (computeStats rs' v).SystemTime
          InBlocksRate := (computeStats rs' v).InBlocksRate
          OutBlocksRate := (computeStats rs' v).OutBlocksRate
          TotalBlocksRate := (computeStats rs' v).TotalBlocksRate } ∧
    ((computeStats rs' v).Duration = (computeStats rs v).Duration →
      (computeStats rs' v).InBlocksRate = (computeStats rs v).InBlocksRate ∧
      (computeStats rs' v).OutBlocksRate = (computeStats rs v).OutBlocksRate ∧
      (computeStats rs' v).TotalBlocksRate = (computeStats rs v).TotalBlocksRate) := by
  have sumI : ∀ f : PerfInfo → Int, (rs'.map f).sum = (rs.map f).sum :=
    fun f => ((h.map f).sum_eq).symm
  have sumN : ∀ f : PerfInfo → Nat, (rs'.map f).sum = (rs.map f).sum :=
    fun f => ((h.map f).sum_eq).symm
  have e1 : (computeStats rs' v).NumJobs = (computeStats rs v).NumJobs := by
    rw [computeStats_NumJobs_sum, computeStats_NumJobs_sum, sumI]
  have e2 : (computeStats rs' v).NumThreads = (computeStats rs v).NumThreads := by
    rw [computeStats_NumThreads_sum, computeStats_NumThreads_sum, sumI]
  have e3 : (computeStats rs' v).InBlocks = (computeStats rs v).InBlocks := by
    rw [computeStats_InBlocks_sum, computeStats_InBlocks_sum, sumI]
  have e4 : (computeStats rs' v).OutBlocks = (computeStats rs v).OutBlocks := by
    rw [computeStats_OutBlocks_sum, computeStats_OutBlocks_sum, sumI]
  have e5 : (computeStats rs' v).TotalBlocks = (computeStats rs v).TotalBlocks := by
    rw [computeStats_TotalBlocks_sum, computeStats_TotalBlocks_sum, sumI]
  have e6 : (computeStats rs' v).OutputFiles = (computeStats rs v).OutputFiles := by
    rw [computeStats_OutputFiles_sum, computeStats_OutputFiles_sum, sumN]
  have e7 : (computeStats rs' v).OutputBytes = (computeStats rs v).OutputBytes := by
    rw [computeStats_OutputBytes_sum, computeStats_OutputBytes_sum, sumN]
  have e8 := computeStats_MaxRss_perm rs rs' v h
  obtain ⟨e9, e10⟩ := computeStats_window_perm rs rs' v h
  have e11 : (computeStats rs' v).WallTime = (computeStats rs v).WallTime := by
    rw [computeStats_WallTime, computeStats_WallTime rs, e9, e10]
  obtain ⟨a1, a2, a3, a4⟩ := computeStats_reclaim rs v
  obtain ⟨b1, b2, b3, b4⟩ := computeStats_reclaim rs' v
  constructor
  · apply PerfInfo_eq_of_fields
    · exact e1
    · exact e2
    · rfl
    · rfl
    · exact e8
    · exact e3
    · exact e4
    · exact e5
    · rfl
    · rfl
    · rfl
    · exact e9
    · exact e10
    · exact e11
    · rfl
    · rfl
    · show (computeStats rs' v).TotalFiles = (computeStats rs v).TotalFiles
      rw [a3, b3, e6]
    · show (computeStats rs' v).TotalBytes = (computeStats rs v).TotalBytes
      rw [a4, b4, e7]
    · exact e6
    · exact e7
    · show (computeStats rs' v).VdrFiles = (computeStats rs v).VdrFiles
      rw [a1, b1]
    · show (computeStats rs' v).VdrBytes = (computeStats rs v).VdrBytes
      rw [a2, b2]
  · intro hd
    have hu := aggLoop_untouched rs 0 PerfInfo.zero
    have hr := aggRates_rates (aggLoop 0 PerfInfo.zero rs)
    have hu' := aggLoop_untouched rs' 0 PerfInfo.zero
    have hr' := aggRates_rates (aggLoop 0 PerfInfo.zero rs')
    rw [hu.1, hu.2.1, hu.2.2.1, ← computeStats_Duration rs v, ← computeStats_InBlocks rs v,
      ← computeStats_OutBlocks rs v, ← computeStats_TotalBlocks rs v] at hr
    rw [hu'.1, hu'.2.1, hu'.2.2.1, ← computeStats_Duration rs' v,
      ← computeStats_InBlocks rs' v, ← computeStats_OutBlocks rs' v,
      ← computeStats_TotalBlocks rs' v, hd, e3, e4, e5] at hr'
    exact ⟨hr'.1.trans hr.1.symm, hr'.2.1.trans hr.2.1.symm, hr'.2.2.trans hr.2.2.symm⟩

set_option maxRecDepth 100000 in
/-- C12 witness: the three windows of one day in reverse order. -/
theorem computeStats_perm_witness :
    exThree.Perm exThree.reverse ∧
    (computeStats exThree.reverse ⟨5, 1000⟩).Start = Date 2014 1 1 9 55 0 0 ∧
    (computeStats exThree.reverse ⟨5, 1000⟩).WallTime = F64.ofInt 2100 ∧
    (computeStats exThree.reverse ⟨5, 1000⟩
      = { computeStats exThree ⟨5, 1000⟩ with
          Duration := (computeStats exThree.reverse ⟨5, 1000⟩).Duration
          CoreHours := (computeStats exThree.reverse ⟨5, 1000⟩).CoreHours
          UserTime := (computeStats exThree.reverse ⟨5, 1000⟩).UserTime
          SystemTime := (computeStats exThree.reverse ⟨5, 1000⟩).SystemTime
          InBlocksRate := (computeStats exThree.reverse ⟨5, 1000⟩).InBlocksRate
          OutBlocksRate := (computeStats exThree.reverse ⟨5, 1000⟩).OutBlocksRate
          TotalBlocksRate := (computeStats exThree.reverse ⟨5, 1000⟩).TotalBlocksRate }) :=
  ⟨(List.reverse_perm exThree).symm, by decide, by decide,
    (computeStats_perm exThree exThree.reverse ⟨5, 1000⟩ (List.reverse_perm exThree).symm).1⟩

set_option maxRecDepth 100000 in
/-- C12 counterexample: three records with durations 0.1, 0.2 and 0.3 seconds and one
input block each aggregate to `Duration = 0.6000000000000001` and
`InBlocksRate = 4.999999999999999`, and in the reverse order to `Duration = 0.6` and
`InBlocksRate = 5`. -/
theorem computeStats_order_matters :
    [exDur 3 10, exDur 2 10, exDur 1 10].Perm [exDur 1 10, exDur 2 10, exDur 3 10] ∧
    (computeStats [exDur 1 10, exDur 2 10, exDur 3 10] ⟨0, 0⟩).Duration
      = F64.fin false 5404319552844596 (-53) ∧
    (computeStats [exDur 3 10, exDur 2 10, exDur 1 10] ⟨0, 0⟩).Duration
      = F64.fin false 5404319552844595 (-53) ∧
    (computeStats [exDur 3 10, exDur 2 10, exDur 1 10] ⟨0, 0⟩).Duration
      = F64.div (F64.ofInt 6) (F64.ofInt 10) ∧
    (computeStats [exDur 1 10, exDur 2 10, exDur 3 10] ⟨0, 0⟩).InBlocksRate
      = F64.fin false 5629499534213119 (-50) ∧
    (computeStats [exDur 3 10, exDur 2 10, exDur 1 10] ⟨0, 0⟩).InBlocksRate = F64.ofInt 5 ∧
    computeStats [exDur 3 10, exDur 2 10, exDur 1 10] ⟨0, 0⟩
      ≠ computeStats [exDur 1 10, exDur 2 10, exDur 3 10] ⟨0, 0⟩ :=
  ⟨List.reverse_perm [exDur 1 10, exDur 2 10, exDur 3 10], by decide, by decide, by decide,
    by decide, by decide, by decide⟩

/-! ## Finite conversions and zero products -/

namespace F64

theorem bitlenAux_le_of_lt (fuel : Nat) : ∀ n b : Nat, n < 2 ^ b → bitlenAux fuel n ≤ b := by
  induction fuel with
  | zero => intro n b _; simp [bitlenAux]
  | succ fuel ih =>
    intro n b h
    by_cases hn : n = 0
    · simp [bitlenAux, hn]
    · simp only [bitlenAux, hn, if_false]
      cases b with
      | zero => simp at h; omega
      | succ b =>
        have h2 : n / 2 < 2 ^ b := by
          rw [pow_succ] at h; omega
        have := ih (n / 2) b h2
        omega

theorem bitlen_le_of_lt (n b : Nat) (h : n < 2 ^ b) : bitlen n ≤ b :=
  bitlenAux_le_of_lt n n b h

/-- Converting a non-zero 64-bit integer yields a finite value with a non-zero mantissa. -/
theorem round_int_fin (b : Bool) (k : Nat) (h : 1 ≤ k) (hk : k < 2 ^ 64) :
    ∃ m e, 0 < m ∧ round b k 1 0 = fin b m e := by
  obtain ⟨hb1, hb2⟩ := bitlen_pow_le k h
  have hb3 : bitlen k ≤ 64 := bitlen_le_of_lt k 64 hk
  have hone : bitlen 1 = 1 := by decide
  unfold round
  simp only [hone]
  generalize hE2 : (if k * 2 ^ (0 - ((bitlen k : Int) - ((1 : Nat) : Int) - 53 + 0)).toNat /
      (1 * 2 ^ (-(0 - ((bitlen k : Int) - ((1 : Nat) : Int) - 53 + 0))).toNat) < 2 ^ 53
      then ((bitlen k : Int) - ((1 : Nat) : Int) - 53 + 0)
      else ((bitlen k : Int) - ((1 : Nat) : Int) - 53 + 0) + 1) = e2
  have he2 : e2 ≤ (bitlen k : Int) - 53 := by
    rw [← hE2]; split <;> omega
  generalize hE : (if e2 < -1074 then (-1074 : Int) else e2) = e
  have he : e ≤ (bitlen k : Int) - 53 ∨ e < 0 := by
    rw [← hE]; split <;> omega
  have hq : 1 ≤ k * 2 ^ (0 - e).toNat / (1 * 2 ^ (-(0 - e)).toNat) := by
    rw [Nat.one_mul]
    apply (Nat.one_le_div_iff (by positivity)).2
    by_cases hs : e < 0
    · have : (-(0 - e)).toNat = 0 := by omega
      rw [this]
      calc 2 ^ 0 = 1 := by norm_num
        _ ≤ k := h
        _ ≤ k * 2 ^ (0 - e).toNat := Nat.le_mul_of_pos_right _ (by positivity)
    · have h1 : (0 - e).toNat = 0 := by omega
      have h2 : (-(0 - e)).toNat ≤ bitlen k - 1 := by omega
      rw [h1]
      calc 2 ^ (-(0 - e)).toNat ≤ 2 ^ (bitlen k - 1) := Nat.pow_le_pow_right (by norm_num) h2
        _ ≤ k := hb2
        _ = k * 2 ^ 0 := by norm_num
  generalize k * 2 ^ (0 - e).toNat / (1 * 2 ^ (-(0 - e)).toNat) = q at hq ⊢
  generalize k * 2 ^ (0 - e).toNat % (1 * 2 ^ (-(0 - e)).toNat) = r
  generalize hQ1 : (if 1 * 2 ^ (-(0 - e)).toNat < 2 * r ∨
      (2 * r = 1 * 2 ^ (-(0 - e)).toNat ∧ q % 2 = 1) then q + 1 else q) = q1
  have hq1 : 1 ≤ q1 := by
    rw [← hQ1]; split <;> omega
  have h971 : ¬ 971 < (if q1 = 2 ^ 53 then e + 1 else e) := by
    split <;> omega
  rw [if_neg h971]
  refine ⟨_, _, ?_, rfl⟩
  split
  · norm_num
  · omega

/-- A 64-bit integer converts to a finite value carrying its sign. -/
theorem ofInt_fin (n : Int) (h1 : -(2 ^ 63) ≤ n) (h2 : n < 2 ^ 63) :
    ∃ m e, ofInt n = fin (decide (n < 0)) m e := by
  unfold ofInt
  split
  · rename_i hn
    subst hn
    exact ⟨0, -1074, rfl⟩
  · rename_i hn
    obtain ⟨m, e, _, hm⟩ := round_int_fin (decide (n < 0)) n.natAbs (by omega) (by omega)
    exact ⟨m, e, hm⟩

/-- A thread count times a zero duration, over 3600, is a zero with the sign of the
thread count. -/
theorem coreHours_zero (n : Int) (h1 : -(2 ^ 63) ≤ n) (h2 : n < 2 ^ 63) :
    div (mul (ofInt n) zero) (ofInt 3600) = fin (decide (n < 0)) 0 (-1074) := by
  obtain ⟨m, e, hm⟩ := ofInt_fin n h1 h2
  rw [hm]
  have hz : mul (fin (decide (n < 0)) m e) zero = fin (decide (n < 0)) 0 (-1074) := by
    simp [mul, zero]
  rw [hz]
  have hd : ∃ m' e', 0 < m' ∧ ofInt 3600 = fin false m' e' := by
    have := round_int_fin false 3600 (by norm_num) (by norm_num)
    simpa [ofInt] using this
  obtain ⟨m', e', hm', hd⟩ := hd
  rw [hd]
  have : m' ≠ 0 := by omega
  simp [div, this]

end F64

/-! ## C13-C16: the sections of a raw job record -/

theorem reduceWallClock_some (a : PerfInfo) (w : WallClockInfo) :
    (reduceWallClock a (some w)).Duration = w.Duration ∧
    (reduceWallClock a (some w)).Start = parseTime w.Start ∧
    (reduceWallClock a (some w)).End = parseTime w.End ∧
    (reduceWallClock a (some w)).WallTime
      = Seconds ((parseTime w.End).Sub (parseTime w.Start)) :=
  ⟨rfl, rfl, rfl, rfl⟩

theorem reduceWallClock_Duration (n : Int) (w : Option WallClockInfo) :
    (reduceWallClock (initPerf n) w).Duration = clockDuration w := by
  cases w <;> rfl

theorem max_eq_max (x y : Int) : max x y = Max.max x y := by
  unfold max
  split
  · rw [max_eq_left (by omega)]
  · rw [max_eq_right (by omega)]

/-- C13: for every raw job record without a resource-usage section (with or without a
wall-clock section), every thread count and every list of output paths,
`reduceJobInfo` returns a record with `CoreHours`, `MaxRss`, `InBlocks`, `OutBlocks`,
`TotalBlocks`, `UserTime`, `SystemTime` and the three rates all zero, whatever the
duration and the thread count, while `OutputFiles` and `OutputBytes` are the count and
total size (as 64-bit values) of the paths whose stat succeeds and `Duration` is the
wall-clock duration (zero without a wall-clock section). -/
theorem reduceJobInfo_no_rusage (stat : String → Option Int) (j : JobInfo)
    (fp : List String) (n : Int) (h : j.RusageInfo = none) :
    ∃ r, reduceJobInfo stat j fp n = .ok r ∧
      r.CoreHours = F64.zero ∧ r.MaxRss = 0 ∧
      r.InBlocks = 0 ∧ r.OutBlocks = 0 ∧ r.TotalBlocks = 0 ∧
      r.UserTime = F64.zero ∧ r.SystemTime = F64.zero ∧
      r.InBlocksRate = F64.zero ∧ r.OutBlocksRate = F64.zero ∧
      r.TotalBlocksRate = F64.zero ∧
      r.OutputFiles = wrapUint (fp.filter (fun p => (stat p).isSome)).length ∧
      r.OutputBytes = toUint64 (fp.filterMap stat).sum ∧
      r.Duration = clockDuration j.WallClockInfo := by
  have hk := reduceJobInfo_of_none stat j fp n h
  refine ⟨_, hk, ?_⟩
  obtain ⟨_, _, k3, k4, _⟩ := reduceJobInfo_ok_fields stat j fp n _ hk
  have hf := reduceOutputs_fields stat fp (reduceWallClock (initPerf n) j.WallClockInfo)
  have hw := reduceWallClock_fields (initPerf n) j.WallClockInfo
  refine ⟨?_, ?_, ?_, ?_, ?_, ?_, ?_, ?_, ?_, ?_, k3, k4, ?_⟩
  · rw [hf.2.2.2.1, hw.2.2.1]; rfl
  · rw [hf.2.2.2.2.1, hw.2.2.2.1]; rfl
  · rw [hf.2.2.2.2.2.1, hw.2.2.2.2.1]; rfl
  · rw [hf.2.2.2.2.2.2.1, hw.2.2.2.2.2.1]; rfl
  · rw [hf.2.2.2.2.2.2.2.1, hw.2.2.2.2.2.2.1]; rfl
  · rw [hf.2.2.2.2.2.2.2.2.2.2.2.2.2.2.1, hw.2.2.2.2.2.2.2.2.2.2.1]; rfl
  · rw [hf.2.2.2.2.2.2.2.2.2.2.2.2.2.2.2.1, hw.2.2.2.2.2.2.2.2.2.2.2.1]; rfl
  · rw [hf.2.2.2.2.2.2.2.2.1, hw.2.2.2.2.2.2.2.1]; rfl
  · rw [hf.2.2.2.2.2.2.2.2.2.1, hw.2.2.2.2.2.2.2.2.1]; rfl
  · rw [hf.2.2.2.2.2.2.2.2.2.2.1, hw.2.2.2.2.2.2.2.2.2.1]; rfl
  · rw [hf.2.2.1]; exact reduceWallClock_Duration n j.WallClockInfo

set_option maxRecDepth 100000 in
/-- C13 witness: a half-hour task with four threads and no resource-usage section. -/
theorem reduceJobInfo_no_rusage_witness :
    (exJob none (some exClock)).RusageInfo = none ∧
    (∃ r, reduceJobInfo exStat (exJob none (some exClock)) ["/exists", "/missing"] 4 = .ok r ∧
      r.CoreHours = F64.zero ∧ r.MaxRss = 0 ∧
      r.InBlocks = 0 ∧ r.OutBlocks = 0 ∧ r.TotalBlocks = 0 ∧
      r.UserTime = F64.zero ∧ r.SystemTime = F64.zero ∧
      r.InBlocksRate = F64.zero ∧ r.OutBlocksRate = F64.zero ∧
      r.TotalBlocksRate = F64.zero ∧
      r.OutputFiles
        = wrapUint (["/exists", "/missing"].filter (fun p => (exStat p).isSome)).length ∧
      r.OutputBytes = toUint64 (["/exists", "/missing"].filterMap exStat).sum ∧
      r.Duration = clockDuration (exJob none (some exClock)).WallClockInfo) ∧
    (∃ r, reduceJobInfo exStat (exJob none (some exClock)) ["/exists", "/missing"] 4 = .ok r ∧
      r.Duration = F64.ofInt 1800 ∧ r.Duration.gtZero = true ∧ r.NumThreads = 4 ∧
      r.OutputFiles = 1 ∧ r.OutputBytes = 100) :=
  ⟨rfl, reduceJobInfo_no_rusage exStat _ ["/exists", "/missing"] 4 rfl, ⟨_, rfl, by decide⟩⟩

/-- The timing fields of a returned record are those set from the wall-clock section. -/
theorem reduceJobInfo_ok_timing (stat : String → Option Int) (j : JobInfo)
    (fp : List String) (n : Int) (r : PerfInfo) (h : reduceJobInfo stat j fp n = .ok r) :
    r.Duration = (reduceWallClock (initPerf n) j.WallClockInfo).Duration ∧
    r.Start = (reduceWallClock (initPerf n) j.WallClockInfo).Start ∧
    r.End = (reduceWallClock (initPerf n) j.WallClockInfo).End ∧
    r.WallTime = (reduceWallClock (initPerf n) j.WallClockInfo).WallTime := by
  rcases reduceJobInfo_cases j with h1 | ⟨s, c, h1⟩ | ⟨ru, h1, h2⟩
  · rw [reduceJobInfo_of_none stat j fp n h1] at h
    injection h with h
    subst h
    have hf := reduceOutputs_fields stat fp (reduceWallClock (initPerf n) j.WallClockInfo)
    exact ⟨hf.2.2.1, hf.2.2.2.2.2.2.2.2.2.2.2.1, hf.2.2.2.2.2.2.2.2.2.2.2.2.1,
      hf.2.2.2.2.2.2.2.2.2.2.2.2.2.1⟩
  · rw [reduceJobInfo_of_both stat j fp n s c h1] at h
    injection h with h
    subst h
    have hf := reduceOutputs_fields stat fp
      (reduceRates (usagePerf (reduceWallClock (initPerf n) j.WallClockInfo) s c))
    have hg := reduceRates_fields
      (usagePerf (reduceWallClock (initPerf n) j.WallClockInfo) s c)
    refine ⟨?_, ?_, ?_, ?_⟩
    · rw [hf.2.2.1, hg.2.2.1]; rfl
    · rw [hf.2.2.2.2.2.2.2.2.2.2.2.1, hg.2.2.2.2.2.2.2.2.1]; rfl
    · rw [hf.2.2.2.2.2.2.2.2.2.2.2.2.1, hg.2.2.2.2.2.2.2.2.2.1]; rfl
    · rw [hf.2.2.2.2.2.2.2.2.2.2.2.2.2.1, hg.2.2.2.2.2.2.2.2.2.2.1]; rfl
  · rw [reduceJobInfo_of_nil stat j fp n ru h1 h2] at h
    cases h

/-! ## C14: the wall-clock section of a task record -/

/-- C14 (as amended): for every raw job record with a wall-clock section, whenever
`reduceJobInfo` returns (it panics only for a nil sub-record of a present resource-usage
section), `Duration` is the section's raw duration, `Start` and `End` are the parsed
instants of the start and end strings, the zero instant for a string that fails to
parse, and `WallTime` is `Seconds()` of `End - Start` clamped to the range of
`time.Duration`; whenever `End - Start` is a whole number `m` of seconds inside that
range, `WallTime` is exactly `float64(m)`. -/
theorem reduceJobInfo_wallClock (stat : String → Option Int) (j : JobInfo)
    (fp : List String) (n : Int) (w : WallClockInfo) (hw : j.WallClockInfo = some w) :
    match reduceJobInfo stat j fp n with
    | .ok r =>
      r.Duration = w.Duration ∧
      r.Start = (parseChars w.Start.data).getD Time.zero ∧
      r.End = (parseChars w.End.data).getD Time.zero ∧
      (∀ d : Int, d = r.End.ns - r.Start.ns →
        r.WallTime
          = Seconds (if d < -(2 ^ 63) then -(2 ^ 63)
              else if 2 ^ 63 - 1 < d then 2 ^ 63 - 1 else d)) ∧
      (∀ m : Int, r.End.ns - r.Start.ns = m * 1000000000 →
        -(2 ^ 63) ≤ m * 1000000000 → m * 1000000000 ≤ 2 ^ 63 - 1 →
        r.WallTime = F64.ofInt m)
    | .error _ => ∃ ru, j.RusageInfo = some ru ∧ (ru.Self = none ∨ ru.Children = none) := by
  cases h : reduceJobInfo stat j fp n with
  | ok r =>
    obtain ⟨t1, t2, t3, t4⟩ := reduceJobInfo_ok_timing stat j fp n r h
    rw [hw] at t1 t2 t3 t4
    obtain ⟨w1, w2, w3, w4⟩ := reduceWallClock_some (initPerf n) w
    rw [w1] at t1
    rw [w2] at t2
    rw [w3] at t3
    rw [w4] at t4
    have hW : ∀ d : Int, d = r.End.ns - r.Start.ns →
        r.WallTime
          = Seconds (if d < -(2 ^ 63) then -(2 ^ 63)
              else if 2 ^ 63 - 1 < d then 2 ^ 63 - 1 else d) := by
      intro d hd
      rw [t4, hd, t2, t3]
      rfl
    refine ⟨t1, t2, t3, hW, ?_⟩
    intro m hm h1 h2
    rw [hW _ rfl, hm, if_neg (by omega), if_neg (by omega), Seconds_whole]
  | error e =>
    cases e
    exact (reduceJobInfo_panics_iff stat j fp n).1 h

set_option maxRecDepth 100000 in
/-- C14 witness: start `2014-01-01 10:00:00`, end `2014-01-01 10:30:00` and a raw
duration of 1800 seconds give those two instants and a `WallTime` of 1800 seconds. -/
theorem reduceJobInfo_wallClock_witness :
    (exJob none (some exClock)).WallClockInfo = some exClock ∧
    (match reduceJobInfo exStat (exJob none (some exClock)) [] 1 with
      | .ok r =>
        r.Duration = exClock.Duration ∧
        r.Start = (parseChars exClock.Start.data).getD Time.zero ∧
        r.End = (parseChars exClock.End.data).getD Time.zero ∧
        (∀ d : Int, d = r.End.ns - r.Start.ns →
          r.WallTime
            = Seconds (if d < -(2 ^ 63) then -(2 ^ 63)
                else if 2 ^ 63 - 1 < d then 2 ^ 63 - 1 else d)) ∧
        (∀ m : Int, r.End.ns - r.Start.ns = m * 1000000000 →
          -(2 ^ 63) ≤ m * 1000000000 → m * 1000000000 ≤ 2 ^ 63 - 1 →
          r.WallTime = F64.ofInt m)
      | .error _ =>
        ∃ ru, (exJob none (some exClock)).RusageInfo = some ru ∧
          (ru.Self = none ∨ ru.Children = none)) ∧
    ∃ r, reduceJobInfo exStat (exJob none (some exClock)) [] 1 = .ok r ∧
      r.Duration = F64.ofInt 1800 ∧ r.Start = Date 2014 1 1 10 0 0 0 ∧
      r.End = Date 2014 1 1 10 30 0 0 ∧ r.WallTime = F64.ofInt 1800 :=
  ⟨rfl, reduceJobInfo_wallClock exStat (exJob none (some exClock)) [] 1 exClock rfl,
    ⟨_, rfl, by decide⟩⟩

set_option maxRecDepth 100000 in
/-- C14 counterexample: a wall-clock section with start `2014-01-01 10:00:00` and an
empty end string gives `Start` at that instant and `End` at the zero instant, that is
`End - Start = -63524167200` seconds, but a `WallTime` of `-9223372036.854776` seconds,
the smallest `time.Duration`. -/
theorem reduceJobInfo_wallTime_clamped :
    ∃ r, reduceJobInfo exStat (exJob none (some exClockNoEnd)) [] 1 = .ok r ∧
      parseChars exClockNoEnd.Start.data = some (Date 2014 1 1 10 0 0 0) ∧
      parseChars exClockNoEnd.End.data = none ∧
      r.Start = Date 2014 1 1 10 0 0 0 ∧ r.End = Time.zero ∧
      r.End.ns - r.Start.ns = -63524167200 * 1000000000 ∧
      r.WallTime = Seconds (-(2 ^ 63)) ∧
      r.WallTime = F64.fin true 4835703278458517 (-19) ∧
      r.WallTime ≠ F64.ofInt (-63524167200) :=
  ⟨_, rfl, by decide, by decide, by decide, by decide, by decide, by decide, by decide,
    by decide⟩

/-! ### Examples of `time.Parse` -/

set_option maxRecDepth 100000 in
/-- The layout `2006-01-02 15:04:05` accepts a run of blanks between day and hour, a
one-digit hour and a fractional second; a missing blank, a `T` in its place, a blank
before or after the timestamp, a day that the month does not have, and trailing text
are errors. -/
theorem parseChars_examples :
    parseChars "2014-01-01 10:00:00".data = some (Date 2014 1 1 10 0 0 0) ∧
    parseChars "2014-01-01  10:00:00".data = some (Date 2014 1 1 10 0 0 0) ∧
    parseChars "2014-01-01    10:00:00".data = some (Date 2014 1 1 10 0 0 0) ∧
    parseChars "2014-01-01 9:05:07".data = some (Date 2014 1 1 9 5 7 0) ∧
    parseChars "2014-01-01 10:00:00.5".data = some (Date 2014 1 1 10 0 0 500000000) ∧
    parseChars "2014-01-0110:00:00".data = none ∧
    parseChars "2014-01-01T10:00:00".data = none ∧
    parseChars " 2014-01-01 10:00:00".data = none ∧
    parseChars "2014-01-01 10:00:00 ".data = none ∧
    parseChars "2014-01-01 ".data = none ∧
    parseChars "2014-01-01".data = none ∧
    parseChars "2014-02-30 10:00:00".data = none ∧
    parseChars "2014-01-01 10:00:00Z".data = none ∧
    parseChars "".data = none := by
  refine ⟨?_, ?_, ?_, ?_, ?_, ?_, ?_, ?_, ?_, ?_, ?_, ?_, ?_, ?_⟩ <;> decide

set_option maxRecDepth 100000 in
/-- A start string with two blanks between day and hour parses to the same instant as
with one: the record has `Start` 10:00, `End` 10:30 and a `WallTime` of 1800 seconds. -/
theorem reduceJobInfo_blank_run :
    ∃ r, reduceJobInfo exStat (exJob none (some exClockBlanks)) [] 1 = .ok r ∧
      r.Start = Date 2014 1 1 10 0 0 0 ∧ r.End = Date 2014 1 1 10 30 0 0 ∧
      r.WallTime = F64.ofInt 1800 :=
  ⟨_, rfl, by decide, by decide, by decide⟩

/-- The fields of a returned record that come from a resource-usage section with both
sub-records. -/
theorem reduceJobInfo_both_fields (stat : String → Option Int) (j : JobInfo)
    (fp : List String) (n : Int) (s c : Rusage)
    (h : j.RusageInfo = some ⟨some s, some c⟩) :
    ∃ r, reduceJobInfo stat j fp n = .ok r ∧
      r.NumJobs = 1 ∧ r.NumThreads = n ∧
      r.Duration = clockDuration j.WallClockInfo ∧
      r.CoreHours
        = F64.div (F64.mul (F64.ofInt n) (clockDuration j.WallClockInfo)) (F64.ofInt 3600) ∧
      r.MaxRss = max s.MaxRss c.MaxRss ∧
      r.InBlocks = wrapInt (s.InBlocks + c.InBlocks) ∧
      r.OutBlocks = wrapInt (s.OutBlocks + c.OutBlocks) ∧
      r.TotalBlocks = wrapInt (r.InBlocks + r.OutBlocks) ∧
      r.UserTime = F64.add s.UserTime c.UserTime ∧
      r.SystemTime = F64.add s.SystemTime c.SystemTime := by
  have hk := reduceJobInfo_of_both stat j fp n s c h
  refine ⟨_, hk, ?_⟩
  have hf := reduceOutputs_fields stat fp
    (reduceRates (usagePerf (reduceWallClock (initPerf n) j.WallClockInfo) s c))
  have hg := reduceRates_fields (usagePerf (reduceWallClock (initPerf n) j.WallClockInfo) s c)
  have hw := reduceWallClock_fields (initPerf n) j.WallClockInfo
  have hd := reduceWallClock_Duration n j.WallClockInfo
  rw [hf.1, hf.2.1, hf.2.2.1, hf.2.2.2.1, hf.2.2.2.2.1, hf.2.2.2.2.2.1, hf.2.2.2.2.2.2.1,
    hf.2.2.2.2.2.2.2.1, hf.2.2.2.2.2.2.2.2.2.2.2.2.2.2.1, hf.2.2.2.2.2.2.2.2.2.2.2.2.2.2.2.1,
    hg.1, hg.2.1, hg.2.2.1, hg.2.2.2.1, hg.2.2.2.2.1, hg.2.2.2.2.2.1, hg.2.2.2.2.2.2.1,
    hg.2.2.2.2.2.2.2.1, hg.2.2.2.2.2.2.2.2.2.2.2.1, hg.2.2.2.2.2.2.2.2.2.2.2.2.1]
  refine ⟨?_, ?_, ?_, ?_, rfl, rfl, rfl, rfl, rfl, rfl⟩
  · show (reduceWallClock (initPerf n) j.WallClockInfo).NumJobs = 1
    rw [hw.1]; rfl
  · show (reduceWallClock (initPerf n) j.WallClockInfo).NumThreads = n
    rw [hw.2.1]; rfl
  · exact hd
  · show F64.div (F64.mul (F64.ofInt (reduceWallClock (initPerf n) j.WallClockInfo).NumThreads)
        (reduceWallClock (initPerf n) j.WallClockInfo).Duration) (F64.ofInt 3600) = _
    rw [hw.2.1, hd]; rfl

/-! ## C15: the resource-usage section of a task record -/

/-- C15: for every raw job record whose resource-usage section has both sub-records, and
every thread count `n`, `reduceJobInfo` returns a record with
`MaxRss = max(self.MaxRss, children.MaxRss)`, `InBlocks`, `OutBlocks` the 64-bit sums and
`UserTime`, `SystemTime` the float64 sums over `self` and `children`, and
`CoreHours = float64(n) * Duration / 3600`, where `Duration` is the wall-clock duration
(zero without a wall-clock section). -/
theorem reduceJobInfo_rusage (stat : String → Option Int) (j : JobInfo)
    (fp : List String) (n : Int) (s c : Rusage)
    (h : j.RusageInfo = some ⟨some s, some c⟩) :
    ∃ r, reduceJobInfo stat j fp n = .ok r ∧
      r.MaxRss = Max.max s.MaxRss c.MaxRss ∧
      r.InBlocks = wrapInt (s.InBlocks + c.InBlocks) ∧
      r.OutBlocks = wrapInt (s.OutBlocks + c.OutBlocks) ∧
      r.UserTime = F64.add s.UserTime c.UserTime ∧
      r.SystemTime = F64.add s.SystemTime c.SystemTime ∧
      r.CoreHours = F64.div (F64.mul (F64.ofInt n) r.Duration) (F64.ofInt 3600) ∧
      r.Duration = clockDuration j.WallClockInfo := by
  obtain ⟨r, h0, _, _, h3, h4, h5, h6, h7, _, h9, h10⟩ :=
    reduceJobInfo_both_fields stat j fp n s c h
  refine ⟨r, h0, ?_, h6, h7, h9, h10, ?_, h3⟩
  · rw [h5, max_eq_max]
  · rw [h4, h3]

set_option maxRecDepth 100000 in
/-- C15 witness: peak memories 100 and 300 give `MaxRss = 300` (not 400), 10 + 30 input
and 20 + 40 output blocks give 40 and 60, user times 3 + 3 and system times 1 + 1 give
6 and 2, and four threads over 1800 seconds give 2 core hours. -/
theorem reduceJobInfo_rusage_witness :
    (exJob (some exUsage) (some exClock)).RusageInfo
      = some ⟨some (exRusage 100 10 20), some (exRusage 300 30 40)⟩ ∧
    (∃ r, reduceJobInfo exStat (exJob (some exUsage) (some exClock)) [] 4 = .ok r ∧
      r.MaxRss = Max.max (exRusage 100 10 20).MaxRss (exRusage 300 30 40).MaxRss ∧
      r.InBlocks = wrapInt ((exRusage 100 10 20).InBlocks + (exRusage 300 30 40).InBlocks) ∧
      r.OutBlocks = wrapInt ((exRusage 100 10 20).OutBlocks + (exRusage 300 30 40).OutBlocks) ∧
      r.UserTime = F64.add (exRusage 100 10 20).UserTime (exRusage 300 30 40).UserTime ∧
      r.SystemTime = F64.add (exRusage 100 10 20).SystemTime (exRusage 300 30 40).SystemTime ∧
      r.CoreHours = F64.div (F64.mul (F64.ofInt 4) r.Duration) (F64.ofInt 3600) ∧
      r.Duration = clockDuration (exJob (some exUsage) (some exClock)).WallClockInfo) ∧
    (∃ r, reduceJobInfo exStat (exJob (some exUsage) (some exClock)) [] 4 = .ok r ∧
      r.MaxRss = 300 ∧ r.InBlocks = 40 ∧ r.OutBlocks = 60 ∧
      r.UserTime = F64.ofInt 6 ∧ r.SystemTime = F64.ofInt 2 ∧ r.CoreHours = F64.ofInt 2) :=
  ⟨rfl, reduceJobInfo_rusage exStat _ [] 4 _ _ rfl, ⟨_, rfl, by decide⟩⟩

/-! ## C16: a resource-usage section without a wall-clock section -/

/-- C16: for every raw job record without a wall-clock section whose resource-usage
section has both sub-records, and every (64-bit) thread count `n`, `reduceJobInfo`
returns a record with `NumJobs = 1`, `NumThreads = n`, `Duration = 0`, `WallTime = 0`,
`Start` and `End` the zero instant, `CoreHours` zero (`+0.0`, and `-0.0` for a negative
`n`) and all three rates zero, while `MaxRss`, `InBlocks`, `OutBlocks`, `TotalBlocks`,
`UserTime` and `SystemTime` are computed from the resource-usage section. -/
theorem reduceJobInfo_no_wallClock (stat : String → Option Int) (j : JobInfo)
    (fp : List String) (n : Int) (s c : Rusage)
    (hw : j.WallClockInfo = none) (h : j.RusageInfo = some ⟨some s, some c⟩)
    (h1 : -(2 ^ 63) ≤ n) (h2 : n < 2 ^ 63) :
    ∃ r, reduceJobInfo stat j fp n = .ok r ∧
      r.NumJobs = 1 ∧ r.NumThreads = n ∧
      r.Duration = F64.zero ∧ r.WallTime = F64.zero ∧
      r.Start = Time.zero ∧ r.End = Time.zero ∧
      r.CoreHours = (if n < 0 then F64.negZero else F64.zero) ∧
      r.InBlocksRate = F64.zero ∧ r.OutBlocksRate = F64.zero ∧
      r.TotalBlocksRate = F64.zero ∧
      r.MaxRss = Max.max s.MaxRss c.MaxRss ∧
      r.InBlocks = wrapInt (s.InBlocks + c.InBlocks) ∧
      r.OutBlocks = wrapInt (s.OutBlocks + c.OutBlocks) ∧
      r.TotalBlocks = wrapInt (r.InBlocks + r.OutBlocks) ∧
      r.UserTime = F64.add s.UserTime c.UserTime ∧
      r.SystemTime = F64.add s.SystemTime c.SystemTime := by
  obtain ⟨r, h0, k1, k2, k3, k4, k5, k6, k7, k8, k9, k10⟩ :=
    reduceJobInfo_both_fields stat j fp n s c h
  obtain ⟨t1, t2, t3, t4⟩ := reduceJobInfo_ok_timing stat j fp n r h0
  rw [hw] at k3 k4 t2 t3 t4
  have hrates : r.InBlocksRate = F64.zero ∧ r.OutBlocksRate = F64.zero ∧
      r.TotalBlocksRate = F64.zero := by
    have hk := reduceJobInfo_of_both stat j fp n s c h
    rw [h0] at hk
    injection hk with hk
    subst hk
    have hf := reduceOutputs_fields stat fp
      (reduceRates (usagePerf (reduceWallClock (initPerf n) j.WallClockInfo) s c))
    have hz : (usagePerf (reduceWallClock (initPerf n) j.WallClockInfo) s c).Duration.gtZero
        = false := by
      rw [hw]; rfl
    rw [hf.2.2.2.2.2.2.2.2.1, hf.2.2.2.2.2.2.2.2.2.1, hf.2.2.2.2.2.2.2.2.2.2.1,
      reduceRates_nonpos _ hz, hw]
    exact ⟨rfl, rfl, rfl⟩
  refine ⟨r, h0, k1, k2, k3, t4, t2, t3, ?_, hrates.1, hrates.2.1, hrates.2.2, ?_, k6, k7,
    k8, k9, k10⟩
  · rw [k4]
    show F64.div (F64.mul (F64.ofInt n) F64.zero) (F64.ofInt 3600) = _
    rw [F64.coreHours_zero n h1 h2]
    by_cases hn : n < 0
    · simp [hn, F64.negZero]
    · simp [hn, F64.zero]
  · rw [k5, max_eq_max]

set_option maxRecDepth 100000 in
/-- C16 witness: the resource-usage section of the example with four threads and no
wall-clock section. -/
theorem reduceJobInfo_no_wallClock_witness :
    (exJob (some exUsage) none).WallClockInfo = none ∧
    (exJob (some exUsage) none).RusageInfo
      = some ⟨some (exRusage 100 10 20), some (exRusage 300 30 40)⟩ ∧
    -(2 ^ 63) ≤ (4 : Int) ∧ (4 : Int) < 2 ^ 63 ∧
    (∃ r, reduceJobInfo exStat (exJob (some exUsage) none) ["/exists"] 4 = .ok r ∧
      r.NumJobs = 1 ∧ r.NumThreads = 4 ∧
      r.Duration = F64.zero ∧ r.WallTime = F64.zero ∧
      r.Start = Time.zero ∧ r.End = Time.zero ∧
      r.CoreHours = (if (4 : Int) < 0 then F64.negZero else F64.zero) ∧
      r.InBlocksRate = F64.zero ∧ r.OutBlocksRate = F64.zero ∧
      r.TotalBlocksRate = F64.zero ∧
      r.MaxRss = Max.max (exRusage 100 10 20).MaxRss (exRusage 300 30 40).MaxRss ∧
      r.InBlocks = wrapInt ((exRusage 100 10 20).InBlocks + (exRusage 300 30 40).InBlocks) ∧
      r.OutBlocks = wrapInt ((exRusage 100 10 20).OutBlocks + (exRusage 300 30 40).OutBlocks) ∧
      r.TotalBlocks = wrapInt (r.InBlocks + r.OutBlocks) ∧
      r.UserTime = F64.add (exRusage 100 10 20).UserTime (exRusage 300 30 40).UserTime ∧
      r.SystemTime
        = F64.add (exRusage 100 10 20).SystemTime (exRusage 300 30 40).SystemTime) ∧
    (∃ r, reduceJobInfo exStat (exJob (some exUsage) none) ["/exists"] 4 = .ok r ∧
      r.CoreHours = F64.zero ∧ r.MaxRss = 300 ∧ r.InBlocks = 40 ∧ r.OutBlocks = 60 ∧
      r.TotalBlocks = 100 ∧ r.UserTime = F64.ofInt 6 ∧ r.SystemTime = F64.ofInt 2) :=
  ⟨rfl, rfl, by decide, by decide,
    reduceJobInfo_no_wallClock exStat _ ["/exists"] 4 _ _ rfl rfl (by decide) (by decide),
    ⟨_, rfl, by decide⟩⟩

/-! ## C17: the block invariant from task records to the aggregate -/

/-- The fields of a returned record that stay at their zero value without a
resource-usage section. -/
theorem reduceJobInfo_none_fields (stat : String → Option Int) (j : JobInfo)
    (fp : List String) (n : Int) (h : j.RusageInfo = none) :
    ∃ r, reduceJobInfo stat j fp n = .ok r ∧
      r.CoreHours = F64.zero ∧ r.MaxRss = 0 ∧
      r.InBlocks = 0 ∧ r.OutBlocks = 0 ∧ r.TotalBlocks = 0 ∧
      r.UserTime = F64.zero ∧ r.SystemTime = F64.zero ∧
      r.InBlocksRate = F64.zero ∧ r.OutBlocksRate = F64.zero ∧
      r.TotalBlocksRate = F64.zero := by
  have hk := reduceJobInfo_of_none stat j fp n h
  refine ⟨_, hk, ?_⟩
  have hf := reduceOutputs_fields stat fp (reduceWallClock (initPerf n) j.WallClockInfo)
  have hw := reduceWallClock_fields (initPerf n) j.WallClockInfo
  refine ⟨?_, ?_, ?_, ?_, ?_, ?_, ?_, ?_, ?_, ?_⟩
  · rw [hf.2.2.2.1, hw.2.2.1]; rfl
  · rw [hf.2.2.2.2.1, hw.2.2.2.1]; rfl
  · rw [hf.2.2.2.2.2.1, hw.2.2.2.2.1]; rfl
  · rw [hf.2.2.2.2.2.2.1, hw.2.2.2.2.2.1]; rfl
  · rw [hf.2.2.2.2.2.2.2.1, hw.2.2.2.2.2.2.1]; rfl
  · rw [hf.2.2.2.2.2.2.2.2.2.2.2.2.2.2.1, hw.2.2.2.2.2.2.2.2.2.2.1]; rfl
  · rw [hf.2.2.2.2.2.2.2.2.2.2.2.2.2.2.2.1, hw.2.2.2.2.2.2.2.2.2.2.2.1]; rfl
  · rw [hf.2.2.2.2.2.2.2.2.1, hw.2.2.2.2.2.2.2.1]; rfl
  · rw [hf.2.2.2.2.2.2.2.2.2.1, hw.2.2.2.2.2.2.2.2.1]; rfl
  · rw [hf.2.2.2.2.2.2.2.2.2.2.1, hw.2.2.2.2.2.2.2.2.2.1]; rfl

/-- A returned task record satisfies the block invariant. -/
theorem reduceJobInfo_ok_blocks (stat : String → Option Int) (j : JobInfo)
    (fp : List String) (n : Int) (r : PerfInfo) (h : reduceJobInfo stat j fp n = .ok r) :
    r.TotalBlocks = wrapInt (r.InBlocks + r.OutBlocks) := by
  rcases reduceJobInfo_cases j with h1 | ⟨s, c, h1⟩ | ⟨ru, h1, h2⟩
  · obtain ⟨r', h0, _, _, k3, k4, k5, _⟩ := reduceJobInfo_none_fields stat j fp n h1
    rw [h0] at h
    injection h with h
    subst h
    rw [k3, k4, k5]
    rfl
  · obtain ⟨r', h0, _, _, _, _, _, _, _, k8, _⟩ := reduceJobInfo_both_fields stat j fp n s c h1
    rw [h0] at h
    injection h with h
    subst h
    exact k8
  · rw [reduceJobInfo_of_nil stat j fp n ru h1 h2] at h
    cases h

/-- C17: `computeStats` preserves the block invariant: for every sequence of performance
records each of which satisfies `TotalBlocks = InBlocks + OutBlocks`, exactly or in
wrap-around 64-bit addition, and every reclaim report, the returned record satisfies
`TotalBlocks = InBlocks + OutBlocks` in wrap-around 64-bit addition; hence it holds for
the aggregate of any records returned by `reduceJobInfo`. -/
theorem computeStats_blocks_preserved (rs : List PerfInfo) (v : VDRKillReport) :
    ((∀ r ∈ rs, r.TotalBlocks = wrapInt (r.InBlocks + r.OutBlocks)) →
      (computeStats rs v).TotalBlocks
        = wrapInt ((computeStats rs v).InBlocks + (computeStats rs v).OutBlocks)) ∧
    ((∀ r ∈ rs, r.TotalBlocks = r.InBlocks + r.OutBlocks) →
      (computeStats rs v).TotalBlocks
        = wrapInt ((computeStats rs v).InBlocks + (computeStats rs v).OutBlocks)) ∧
    (∀ (stat : String → Option Int) (tasks : List (JobInfo × List String × Int)),
      List.Forall₂ (fun t r => reduceJobInfo stat t.1 t.2.1 t.2.2 = .ok r) tasks rs →
      (computeStats rs v).TotalBlocks
        = wrapInt ((computeStats rs v).InBlocks + (computeStats rs v).OutBlocks)) := by
  have key : (∀ r ∈ rs, wrapInt r.TotalBlocks = wrapInt (r.InBlocks + r.OutBlocks)) →
      (computeStats rs v).TotalBlocks
        = wrapInt ((computeStats rs v).InBlocks + (computeStats rs v).OutBlocks) := by
    intro h
    rw [computeStats_TotalBlocks_sum, computeStats_InBlocks_sum, computeStats_OutBlocks_sum,
      sum_blocks_congr rs h]
    exact wrapInt_add_congr _ _ _ _ (wrapInt_idem _).symm (wrapInt_idem _).symm
  refine ⟨?_, ?_, ?_⟩
  · intro h
    apply key
    intro r hr
    rw [h r hr, wrapInt_idem]
  · intro h
    apply key
    intro r hr
    rw [h r hr]
  · intro stat tasks h
    apply key
    intro r hr
    have hall : ∀ r ∈ rs, ∃ t ∈ tasks, reduceJobInfo stat t.1 t.2.1 t.2.2 = .ok r := by
      clear key hr
      induction h with
      | nil => intro r hr; cases hr
      | cons h1 _ ih =>
        intro r hr
        rcases List.mem_cons.1 hr with rfl | hr
        · exact ⟨_, List.mem_cons_self _ _, h1⟩
        · obtain ⟨t, ht, h2⟩ := ih r hr
          exact ⟨t, List.mem_cons_of_mem _ ht, h2⟩
    obtain ⟨t, _, h2⟩ := hall r hr
    rw [reduceJobInfo_ok_blocks stat t.1 t.2.1 t.2.2 r h2, wrapInt_idem]

set_option maxRecDepth 100000 in
/-- C17 witness: the records of the three example tasks aggregate to 40 input, 60 output
and 100 total blocks. -/
theorem computeStats_blocks_preserved_witness :
    List.Forall₂ (fun t r => reduceJobInfo exStat t.1 t.2.1 t.2.2 = .ok r)
      exTasks exTaskRecords ∧
    (computeStats exTaskRecords ⟨0, 0⟩).TotalBlocks
      = wrapInt ((computeStats exTaskRecords ⟨0, 0⟩).InBlocks
          + (computeStats exTaskRecords ⟨0, 0⟩).OutBlocks) ∧
    (computeStats exTaskRecords ⟨0, 0⟩).InBlocks = 40 ∧
    (computeStats exTaskRecords ⟨0, 0⟩).OutBlocks = 60 ∧
    (computeStats exTaskRecords ⟨0, 0⟩).TotalBlocks = 100 := by
  have hall : List.Forall₂ (fun t r => reduceJobInfo exStat t.1 t.2.1 t.2.2 = .ok r)
      exTasks exTaskRecords :=
    List.Forall₂.cons rfl (List.Forall₂.cons rfl (List.Forall₂.cons rfl List.Forall₂.nil))
  exact ⟨hall, (computeStats_blocks_preserved exTaskRecords ⟨0, 0⟩).2.2 exStat exTasks hall,
    by decide, by decide, by decide⟩

/-! ## C20: the fields of the inputs that `computeStats` reads -/

/-- One iteration of the loop gives the same result for two inputs that agree on the
fields it reads. -/
theorem aggStep_congr (i : Nat) (a p q : PerfInfo) (h : agreeOnInputs p q) :
    aggSums (aggWindow i a p) p = aggSums (aggWindow i a q) q := by
  obtain ⟨h1, h2, h3, h4, h5, h6, h7, h8, h9, h10, h11, h12, h13, h14⟩ := h
  simp only [aggSums, aggWindow, h1, h2, h3, h4, h5, h6, h7, h8, h9, h10, h11, h12, h13, h14]

theorem aggLoop_congr (rs rs' : List PerfInfo) (h : List.Forall₂ agreeOnInputs rs rs') :
    ∀ (i : Nat) (a : PerfInfo), aggLoop i a rs = aggLoop i a rs' := by
  induction h with
  | nil => intro i a; rfl
  | cons h1 _ ih =>
    intro i a
    simp only [aggLoop]
    rw [aggStep_congr i a _ _ h1, ih]

/-- C20: for every two sequences of performance records of equal length that agree
element-wise on `NumJobs`, `NumThreads`, `Duration`, `CoreHours`, `MaxRss`, `InBlocks`,
`OutBlocks`, `TotalBlocks`, `Start`, `End`, `UserTime`, `SystemTime`, `OutputFiles` and
`OutputBytes`, and every reclaim report, `computeStats` returns the same record; the
`VdrFiles` and `VdrBytes` of the result are those of the report, whatever the inputs
carry. -/
theorem computeStats_reads_only (rs rs' : List PerfInfo) (v : VDRKillReport)
    (h : List.Forall₂ agreeOnInputs rs rs') :
    computeStats rs v = computeStats rs' v ∧
    (computeStats rs v).VdrFiles = v.Count ∧ (computeStats rs v).VdrBytes = v.Size := by
  refine ⟨?_, rfl, rfl⟩
  unfold computeStats
  rw [aggLoop_congr rs rs' h]

set_option maxRecDepth 100000 in
/-- C20 witness: the three windows of one day, and copies of them with other rates, wall
times, totals and reclaim counts, aggregate to the same record, with the reclaim counts
5 and 1000 of the report. -/
theorem computeStats_reads_only_witness :
    List.Forall₂ agreeOnInputs exThree (exThree.map exScrambled) ∧
    (computeStats exThree ⟨5, 1000⟩ = computeStats (exThree.map exScrambled) ⟨5, 1000⟩ ∧
      (computeStats exThree ⟨5, 1000⟩).VdrFiles = 5 ∧
      (computeStats exThree ⟨5, 1000⟩).VdrBytes = 1000) ∧
    (computeStats (exThree.map exScrambled) ⟨5, 1000⟩).VdrFiles = 5 ∧
    (computeStats (exThree.map exScrambled) ⟨5, 1000⟩).WallTime = F64.ofInt 2100 := by
  have hall : List.Forall₂ agreeOnInputs exThree (exThree.map exScrambled) :=
    List.Forall₂.cons ⟨rfl, rfl, rfl, rfl, rfl, rfl, rfl, rfl, rfl, rfl, rfl, rfl, rfl, rfl⟩
      (List.Forall₂.cons ⟨rfl, rfl, rfl, rfl, rfl, rfl, rfl, rfl, rfl, rfl, rfl, rfl, rfl, rfl⟩
        (List.Forall₂.cons
          ⟨rfl, rfl, rfl, rfl, rfl, rfl, rfl, rfl, rfl, rfl, rfl, rfl, rfl, rfl⟩
          List.Forall₂.nil))
  exact ⟨hall, computeStats_reads_only exThree (exThree.map exScrambled) ⟨5, 1000⟩ hall,
    by decide, by decide⟩

/-! ## C18: the aggregate of a single task record -/

namespace F64

theorem add_zero_left (x : F64) : add zero x = posZero x := by
  cases x with
  | nan => rfl
  | inf b => rfl
  | fin b m e =>
    cases m with
    | zero => simp [add, zero, posZero]
    | succ m => simp [add, zero, posZero]

theorem gtZero_posZero (x : F64) : (posZero x).gtZero = x.gtZero := by
  cases x with
  | nan => rfl
  | inf b => rfl
  | fin b m e =>
    cases m with
    | zero => simp [posZero, gtZero, zero]
    | succ m => simp [posZero]

theorem posZero_of_gtZero (x : F64) (h : x.gtZero = true) : posZero x = x := by
  cases x with
  | nan => rfl
  | inf b => rfl
  | fin b m e =>
    cases m with
    | zero => simp [gtZero] at h
    | succ m => simp [posZero]

theorem div_zero_of_gtZero (x : F64) (h : x.gtZero = true) : div (ofInt 0) x = zero := by
  cases x with
  | nan => simp [gtZero] at h
  | inf b =>
    simp [gtZero] at h
    subst h
    rfl
  | fin b m e =>
    simp [gtZero] at h
    obtain ⟨hb, hm⟩ := h
    subst hb
    have : m ≠ 0 := by omega
    simp [div, ofInt, zero, this]

end F64

theorem wrapUint_idem (a : Nat) : wrapUint (wrapUint a) = wrapUint a := by
  unfold wrapUint; omega

theorem reduceWallClock_WallTime (a : PerfInfo) (w : Option WallClockInfo)
    (h : a.WallTime = Seconds (a.End.Sub a.Start)) :
    (reduceWallClock a w).WallTime
      = Seconds ((reduceWallClock a w).End.Sub (reduceWallClock a w).Start) := by
  cases w with
  | none => exact h
  | some w => rfl

/-- Every record returned by `reduceJobInfo` is a task record. -/
theorem reduceJobInfo_ok_taskRecord (stat : String → Option Int) (j : JobInfo)
    (fp : List String) (n : Int) (r : PerfInfo) (h : reduceJobInfo stat j fp n = .ok r) :
    TaskRecord n r := by
  obtain ⟨f1, f2, f3, f4, f5, f6, f7, f8⟩ := reduceJobInfo_ok_fields stat j fp n r h
  obtain ⟨t1, t2, t3, t4⟩ := reduceJobInfo_ok_timing stat j fp n r h
  have hW : r.WallTime = Seconds (r.End.Sub r.Start) := by
    rw [t4, t2, t3]
    exact reduceWallClock_WallTime (initPerf n) j.WallClockInfo Seconds_zero.symm
  have hF : wrapUint r.OutputFiles = r.OutputFiles := by rw [f3, wrapUint_idem]
  have hB : wrapUint r.OutputBytes = r.OutputBytes := by rw [f4, wrapUint_toUint64]
  rcases reduceJobInfo_cases j with h1 | ⟨s, c, h1⟩ | ⟨ru, h1, h2⟩
  · obtain ⟨r', h0, _, _, k3, k4, k5, _, _, k8, k9, k10⟩ :=
      reduceJobInfo_none_fields stat j fp n h1
    rw [h0] at h
    injection h with h
    subst h
    refine ⟨f1, f2, ?_, ?_, ?_, hF, hB, f5, f6, f7, f8, hW, ?_, ?_, ?_⟩
    · rw [k3]; rfl
    · rw [k4]; rfl
    · rw [k5]; rfl
    · rw [k8, k3]
      split
      · rename_i hg; rw [F64.div_zero_of_gtZero _ hg]
      · rfl
    · rw [k9, k4]
      split
      · rename_i hg; rw [F64.div_zero_of_gtZero _ hg]
      · rfl
    · rw [k10, k5]
      split
      · rename_i hg; rw [F64.div_zero_of_gtZero _ hg]
      · rfl
  · obtain ⟨r', h0, _, _, _, _, _, k6, k7, k8, _⟩ :=
      reduceJobInfo_both_fields stat j fp n s c h1
    have hk := reduceJobInfo_of_both stat j fp n s c h1
    rw [h0] at h
    injection h with h
    subst h
    refine ⟨f1, f2, ?_, ?_, ?_, hF, hB, f5, f6, f7, f8, hW, ?_⟩
    · rw [k6, wrapInt_idem]
    · rw [k7, wrapInt_idem]
    · rw [k8, wrapInt_idem]
    · rw [h0] at hk
      injection hk with hk
      have hf := reduceOutputs_fields stat fp
        (reduceRates (usagePerf (reduceWallClock (initPerf n) j.WallClockInfo) s c))
      have hg := reduceRates_fields
        (usagePerf (reduceWallClock (initPerf n) j.WallClockInfo) s c)
      rw [hk, hf.2.2.1, hf.2.2.2.2.2.1, hf.2.2.2.2.2.2.1, hf.2.2.2.2.2.2.2.1,
        hf.2.2.2.2.2.2.2.2.1, hf.2.2.2.2.2.2.2.2.2.1, hf.2.2.2.2.2.2.2.2.2.2.1,
        hg.2.2.1, hg.2.2.2.2.2.1, hg.2.2.2.2.2.2.1, hg.2.2.2.2.2.2.2.1]
      by_cases hp : (usagePerf (reduceWallClock (initPerf n) j.WallClockInfo) s c).Duration.gtZero
          = true
      · obtain ⟨r1, r2, r3⟩ := reduceRates_pos _ hp
        rw [r1, r2, r3, if_pos hp, if_pos hp, if_pos hp]
        exact ⟨rfl, rfl, rfl⟩
      · have hp' : (usagePerf (reduceWallClock (initPerf n) j.WallClockInfo) s c).Duration.gtZero
            = false := by simpa using hp
        rw [reduceRates_nonpos _ hp', if_neg hp, if_neg hp, if_neg hp]
        have hw := reduceWallClock_fields (initPerf n) j.WallClockInfo
        refine ⟨?_, ?_, ?_⟩
        · show (reduceWallClock (initPerf n) j.WallClockInfo).InBlocksRate = F64.zero
          rw [hw.2.2.2.2.2.2.2.1]; rfl
        · show (reduceWallClock (initPerf n) j.WallClockInfo).OutBlocksRate = F64.zero
          rw [hw.2.2.2.2.2.2.2.2.1]; rfl
        · show (reduceWallClock (initPerf n) j.WallClockInfo).TotalBlocksRate = F64.zero
          rw [hw.2.2.2.2.2.2.2.2.2.1]; rfl
  · rw [reduceJobInfo_of_nil stat j fp n ru h1 h2] at h
    cases h

/-- The loop over a single record. -/
theorem aggLoop_single (r : PerfInfo) :
    aggLoop 0 PerfInfo.zero [r] = aggSums (aggWindow 0 PerfInfo.zero r) r := rfl

theorem aggRates_of_pos (a : PerfInfo) (h : a.Duration.gtZero = true) :
    aggRates a
      = { a with
          InBlocksRate := F64.div (F64.ofInt a.InBlocks) a.Duration
          OutBlocksRate := F64.div (F64.ofInt a.OutBlocks) a.Duration
          TotalBlocksRate := F64.div (F64.ofInt a.TotalBlocks) a.Duration } := by
  simp [aggRates, h]

theorem aggRates_of_not_pos (a : PerfInfo) (h : ¬ a.Duration.gtZero = true) :
    aggRates a = a := by
  simp [aggRates, h]

/-- The fields of the aggregate of a single record, read off the code. -/
theorem computeStats_single_fields (r : PerfInfo) (v : VDRKillReport) :
    (computeStats [r] v).NumJobs = wrapInt (0 + r.NumJobs) ∧
    (computeStats [r] v).NumThreads = wrapInt (0 + r.NumThreads) ∧
    (computeStats [r] v).Duration = F64.add F64.zero r.Duration ∧
    (computeStats [r] v).CoreHours = F64.add F64.zero r.CoreHours ∧
    (computeStats [r] v).MaxRss = max 0 r.MaxRss ∧
    (computeStats [r] v).InBlocks = wrapInt (0 + r.InBlocks) ∧
    (computeStats [r] v).OutBlocks = wrapInt (0 + r.OutBlocks) ∧
    (computeStats [r] v).TotalBlocks = wrapInt (0 + r.TotalBlocks) ∧
    (computeStats [r] v).Start = r.Start ∧
    (computeStats [r] v).End = r.End ∧
    (computeStats [r] v).WallTime = Seconds (r.End.Sub r.Start) ∧
    (computeStats [r] v).UserTime = F64.add F64.zero r.UserTime ∧
    (computeStats [r] v).SystemTime = F64.add F64.zero r.SystemTime ∧
    (computeStats [r] v).OutputFiles = wrapUint (0 + r.OutputFiles) ∧
    (computeStats [r] v).OutputBytes = wrapUint (0 + r.OutputBytes) ∧
    (computeStats [r] v).VdrFiles = v.Count ∧
    (computeStats [r] v).VdrBytes = v.Size ∧
    (computeStats [r] v).TotalFiles = wrapUint (wrapUint (0 + r.OutputFiles) + v.Count) ∧
    (computeStats [r] v).TotalBytes = wrapUint (wrapUint (0 + r.OutputBytes) + v.Size) := by
  by_cases h : (aggSums (aggWindow 0 PerfInfo.zero r) r).Duration.gtZero = true
  · simp only [computeStats, aggLoop_single, aggRates_of_pos _ h]
    refine ⟨?_, ?_, ?_, ?_, ?_, ?_, ?_, ?_, ?_, ?_, ?_, ?_, ?_, ?_, ?_, ?_, ?_, ?_, ?_⟩ <;>
      trivial
  · simp only [computeStats, aggLoop_single, aggRates_of_not_pos _ h]
    refine ⟨?_, ?_, ?_, ?_, ?_, ?_, ?_, ?_, ?_, ?_, ?_, ?_, ?_, ?_, ?_, ?_, ?_, ?_, ?_⟩ <;>
      trivial

/-- The rates of the aggregate of a single record. -/
theorem computeStats_single_rates (r : PerfInfo) (v : VDRKillReport) :
    (computeStats [r] v).InBlocksRate
      = (if (F64.add F64.zero r.Duration).gtZero = true then
          F64.div (F64.ofInt (wrapInt (0 + r.InBlocks))) (F64.add F64.zero r.Duration)
        else F64.zero) ∧
    (computeStats [r] v).OutBlocksRate
      = (if (F64.add F64.zero r.Duration).gtZero = true then
          F64.div (F64.ofInt (wrapInt (0 + r.OutBlocks))) (F64.add F64.zero r.Duration)
        else F64.zero) ∧
    (computeStats [r] v).TotalBlocksRate
      = (if (F64.add F64.zero r.Duration).gtZero = true then
          F64.div (F64.ofInt (wrapInt (0 + r.TotalBlocks))) (F64.add F64.zero r.Duration)
        else F64.zero) := by
  by_cases h : (aggSums (aggWindow 0 PerfInfo.zero r) r).Duration.gtZero = true
  · simp only [computeStats, aggLoop_single, aggRates_of_pos _ h]
    have h' : (F64.add F64.zero r.Duration).gtZero = true := h
    rw [if_pos h', if_pos h', if_pos h']
    exact ⟨rfl, rfl, rfl⟩
  · simp only [computeStats, aggLoop_single, aggRates_of_not_pos _ h]
    have h' : ¬ (F64.add F64.zero r.Duration).gtZero = true := h
    rw [if_neg h', if_neg h', if_neg h']
    exact ⟨rfl, rfl, rfl⟩

/-- Aggregating a single task record with nothing reclaimed gives the record back, up
to the sign of a zero in its four float sums. -/
theorem computeStats_single_taskRecord (n : Int) (r : PerfInfo) (h : TaskRecord n r)
    (h1 : -(2 ^ 63) ≤ n) (h2 : n < 2 ^ 63) (hm : 0 ≤ r.MaxRss) :
    computeStats [r] ⟨0, 0⟩
      = { r with
          Duration := F64.posZero r.Duration
          CoreHours := F64.posZero r.CoreHours
          UserTime := F64.posZero r.UserTime
          SystemTime := F64.posZero r.SystemTime } := by
  obtain ⟨t1, t2, t3, t4, t5, t6, t7, t8, t9, t10, t11, t12, t13, t14, t15⟩ := h
  obtain ⟨c1, c2, c3, c4, c5, c6, c7, c8, c9, c10, c11, c12, c13, c14, c15, c16, c17, c18,
    c19⟩ := computeStats_single_fields r ⟨0, 0⟩
  obtain ⟨r1, r2, r3⟩ := computeStats_single_rates r ⟨0, 0⟩
  rw [F64.add_zero_left, F64.gtZero_posZero, Int.zero_add] at r1 r2 r3
  rw [Int.zero_add] at c1 c2 c6 c7 c8
  rw [Nat.zero_add] at c14 c15 c18 c19
  rw [F64.add_zero_left] at c3 c4 c12 c13
  have hrate : ∀ x : Int,
      (if r.Duration.gtZero = true then F64.div (F64.ofInt (wrapInt x)) (F64.posZero r.Duration)
        else F64.zero)
      = (if r.Duration.gtZero = true then F64.div (F64.ofInt (wrapInt x)) r.Duration
        else F64.zero) := by
    intro x
    by_cases hg : r.Duration.gtZero = true
    · rw [if_pos hg, if_pos hg, F64.posZero_of_gtZero _ hg]
    · rw [if_neg hg, if_neg hg]
  apply PerfInfo_eq_of_fields
  · rw [c1, t1]; rfl
  · rw [c2, t2]; exact wrapInt_of_range n h1 h2
  · exact c3
  · exact c4
  · rw [c5]
    show max 0 r.MaxRss = r.MaxRss
    unfold max
    split
    · omega
    · rfl
  · rw [c6]; exact t3
  · rw [c7]; exact t4
  · rw [c8]; exact t5
  · rw [r1, hrate, t3]; exact t13.symm
  · rw [r2, hrate, t4]; exact t14.symm
  · rw [r3, hrate, t5]; exact t15.symm
  · exact c9
  · exact c10
  · rw [c11]; exact t12.symm
  · exact c12
  · exact c13
  · rw [c18, t6]
    show wrapUint (r.OutputFiles + 0) = r.TotalFiles
    rw [Nat.add_zero, t6, t8]
  · rw [c19, t7]
    show wrapUint (r.OutputBytes + 0) = r.TotalBytes
    rw [Nat.add_zero, t7, t9]
  · rw [c14]; exact t6
  · rw [c15]; exact t7
  · rw [c16]; exact t10.symm
  · rw [c17]; exact t11.symm

/-- C18 (as amended): for every record `r` returned by `reduceJobInfo` (for a 64-bit
thread count) whose `MaxRss` is non-negative, `computeStats([r], {count: 0, size: 0})`
returns a record equal to `r` in every field, except that a zero in `Duration`,
`CoreHours`, `UserTime` or `SystemTime` comes back as `+0.0`; so the result is `r` itself
whenever none of these four fields of `r` is a negative zero. -/
theorem computeStats_single (stat : String → Option Int) (j : JobInfo) (fp : List String)
    (n : Int) (r : PerfInfo) (hr : reduceJobInfo stat j fp n = .ok r)
    (h1 : -(2 ^ 63) ≤ n) (h2 : n < 2 ^ 63) (hm : 0 ≤ r.MaxRss) :
    computeStats [r] ⟨0, 0⟩
      = { r with
          Duration := F64.posZero r.Duration
          CoreHours := F64.posZero r.CoreHours
          UserTime := F64.posZero r.UserTime
          SystemTime := F64.posZero r.SystemTime } ∧
    (F64.posZero r.Duration = r.Duration → F64.posZero r.CoreHours = r.CoreHours →
      F64.posZero r.UserTime = r.UserTime → F64.posZero r.SystemTime = r.SystemTime →
      computeStats [r] ⟨0, 0⟩ = r) := by
  have key := computeStats_single_taskRecord n r
    (reduceJobInfo_ok_taskRecord stat j fp n r hr) h1 h2 hm
  refine ⟨key, ?_⟩
  intro e1 e2 e3 e4
  rw [key, e1, e2, e3, e4]

set_option maxRecDepth 100000 in
/-- C18 witness: the record of the example task with both sections and four threads
aggregates to itself. -/
theorem computeStats_single_witness :
    reduceJobInfo exStat (exJob (some exUsage) (some exClock)) ["/exists"] 4
      = .ok (returned (reduceJobInfo exStat (exJob (some exUsage) (some exClock))
          ["/exists"] 4)) ∧
    -(2 ^ 63) ≤ (4 : Int) ∧ (4 : Int) < 2 ^ 63 ∧
    0 ≤ (returned (reduceJobInfo exStat (exJob (some exUsage) (some exClock))
      ["/exists"] 4)).MaxRss ∧
    computeStats [returned (reduceJobInfo exStat (exJob (some exUsage) (some exClock))
        ["/exists"] 4)] ⟨0, 0⟩
      = returned (reduceJobInfo exStat (exJob (some exUsage) (some exClock)) ["/exists"] 4) :=
  ⟨rfl, by decide, by decide, by decide,
    (computeStats_single exStat (exJob (some exUsage) (some exClock)) ["/exists"] 4 _ rfl
      (by decide) (by decide) (by decide)).2 (by decide) (by decide) (by decide) (by decide)⟩

set_option maxRecDepth 100000 in
/-- C18 counterexample: a raw record whose wall-clock duration is `-0.0` and that has no
resource-usage section reduces to a record with `Duration = -0.0` and `MaxRss = 0`; its
aggregate has `Duration = 0.0 + (-0.0) = +0.0`, so it is not the same record. -/
theorem computeStats_single_negZero :
    ∃ r, reduceJobInfo exStat (exJob none (some exClockNegZero)) [] 1 = .ok r ∧
      0 ≤ r.MaxRss ∧
      r.Duration = F64.negZero ∧
      (computeStats [r] ⟨0, 0⟩).Duration = F64.zero ∧
      F64.negZero ≠ F64.zero ∧
      computeStats [r] ⟨0, 0⟩ ≠ r :=
  ⟨_, rfl, by decide, by decide, by decide, by decide, by decide⟩

/-! ## Rounding is monotone -/

namespace F64

theorem round_eq (neg : Bool) (n d : Nat) (x : Int) :
    round neg n d x
      = if 971 < (if roundMant n d x = 2 ^ 53 then roundExp n d x + 1 else roundExp n d x)
        then inf neg
        else fin neg (if roundMant n d x = 2 ^ 53 then 2 ^ 52 else roundMant n d x)
          (if roundMant n d x = 2 ^ 53 then roundExp n d x + 1 else roundExp n d x) := rfl

theorem bitlenAux_lt_pow (fuel : Nat) : ∀ n : Nat, n ≤ fuel → n < 2 ^ bitlenAux fuel n := by
  induction fuel with
  | zero => intro n h; simp [bitlenAux]; omega
  | succ fuel ih =>
    intro n h
    by_cases hn : n = 0
    · simp [bitlenAux, hn]
    · simp only [bitlenAux, hn, if_false]
      have := ih (n / 2) (by omega)
      rw [pow_succ]
      omega

theorem bitlen_lt_pow (n : Nat) : n < 2 ^ bitlen n := bitlenAux_lt_pow n n (le_refl n)

/-- Scaling numerator and denominator by the two halves of a shift. -/
theorem shift_cast (n d : Nat) (s : Int) :
    ((n * 2 ^ s.toNat : Nat) : ℚ) / ((d * 2 ^ (-s).toNat : Nat) : ℚ)
      = (n : ℚ) / d * (2 : ℚ) ^ s := by
  rcases le_total 0 s with h | h
  · obtain ⟨k, rfl⟩ := Int.eq_ofNat_of_zero_le h
    have h1 : (-(k : Int)).toNat = 0 := by omega
    rw [Int.toNat_ofNat, h1]
    push_cast
    rw [zpow_natCast]
    ring
  · obtain ⟨k, hk⟩ := Int.eq_ofNat_of_zero_le (neg_nonneg.2 h)
    have hs : s = -(k : Int) := by omega
    subst hs
    have h1 : (-(k : Int)).toNat = 0 := by omega
    have h2 : (- -(k : Int)).toNat = k := by omega
    rw [h1, h2]
    push_cast
    rw [zpow_neg, zpow_natCast]
    field_simp

theorem scaled_succ (n d : Nat) (x t : Int) : scaled n d x (t + 1) = scaled n d x t / 2 := by
  unfold scaled
  have : x - (t + 1) = (x - t) + (-1) := by ring
  rw [this, zpow_add₀ (by norm_num : (2 : ℚ) ≠ 0)]
  norm_num
  ring

theorem scaled_pos (n d : Nat) (x t : Int) (hn : 1 ≤ n) (hd : 1 ≤ d) : 0 < scaled n d x t := by
  unfold scaled
  have h1 : (0 : ℚ) < n := by exact_mod_cast hn
  have h2 : (0 : ℚ) < d := by exact_mod_cast hd
  positivity

theorem scaled_anti (n d : Nat) (x t u : Int) (hn : 1 ≤ n) (hd : 1 ≤ d) (h : t ≤ u) :
    scaled n d x u ≤ scaled n d x t := by
  unfold scaled
  have h1 : (0 : ℚ) < n := by exact_mod_cast hn
  have h2 : (0 : ℚ) < d := by exact_mod_cast hd
  apply mul_le_mul_of_nonneg_left _ (by positivity)
  exact zpow_le_zpow_right₀ (by norm_num) (by omega)

theorem roundNum_div_roundDen (n d : Nat) (x : Int) :
    ((roundNum n d x : Nat) : ℚ) / ((roundDen n d x : Nat) : ℚ)
      = scaled n d x (roundExp n d x) :=
  shift_cast n d (x - roundExp n d x)

/-- At the first exponent the scaled input has 53 or 54 binary digits. -/
theorem scaled_first (n d : Nat) (x : Int) (hn : 1 ≤ n) (hd : 1 ≤ d) :
    (2 : ℚ) ^ (52 : Int) ≤ scaled n d x ((bitlen n : Int) - (bitlen d : Int) - 53 + x) ∧
    scaled n d x ((bitlen n : Int) - (bitlen d : Int) - 53 + x) < (2 : ℚ) ^ (54 : Int) := by
  obtain ⟨hn1, hn2⟩ := bitlen_pow_le n hn
  obtain ⟨hd1, hd2⟩ := bitlen_pow_le d hd
  have hn3 := bitlen_lt_pow n
  have hd3 := bitlen_lt_pow d
  have two : (2 : ℚ) ≠ 0 := by norm_num
  have qn2 : (2 : ℚ) ^ ((bitlen n : Int) - 1) ≤ (n : ℚ) := by
    have : ((2 ^ (bitlen n - 1) : Nat) : ℚ) ≤ (n : ℚ) := by exact_mod_cast hn2
    have e : ((bitlen n : Int) - 1) = ((bitlen n - 1 : Nat) : Int) := by omega
    rw [e, zpow_natCast]
    exact_mod_cast this
  have qn3 : (n : ℚ) < (2 : ℚ) ^ (bitlen n : Int) := by
    rw [zpow_natCast]
    exact_mod_cast hn3
  have qd2 : (2 : ℚ) ^ ((bitlen d : Int) - 1) ≤ (d : ℚ) := by
    have : ((2 ^ (bitlen d - 1) : Nat) : ℚ) ≤ (d : ℚ) := by exact_mod_cast hd2
    have e : ((bitlen d : Int) - 1) = ((bitlen d - 1 : Nat) : Int) := by omega
    rw [e, zpow_natCast]
    exact_mod_cast this
  have qd3 : (d : ℚ) < (2 : ℚ) ^ (bitlen d : Int) := by
    rw [zpow_natCast]
    exact_mod_cast hd3
  have dpos : (0 : ℚ) < d := by exact_mod_cast hd
  unfold scaled
  have hs : x - ((bitlen n : Int) - (bitlen d : Int) - 53 + x)
      = 53 - (bitlen n : Int) + (bitlen d : Int) := by ring
  rw [hs, div_mul_eq_mul_div, le_div_iff₀ dpos, div_lt_iff₀ dpos]
  have ppos : (0 : ℚ) < (2 : ℚ) ^ (53 - (bitlen n : Int) + (bitlen d : Int)) := by positivity
  constructor
  · calc (2 : ℚ) ^ (52 : Int) * d
        ≤ (2 : ℚ) ^ (52 : Int) * (2 : ℚ) ^ (bitlen d : Int) :=
          mul_le_mul_of_nonneg_left qd3.le (by positivity)
      _ = (2 : ℚ) ^ ((bitlen n : Int) - 1) * (2 : ℚ) ^ (53 - (bitlen n : Int) + (bitlen d : Int)) := by
          rw [← zpow_add₀ two, ← zpow_add₀ two]; congr 1; ring
      _ ≤ n * (2 : ℚ) ^ (53 - (bitlen n : Int) + (bitlen d : Int)) :=
          mul_le_mul_of_nonneg_right qn2 ppos.le
  · calc n * (2 : ℚ) ^ (53 - (bitlen n : Int) + (bitlen d : Int))
        < (2 : ℚ) ^ (bitlen n : Int) * (2 : ℚ) ^ (53 - (bitlen n : Int) + (bitlen d : Int)) :=
          mul_lt_mul_of_pos_right qn3 ppos
      _ = (2 : ℚ) ^ (54 : Int) * (2 : ℚ) ^ ((bitlen d : Int) - 1) := by
          rw [← zpow_add₀ two, ← zpow_add₀ two]; congr 1; ring
      _ ≤ (2 : ℚ) ^ (54 : Int) * d :=
          mul_le_mul_of_nonneg_left qd2 (by positivity)

theorem nat_div_lt_iff_cast (a b k : Nat) (hb : 0 < b) :
    a / b < k ↔ (a : ℚ) / b < k := by
  have hb' : (0 : ℚ) < b := by exact_mod_cast hb
  rw [Nat.div_lt_iff_lt_mul hb, div_lt_iff₀ hb']
  exact_mod_cast Iff.rfl

theorem roundDen_pos (n d : Nat) (x : Int) (hd : 1 ≤ d) : 0 < roundDen n d x := by
  unfold roundDen
  positivity

/-- The exponent of `round` is at least `-1074`; at it the scaled input is below `2^53`,
and at least `2^52` unless the exponent is `-1074`. -/
theorem roundExp_spec (n d : Nat) (x : Int) (hn : 1 ≤ n) (hd : 1 ≤ d) :
    -1074 ≤ roundExp n d x ∧
    scaled n d x (roundExp n d x) < (2 : ℚ) ^ (53 : Int) ∧
    (-1074 < roundExp n d x → (2 : ℚ) ^ (52 : Int) ≤ scaled n d x (roundExp n d x)) := by
  obtain ⟨f1, f2⟩ := scaled_first n d x hn hd
  have hden : 0 < d * 2 ^ (-(x - ((bitlen n : Int) - (bitlen d : Int) - 53 + x))).toNat := by
    positivity
  have hc := nat_div_lt_iff_cast
    (n * 2 ^ (x - ((bitlen n : Int) - (bitlen d : Int) - 53 + x)).toNat)
    (d * 2 ^ (-(x - ((bitlen n : Int) - (bitlen d : Int) - 53 + x))).toNat) (2 ^ 53) hden
  rw [shift_cast] at hc
  have hc' : n * 2 ^ (x - ((bitlen n : Int) - (bitlen d : Int) - 53 + x)).toNat /
      (d * 2 ^ (-(x - ((bitlen n : Int) - (bitlen d : Int) - 53 + x))).toNat) < 2 ^ 53 ↔
      scaled n d x ((bitlen n : Int) - (bitlen d : Int) - 53 + x) < (2 : ℚ) ^ (53 : Int) := by
    rw [hc]
    unfold scaled
    norm_num
  -- the exponent after normalising to 53 digits
  have h2 : ∃ e2 : Int, roundExp n d x = (if e2 < -1074 then -1074 else e2) ∧
      (2 : ℚ) ^ (52 : Int) ≤ scaled n d x e2 ∧ scaled n d x e2 < (2 : ℚ) ^ (53 : Int) := by
    by_cases c : n * 2 ^ (x - ((bitlen n : Int) - (bitlen d : Int) - 53 + x)).toNat /
        (d * 2 ^ (-(x - ((bitlen n : Int) - (bitlen d : Int) - 53 + x))).toNat) < 2 ^ 53
    · refine ⟨(bitlen n : Int) - (bitlen d : Int) - 53 + x, ?_, f1, hc'.1 c⟩
      unfold roundExp
      simp only [c, if_true]
    · refine ⟨(bitlen n : Int) - (bitlen d : Int) - 53 + x + 1, ?_, ?_, ?_⟩
      · unfold roundExp
        simp only [c, if_false]
      · rw [scaled_succ]
        have : ¬ scaled n d x ((bitlen n : Int) - (bitlen d : Int) - 53 + x)
            < (2 : ℚ) ^ (53 : Int) := fun h => c (hc'.2 h)
        have h53 : (2 : ℚ) ^ (53 : Int) = 2 * (2 : ℚ) ^ (52 : Int) := by norm_num
        rw [h53] at this
        linarith
      · rw [scaled_succ]
        have h54 : (2 : ℚ) ^ (54 : Int) = 2 * (2 : ℚ) ^ (53 : Int) := by norm_num
        rw [h54] at f2
        linarith
  obtain ⟨e2, he, g1, g2⟩ := h2
  rw [he]
  by_cases c2 : e2 < -1074
  · rw [if_pos c2]
    refine ⟨le_refl _, ?_, fun h => absurd h (lt_irrefl _)⟩
    exact lt_of_le_of_lt (scaled_anti n d x e2 (-1074) hn hd (by omega)) g2
  · rw [if_neg c2]
    exact ⟨by omega, g2, fun _ => g1⟩

theorem roundMant_eq (n d : Nat) (x : Int) :
    roundMant n d x = rne (roundNum n d x) (roundDen n d x) := rfl

theorem floor_cast (a b : Nat) (hb : 0 < b) :
    ((a / b : Nat) : ℚ) ≤ (a : ℚ) / b ∧ (a : ℚ) / b < ((a / b : Nat) : ℚ) + 1 ∧
    ((a % b : Nat) : ℚ) = (a : ℚ) - ((a / b : Nat) : ℚ) * b := by
  have hb' : (0 : ℚ) < b := by exact_mod_cast hb
  have h1 := Nat.div_add_mod a b
  have h2 := Nat.mod_lt a hb
  have h3 : (b : ℚ) * ((a / b : Nat) : ℚ) + ((a % b : Nat) : ℚ) = (a : ℚ) := by
    exact_mod_cast h1
  have h4 : ((a % b : Nat) : ℚ) < b := by exact_mod_cast h2
  have h5 : (0 : ℚ) ≤ ((a % b : Nat) : ℚ) := by positivity
  refine ⟨?_, ?_, by linarith⟩
  · rw [le_div_iff₀ hb']; linarith
  · rw [div_lt_iff₀ hb']; linarith

theorem rne_bounds (a b : Nat) : a / b ≤ rne a b ∧ rne a b ≤ a / b + 1 := by
  unfold rne
  simp only []
  split <;> omega

/-- Rounding to nearest is monotone. -/
theorem rne_mono (a b a' b' : Nat) (hb : 0 < b) (hb' : 0 < b')
    (h : (a : ℚ) / b ≤ (a' : ℚ) / b') : rne a b ≤ rne a' b' := by
  obtain ⟨f1, f2, f3⟩ := floor_cast a b hb
  obtain ⟨g1, g2, g3⟩ := floor_cast a' b' hb'
  obtain ⟨r1, r2⟩ := rne_bounds a b
  obtain ⟨s1, s2⟩ := rne_bounds a' b'
  have hq : a / b ≤ a' / b' := by
    have : ((a / b : Nat) : ℚ) < ((a' / b' : Nat) : ℚ) + 1 := by linarith
    have : ((a / b : Nat) : ℚ) < ((a' / b' + 1 : Nat) : ℚ) := by push_cast; linarith
    have : a / b < a' / b' + 1 := by exact_mod_cast this
    omega
  rcases Nat.lt_or_ge (a / b) (a' / b') with hlt | hge
  · omega
  · have heq : a / b = a' / b' := by omega
    by_cases hup : rne a b = a / b
    · omega
    · have hup' : b < 2 * (a % b) ∨ (2 * (a % b) = b ∧ (a / b) % 2 = 1) := by
        by_contra hc
        apply hup
        unfold rne
        simp only [hc, if_false]
      have hbq : (0 : ℚ) < b := by exact_mod_cast hb
      have hbq' : (0 : ℚ) < b' := by exact_mod_cast hb'
      -- the fractional parts are ordered
      have hfrac : ((a % b : Nat) : ℚ) / b ≤ ((a' % b' : Nat) : ℚ) / b' := by
        rw [f3, g3, sub_div, sub_div, mul_div_assoc, mul_div_assoc, div_self hbq.ne',
          div_self hbq'.ne', heq]
        linarith
      have hhalf : (b : ℚ) ≤ 2 * ((a % b : Nat) : ℚ) := by
        rcases hup' with h1 | ⟨h1, _⟩
        · have : ((b : Nat) : ℚ) < ((2 * (a % b) : Nat) : ℚ) := by exact_mod_cast h1
          push_cast at this
          linarith
        · have : ((2 * (a % b) : Nat) : ℚ) = ((b : Nat) : ℚ) := by exact_mod_cast h1
          push_cast at this
          linarith
      have hhalf' : (b' : ℚ) ≤ 2 * ((a' % b' : Nat) : ℚ) := by
        have h1 : (1 : ℚ) ≤ 2 * (((a % b : Nat) : ℚ) / b) := by
          rw [← mul_div_assoc, le_div_iff₀ hbq]; linarith
        have h2 : (1 : ℚ) ≤ 2 * (((a' % b' : Nat) : ℚ) / b') := by linarith
        rw [← mul_div_assoc, le_div_iff₀ hbq'] at h2
        linarith
      have hnat' : b' ≤ 2 * (a' % b') := by exact_mod_cast hhalf'
      have hup2 : b' < 2 * (a' % b') ∨ (2 * (a' % b') = b' ∧ (a' / b') % 2 = 1) := by
        rcases Nat.lt_or_ge b' (2 * (a' % b')) with h1 | h1
        · left; exact h1
        · right
          have he : 2 * (a' % b') = b' := by omega
          refine ⟨he, ?_⟩
          rcases hup' with h3 | ⟨_, h3⟩
          · exfalso
            have h4 : ((b : Nat) : ℚ) < ((2 * (a % b) : Nat) : ℚ) := by exact_mod_cast h3
            push_cast at h4
            have h5 : (1 : ℚ) < 2 * (((a % b : Nat) : ℚ) / b) := by
              rw [← mul_div_assoc, lt_div_iff₀ hbq]; linarith
            have h6 : ((2 * (a' % b') : Nat) : ℚ) = ((b' : Nat) : ℚ) := by exact_mod_cast he
            push_cast at h6
            have h7 : 2 * (((a' % b' : Nat) : ℚ) / b') = 1 := by
              rw [← mul_div_assoc, h6, div_self hbq'.ne']
            linarith
          · rw [← heq]; exact h3
      have : rne a' b' = a' / b' + 1 := by
        unfold rne
        simp only [hup2, if_true]
      omega

theorem scaled_eq (n d : Nat) (x t : Int) :
    scaled n d x t = scaled n d x 0 * (2 : ℚ) ^ (-t) := by
  unfold scaled
  rw [mul_assoc, ← zpow_add₀ (by norm_num : (2 : ℚ) ≠ 0)]
  congr 2
  ring

theorem scaled_zero_eq (n d : Nat) (x t : Int) :
    scaled n d x 0 = scaled n d x t * (2 : ℚ) ^ t := by
  rw [scaled_eq n d x t, mul_assoc, ← zpow_add₀ (by norm_num : (2 : ℚ) ≠ 0)]
  simp

/-- The value of a finite result of `round` is its rounded mantissa at its exponent. -/
theorem round_val (n d : Nat) (x : Int) (m : Nat) (e : Int)
    (h : round false n d x = fin false m e) :
    (m : ℚ) * (2 : ℚ) ^ e = (roundMant n d x : ℚ) * (2 : ℚ) ^ (roundExp n d x) := by
  rw [round_eq] at h
  by_cases c0 : 971 < (if roundMant n d x = 2 ^ 53 then roundExp n d x + 1 else roundExp n d x)
  · rw [if_pos c0] at h
    cases h
  · rw [if_neg c0] at h
    injection h with _ hm he
    subst hm
    subst he
    by_cases c : roundMant n d x = 2 ^ 53
    · rw [if_pos c, if_pos c, c, zpow_add₀ (by norm_num : (2 : ℚ) ≠ 0)]
      push_cast
      ring
    · rw [if_neg c, if_neg c]

/-- The floor of the scaled input and the rounded mantissa at the exponent of `round`. -/
theorem roundMant_spec (n d : Nat) (x : Int) (hn : 1 ≤ n) (hd : 1 ≤ d) :
    ((roundNum n d x / roundDen n d x : Nat) : ℚ) ≤ scaled n d x (roundExp n d x) ∧
    scaled n d x (roundExp n d x) < ((roundNum n d x / roundDen n d x : Nat) : ℚ) + 1 ∧
    roundNum n d x / roundDen n d x ≤ roundMant n d x ∧
    roundMant n d x ≤ roundNum n d x / roundDen n d x + 1 ∧
    roundNum n d x / roundDen n d x < 2 ^ 53 ∧
    (-1074 < roundExp n d x → 2 ^ 52 ≤ roundNum n d x / roundDen n d x) := by
  obtain ⟨f1, f2, _⟩ := floor_cast (roundNum n d x) (roundDen n d x) (roundDen_pos n d x hd)
  rw [roundNum_div_roundDen] at f1 f2
  obtain ⟨r1, r2⟩ := rne_bounds (roundNum n d x) (roundDen n d x)
  obtain ⟨_, e2, e3⟩ := roundExp_spec n d x hn hd
  refine ⟨f1, f2, r1, r2, ?_, ?_⟩
  · have : ((roundNum n d x / roundDen n d x : Nat) : ℚ) < ((2 ^ 53 : Nat) : ℚ) := by
      push_cast
      have h53 : (2 : ℚ) ^ (53 : Int) = (2 : ℚ) ^ (53 : Nat) := by norm_num
      rw [h53] at e2
      linarith
    exact_mod_cast this
  · intro h
    have h3 := e3 h
    have h52 : (2 : ℚ) ^ (52 : Int) = (2 : ℚ) ^ (52 : Nat) := by norm_num
    rw [h52] at h3
    have : ((2 ^ 52 : Nat) : ℚ) < ((roundNum n d x / roundDen n d x + 1 : Nat) : ℚ) := by
      push_cast
      linarith
    have : 2 ^ 52 < roundNum n d x / roundDen n d x + 1 := by exact_mod_cast this
    omega

/-- Rounding is monotone: finite results of `round` are ordered as the inputs are. -/
theorem round_mono (n d : Nat) (x : Int) (n' d' : Nat) (x' : Int) (m : Nat) (e : Int)
    (m' : Nat) (e' : Int) (hn : 1 ≤ n) (hd : 1 ≤ d) (hn' : 1 ≤ n') (hd' : 1 ≤ d')
    (h : round false n d x = fin false m e) (h' : round false n' d' x' = fin false m' e')
    (hv : scaled n d x 0 ≤ scaled n' d' x' 0) :
    (m : ℚ) * (2 : ℚ) ^ e ≤ (m' : ℚ) * (2 : ℚ) ^ e' := by
  rw [round_val n d x m e h, round_val n' d' x' m' e' h']
  obtain ⟨a1, a2, a3, a4, a5, a6⟩ := roundMant_spec n d x hn hd
  obtain ⟨b1, b2, b3, b4, b5, b6⟩ := roundMant_spec n' d' x' hn' hd'
  obtain ⟨c1, _, _⟩ := roundExp_spec n d x hn hd
  obtain ⟨c1', _, _⟩ := roundExp_spec n' d' x' hn' hd'
  have two : (2 : ℚ) ≠ 0 := by norm_num
  have pE : (0 : ℚ) < (2 : ℚ) ^ (roundExp n d x) := by positivity
  have pE' : (0 : ℚ) < (2 : ℚ) ^ (roundExp n' d' x') := by positivity
  rcases lt_trichotomy (roundExp n d x) (roundExp n' d' x') with hlt | heq | hgt
  · -- a smaller exponent: at most `2^53` units against at least `2^52` larger units
    have k1 : (roundMant n d x : ℚ) ≤ (2 : ℚ) ^ (53 : Nat) := by
      have : roundMant n d x ≤ 2 ^ 53 := by omega
      exact_mod_cast this
    have k2 : (2 : ℚ) ^ (52 : Nat) ≤ (roundMant n' d' x' : ℚ) := by
      have : 2 ^ 52 ≤ roundMant n' d' x' := by
        have := b6 (by omega)
        omega
      exact_mod_cast this
    have k3 : (2 : ℚ) ^ (roundExp n d x + 1) ≤ (2 : ℚ) ^ (roundExp n' d' x') :=
      zpow_le_zpow_right₀ (by norm_num) (by omega)
    calc (roundMant n d x : ℚ) * (2 : ℚ) ^ (roundExp n d x)
        ≤ (2 : ℚ) ^ (53 : Nat) * (2 : ℚ) ^ (roundExp n d x) :=
          mul_le_mul_of_nonneg_right k1 pE.le
      _ = (2 : ℚ) ^ (52 : Nat) * (2 : ℚ) ^ (roundExp n d x + 1) := by
          rw [zpow_add₀ two]; norm_num; ring
      _ ≤ (2 : ℚ) ^ (52 : Nat) * (2 : ℚ) ^ (roundExp n' d' x') :=
          mul_le_mul_of_nonneg_left k3 (by positivity)
      _ ≤ (roundMant n' d' x' : ℚ) * (2 : ℚ) ^ (roundExp n' d' x') :=
          mul_le_mul_of_nonneg_right k2 pE'.le
  · -- the same exponent: rounding to nearest is monotone
    have hs : scaled n d x (roundExp n d x) ≤ scaled n' d' x' (roundExp n' d' x') := by
      rw [scaled_eq n d x, scaled_eq n' d' x', heq]
      exact mul_le_mul_of_nonneg_right hv (by positivity)
    rw [← roundNum_div_roundDen, ← roundNum_div_roundDen] at hs
    have := rne_mono _ _ _ _ (roundDen_pos n d x hd) (roundDen_pos n' d' x' hd') hs
    rw [← roundMant_eq, ← roundMant_eq] at this
    rw [heq]
    apply mul_le_mul_of_nonneg_right _ pE'.le
    exact_mod_cast this
  · -- a larger exponent would make the first input the larger one
    exfalso
    have k2 : (2 : ℚ) ^ (52 : Nat) ≤ scaled n d x (roundExp n d x) := by
      have : 2 ^ 52 ≤ roundNum n d x / roundDen n d x := a6 (by omega)
      have : ((2 ^ 52 : Nat) : ℚ) ≤ ((roundNum n d x / roundDen n d x : Nat) : ℚ) := by
        exact_mod_cast this
      push_cast at this
      linarith
    have k1 : scaled n' d' x' (roundExp n' d' x') < (2 : ℚ) ^ (53 : Nat) := by
      have : roundNum n' d' x' / roundDen n' d' x' + 1 ≤ 2 ^ 53 := by omega
      have : ((roundNum n' d' x' / roundDen n' d' x' + 1 : Nat) : ℚ) ≤ ((2 ^ 53 : Nat) : ℚ) := by
        exact_mod_cast this
      push_cast at this
      linarith
    have k3 : (2 : ℚ) ^ (roundExp n' d' x' + 1) ≤ (2 : ℚ) ^ (roundExp n d x) :=
      zpow_le_zpow_right₀ (by norm_num) (by omega)
    have v1 : scaled n' d' x' 0 < (2 : ℚ) ^ (53 : Nat) * (2 : ℚ) ^ (roundExp n' d' x') := by
      rw [scaled_zero_eq n' d' x' (roundExp n' d' x')]
      exact mul_lt_mul_of_pos_right k1 pE'
    have v2 : (2 : ℚ) ^ (52 : Nat) * (2 : ℚ) ^ (roundExp n d x) ≤ scaled n d x 0 := by
      rw [scaled_zero_eq n d x (roundExp n d x)]
      exact mul_le_mul_of_nonneg_right k2 pE.le
    have v3 : (2 : ℚ) ^ (53 : Nat) * (2 : ℚ) ^ (roundExp n' d' x')
        = (2 : ℚ) ^ (52 : Nat) * (2 : ℚ) ^ (roundExp n' d' x' + 1) := by
      rw [zpow_add₀ two]; norm_num; ring
    have v4 : (2 : ℚ) ^ (52 : Nat) * (2 : ℚ) ^ (roundExp n' d' x' + 1)
        ≤ (2 : ℚ) ^ (52 : Nat) * (2 : ℚ) ^ (roundExp n d x) :=
      mul_le_mul_of_nonneg_left k3 (by positivity)
    linarith

/-- A result of `round` below `2^64` is finite. -/
theorem round_fin (n d : Nat) (x : Int) (hn : 1 ≤ n) (hd : 1 ≤ d)
    (hv : scaled n d x 0 < (2 : ℚ) ^ (64 : Int)) :
    ∃ m e, round false n d x = fin false m e := by
  obtain ⟨_, _, e3⟩ := roundExp_spec n d x hn hd
  have hE : roundExp n d x ≤ 11 := by
    by_contra hc
    have h1 : -1074 < roundExp n d x := by omega
    have h2 := e3 h1
    have h3 : (2 : ℚ) ^ (52 : Int) * (2 : ℚ) ^ (roundExp n d x) ≤ scaled n d x 0 := by
      rw [scaled_zero_eq n d x (roundExp n d x)]
      exact mul_le_mul_of_nonneg_right h2 (by positivity)
    rw [← zpow_add₀ (by norm_num : (2 : ℚ) ≠ 0)] at h3
    have h4 : (2 : ℚ) ^ (64 : Int) ≤ (2 : ℚ) ^ (52 + roundExp n d x) :=
      zpow_le_zpow_right₀ (by norm_num) (by omega)
    linarith
  rw [round_eq]
  have : ¬ 971 < (if roundMant n d x = 2 ^ 53 then roundExp n d x + 1 else roundExp n d x) := by
    split <;> omega
  rw [if_neg this]
  exact ⟨_, _, rfl⟩

theorem scaled_int (k : Nat) : scaled k 1 0 0 = (k : ℚ) := by
  unfold scaled
  simp

/-- Converting a positive integer below `2^53` is exact. -/
theorem round_int_exact (k : Nat) (h1 : 1 ≤ k) (h2 : k < 2 ^ 53) :
    ∃ m e, round false k 1 0 = fin false m e ∧ 0 < m ∧ (m : ℚ) * (2 : ℚ) ^ e = (k : ℚ) := by
  obtain ⟨m, e, hm, h⟩ := round_int_fin false k h1 (by omega)
  refine ⟨m, e, h, hm, ?_⟩
  rw [round_val k 1 0 m e h]
  obtain ⟨_, _, e3⟩ := roundExp_spec k 1 0 h1 (le_refl 1)
  have two : (2 : ℚ) ≠ 0 := by norm_num
  have hE : roundExp k 1 0 ≤ 0 := by
    by_contra hc
    have h3 := e3 (by omega)
    rw [scaled_eq, scaled_int] at h3
    have h4 : (2 : ℚ) ^ (-roundExp k 1 0) ≤ (2 : ℚ) ^ (-1 : Int) :=
      zpow_le_zpow_right₀ (by norm_num) (by omega)
    have h5 : (k : ℚ) < (2 : ℚ) ^ (53 : Nat) := by exact_mod_cast h2
    have h6 : (k : ℚ) * (2 : ℚ) ^ (-roundExp k 1 0) ≤ (k : ℚ) * (2 : ℚ) ^ (-1 : Int) :=
      mul_le_mul_of_nonneg_left h4 (by positivity)
    have n52 : (2 : ℚ) ^ (52 : Int) = 4503599627370496 := by norm_num
    have n53 : (2 : ℚ) ^ (53 : Nat) = 9007199254740992 := by norm_num
    have n1 : (2 : ℚ) ^ (-1 : Int) = 1 / 2 := by norm_num
    rw [n52] at h3
    rw [n53] at h5
    rw [n1] at h6
    linarith
  have hden : roundDen k 1 0 = 1 := by
    unfold roundDen
    have : (-(0 - roundExp k 1 0)).toNat = 0 := by omega
    rw [this]
    rfl
  have hmant : roundMant k 1 0 = roundNum k 1 0 := by
    rw [roundMant_eq, hden]
    unfold rne
    simp [Nat.mod_one]
  rw [hmant]
  unfold roundNum
  obtain ⟨j, hj⟩ := Int.eq_ofNat_of_zero_le (by omega : 0 ≤ 0 - roundExp k 1 0)
  have hE' : roundExp k 1 0 = -(j : Int) := by omega
  rw [hj, Int.toNat_ofNat, hE']
  push_cast
  rw [zpow_neg, zpow_natCast]
  field_simp

theorem le_fin_iff (m : Nat) (e : Int) (n : Nat) (f : Int) :
    le (fin false m e) (fin false n f) = true
      ↔ (m : ℚ) * (2 : ℚ) ^ e ≤ (n : ℚ) * (2 : ℚ) ^ f := by
  have two : (2 : ℚ) ≠ 0 := by norm_num
  unfold le
  simp only [smant, Bool.false_eq_true, if_false, decide_eq_true_eq]
  generalize hg : (if e ≤ f then e else f) = g
  have hge : g ≤ e := by rw [← hg]; split <;> omega
  have hgf : g ≤ f := by rw [← hg]; split <;> omega
  obtain ⟨a, ha⟩ := Int.eq_ofNat_of_zero_le (by omega : 0 ≤ e - g)
  obtain ⟨b, hb⟩ := Int.eq_ofNat_of_zero_le (by omega : 0 ≤ f - g)
  rw [ha, hb, Int.toNat_ofNat, Int.toNat_ofNat]
  have he : e = g + a := by omega
  have hf : f = g + b := by omega
  rw [he, hf, zpow_add₀ two, zpow_add₀ two, zpow_natCast, zpow_natCast]
  have gpos : (0 : ℚ) < (2 : ℚ) ^ g := by positivity
  constructor
  · intro h
    have h' : (((m : Int) * 2 ^ a : Int) : ℚ) ≤ (((n : Int) * 2 ^ b : Int) : ℚ) := by
      exact_mod_cast h
    push_cast at h'
    calc (m : ℚ) * ((2 : ℚ) ^ g * (2 : ℚ) ^ a) = ((m : ℚ) * (2 : ℚ) ^ a) * (2 : ℚ) ^ g := by ring
      _ ≤ ((n : ℚ) * (2 : ℚ) ^ b) * (2 : ℚ) ^ g := mul_le_mul_of_nonneg_right h' gpos.le
      _ = (n : ℚ) * ((2 : ℚ) ^ g * (2 : ℚ) ^ b) := by ring
  · intro h
    have h1 : ((m : ℚ) * (2 : ℚ) ^ a) * (2 : ℚ) ^ g ≤ ((n : ℚ) * (2 : ℚ) ^ b) * (2 : ℚ) ^ g := by
      calc ((m : ℚ) * (2 : ℚ) ^ a) * (2 : ℚ) ^ g = (m : ℚ) * ((2 : ℚ) ^ g * (2 : ℚ) ^ a) := by ring
        _ ≤ (n : ℚ) * ((2 : ℚ) ^ g * (2 : ℚ) ^ b) := h
        _ = ((n : ℚ) * (2 : ℚ) ^ b) * (2 : ℚ) ^ g := by ring
    have h2 := le_of_mul_le_mul_right h1 gpos
    have h3 : (((m : Int) * 2 ^ a : Int) : ℚ) ≤ (((n : Int) * 2 ^ b : Int) : ℚ) := by
      push_cast
      exact h2
    exact_mod_cast h3

theorem ofInt_natCast_pos (k : Nat) (h : 1 ≤ k) : ofInt (k : Int) = round false k 1 0 := by
  unfold ofInt
  have h1 : ¬ ((k : Int) = 0) := by omega
  have h2 : ¬ ((k : Int) < 0) := by omega
  simp [h1, h2]

/-- The value of one billion as a binary64 value. -/
theorem billion_exact : ∃ m e, ofInt 1000000000 = fin false m e ∧ 0 < m ∧
    (m : ℚ) * (2 : ℚ) ^ e = 1000000000 := by
  obtain ⟨m, e, h, hm, hv⟩ := round_int_exact 1000000000 (by norm_num) (by norm_num)
  refine ⟨m, e, ?_, hm, by exact_mod_cast hv⟩
  have := ofInt_natCast_pos 1000000000 (by norm_num)
  rw [← h, ← this]
  rfl

theorem scaled_div (a b : Nat) (e f : Int) :
    scaled a b (e - f) 0 = ((a : ℚ) * (2 : ℚ) ^ e) / ((b : ℚ) * (2 : ℚ) ^ f) := by
  unfold scaled
  rw [sub_zero, zpow_sub₀ (by norm_num : (2 : ℚ) ≠ 0)]
  field_simp

/-- The fraction `float64(k) / 1e9` of `Seconds` for `1 ≤ k < 10^9`: a finite result of
`round` at the input `k / 10^9`. -/
theorem frac_spec (k : Nat) (h1 : 1 ≤ k) (h2 : k < 1000000000) :
    ∃ n d x m e, 1 ≤ n ∧ 1 ≤ d ∧ round false n d x = fin false m e ∧
      div (ofInt (k : Int)) (ofInt 1000000000) = fin false m e ∧
      scaled n d x 0 = (k : ℚ) / 1000000000 := by
  obtain ⟨mB, eB, hB, hmB, hvB⟩ := round_int_exact k h1 (by omega)
  obtain ⟨mC, eC, hC, hmC, hvC⟩ := billion_exact
  have hdiv : div (ofInt (k : Int)) (ofInt 1000000000) = round false mB mC (eB - eC) := by
    rw [ofInt_natCast_pos k h1, hB, hC]
    have c1 : mC ≠ 0 := by omega
    have c2 : mB ≠ 0 := by omega
    simp [div, c1, c2]
  have hs : scaled mB mC (eB - eC) 0 = (k : ℚ) / 1000000000 := by
    rw [scaled_div, hvB, hvC]
  have hlt : scaled mB mC (eB - eC) 0 < (2 : ℚ) ^ (64 : Int) := by
    rw [hs]
    have : (k : ℚ) < 1000000000 := by exact_mod_cast h2
    have h64 : (1 : ℚ) ≤ (2 : ℚ) ^ (64 : Int) := by norm_num
    have : (k : ℚ) / 1000000000 < 1 := by
      rw [div_lt_one (by norm_num)]; exact this
    linarith
  obtain ⟨m, e, hr⟩ := round_fin mB mC (eB - eC) hmB hmC hlt
  exact ⟨mB, mC, eB - eC, m, e, hmB, hmC, hr, by rw [hdiv, hr], hs⟩

theorem frac_zero : div (ofInt ((0 : Nat) : Int)) (ofInt 1000000000) = fin false 0 (-1074) := by
  decide

theorem one_exact : round false 1 1 0 = fin false (2 ^ 52) (-52) := by decide

/-- The fraction of `Seconds` is a finite non-negative value, at most one and monotone
in the nanoseconds. -/
theorem frac_fin (k : Nat) (h2 : k < 1000000000) :
    ∃ m e, div (ofInt (k : Int)) (ofInt 1000000000) = fin false m e ∧
      (m : ℚ) * (2 : ℚ) ^ e ≤ 1 := by
  rcases Nat.eq_zero_or_pos k with h0 | h1
  · subst h0
    exact ⟨0, -1074, frac_zero, by simp⟩
  · obtain ⟨n, d, x, m, e, hn, hd, hr, hq, hs⟩ := frac_spec k h1 h2
    refine ⟨m, e, hq, ?_⟩
    have := round_mono n d x 1 1 0 m e (2 ^ 52) (-52) hn hd (le_refl 1) (le_refl 1) hr
      one_exact (by
        rw [hs, scaled_int]
        have : (k : ℚ) < 1000000000 := by exact_mod_cast h2
        rw [div_le_iff₀ (by norm_num)]
        push_cast
        linarith)
    have e1 : (((2 ^ 52 : Nat) : ℚ)) * (2 : ℚ) ^ (-52 : Int) = 1 := by norm_num
    rw [e1] at this
    exact this

theorem frac_mono (k k' : Nat) (h : k ≤ k') (h2 : k' < 1000000000) (m : Nat) (e : Int)
    (m' : Nat) (e' : Int)
    (hq : div (ofInt (k : Int)) (ofInt 1000000000) = fin false m e)
    (hq' : div (ofInt (k' : Int)) (ofInt 1000000000) = fin false m' e') :
    (m : ℚ) * (2 : ℚ) ^ e ≤ (m' : ℚ) * (2 : ℚ) ^ e' := by
  rcases Nat.eq_zero_or_pos k with h0 | h1
  · subst h0
    rw [frac_zero] at hq
    injection hq with _ hm he
    subst hm
    simp
    positivity
  · obtain ⟨n, d, x, a, b, hn, hd, hr, hqq, hs⟩ := frac_spec k h1 (by omega)
    obtain ⟨n', d', x', a', b', hn', hd', hr', hqq', hs'⟩ := frac_spec k' (by omega) h2
    rw [hq] at hqq
    rw [hq'] at hqq'
    injection hqq with _ i1 i2
    injection hqq' with _ j1 j2
    subst i1 i2 j1 j2
    apply round_mono n d x n' d' x' _ _ _ _ hn hd hn' hd' hr hr'
    rw [hs, hs']
    have : (k : ℚ) ≤ (k' : ℚ) := by exact_mod_cast h
    exact div_le_div_of_nonneg_right this (by norm_num)

end F64

theorem Seconds_natCast (d : Nat) :
    Seconds (d : Int)
      = F64.add (F64.ofInt ((d / 1000000000 : Nat) : Int))
          (F64.div (F64.ofInt ((d % 1000000000 : Nat) : Int)) (F64.ofInt 1000000000)) := by
  unfold Seconds
  have h1 : Int.tdiv (d : Int) 1000000000 = ((d / 1000000000 : Nat) : Int) := by
    have := Int.ofNat_tdiv d 1000000000
    rw [this]
    norm_num
  have h2 : Int.tmod (d : Int) 1000000000 = ((d % 1000000000 : Nat) : Int) := by
    have := Int.ofNat_tmod d 1000000000
    rw [this]
    norm_num
  simp only [h1, h2]

namespace F64

/-- The sum of two positive finite values is the rounded exact sum. -/
theorem add_pos_fin (m : Nat) (e : Int) (n : Nat) (f : Int) (hm : 0 < m) (hn : 0 < n) :
    ∃ s g, 1 ≤ s ∧ add (fin false m e) (fin false n f) = round false s 1 g ∧
      scaled s 1 g 0 = (m : ℚ) * (2 : ℚ) ^ e + (n : ℚ) * (2 : ℚ) ^ f := by
  have two : (2 : ℚ) ≠ 0 := by norm_num
  have c1 : m ≠ 0 := by omega
  have c2 : n ≠ 0 := by omega
  generalize hg : (if e ≤ f then e else f) = g
  have hge : g ≤ e := by rw [← hg]; split <;> omega
  have hgf : g ≤ f := by rw [← hg]; split <;> omega
  obtain ⟨a, ha⟩ := Int.eq_ofNat_of_zero_le (by omega : 0 ≤ e - g)
  obtain ⟨b, hb⟩ := Int.eq_ofNat_of_zero_le (by omega : 0 ≤ f - g)
  have hadd : add (fin false m e) (fin false n f)
      = ofScaled ((m : Int) * 2 ^ a + (n : Int) * 2 ^ b) g false := by
    simp only [add, c1, c2, if_false, smant, Bool.false_eq_true, hg, ha, hb, Int.toNat_ofNat]
  have hpos : 0 < (m : Int) * 2 ^ a + (n : Int) * 2 ^ b := by positivity
  have hnat : ((m : Int) * 2 ^ a + (n : Int) * 2 ^ b).natAbs = m * 2 ^ a + n * 2 ^ b := by
    have : ((m : Int) * 2 ^ a + (n : Int) * 2 ^ b) = ((m * 2 ^ a + n * 2 ^ b : Nat) : Int) := by
      push_cast; ring
    rw [this, Int.natAbs_ofNat]
  refine ⟨m * 2 ^ a + n * 2 ^ b, g, ?_, ?_, ?_⟩
  · have : 0 < m * 2 ^ a := by positivity
    omega
  · rw [hadd]
    unfold ofScaled
    have h1 : ¬ ((m : Int) * 2 ^ a + (n : Int) * 2 ^ b = 0) := by omega
    have h2 : ¬ ((m : Int) * 2 ^ a + (n : Int) * 2 ^ b < 0) := by omega
    simp only [h1, h2, if_false, decide_False, hnat]
  · unfold scaled
    have he : e = g + a := by omega
    have hf : f = g + b := by omega
    rw [he, hf, zpow_add₀ two, zpow_add₀ two, zpow_natCast, zpow_natCast]
    push_cast
    simp
    ring

end F64

/-- The value of `Seconds` on a non-negative duration: a finite non-negative value that is
the fraction itself below one second and the rounded sum of whole seconds and fraction
from one second on. -/
theorem Seconds_spec (d : Nat) (hd : d < 2 ^ 63) :
    ∃ M E mt et, Seconds (d : Int) = F64.fin false M E ∧
      F64.div (F64.ofInt ((d % 1000000000 : Nat) : Int)) (F64.ofInt 1000000000)
        = F64.fin false mt et ∧
      (d / 1000000000 = 0 → (M : ℚ) * (2 : ℚ) ^ E = (mt : ℚ) * (2 : ℚ) ^ et) ∧
      (1 ≤ d / 1000000000 → ∃ n dd x m e, 1 ≤ n ∧ 1 ≤ dd ∧
        F64.round false n dd x = F64.fin false m e ∧
        (M : ℚ) * (2 : ℚ) ^ E = (m : ℚ) * (2 : ℚ) ^ e ∧
        F64.scaled n dd x 0
          = ((d / 1000000000 : Nat) : ℚ) + (mt : ℚ) * (2 : ℚ) ^ et) := by
  have hk : d % 1000000000 < 1000000000 := Nat.mod_lt _ (by norm_num)
  obtain ⟨mt, et, hT, hT1⟩ := F64.frac_fin (d % 1000000000) hk
  rw [Seconds_natCast, hT]
  rcases Nat.eq_zero_or_pos (d / 1000000000) with h0 | h1
  · -- below one second
    rw [h0]
    have hz : F64.ofInt ((0 : Nat) : Int) = F64.zero := rfl
    rw [hz, F64.add_zero_left]
    cases mt with
    | zero =>
      refine ⟨0, -1074, 0, et, rfl, rfl, fun _ => by simp, fun h => by omega⟩
    | succ mt =>
      refine ⟨mt + 1, et, mt + 1, et, rfl, rfl, fun _ => rfl, fun h => by omega⟩
  · -- from one second on
    have hsec : d / 1000000000 < 2 ^ 53 := by omega
    obtain ⟨mA, eA, hA, hmA, hvA⟩ := F64.round_int_exact (d / 1000000000) h1 hsec
    rw [F64.ofInt_natCast_pos _ h1, hA]
    rcases Nat.eq_zero_or_pos mt with ht0 | htpos
    · subst ht0
      have hadd : F64.add (F64.fin false mA eA) (F64.fin false 0 et) = F64.fin false mA eA := by
        have : mA ≠ 0 := by omega
        simp [F64.add, this]
      rw [hadd]
      refine ⟨mA, eA, 0, et, rfl, rfl, fun h => by omega, fun _ => ?_⟩
      refine ⟨d / 1000000000, 1, 0, mA, eA, h1, le_refl 1, hA, rfl, ?_⟩
      rw [F64.scaled_int]
      simp
    · obtain ⟨s, g, hs, hadd, hval⟩ := F64.add_pos_fin mA eA mt et hmA htpos
      rw [hadd]
      have hlt : F64.scaled s 1 g 0 < (2 : ℚ) ^ (64 : Int) := by
        rw [hval, hvA]
        have h34 : ((d / 1000000000 : Nat) : ℚ) < (2 : ℚ) ^ (53 : Nat) := by
          exact_mod_cast hsec
        have n53 : (2 : ℚ) ^ (53 : Nat) = 9007199254740992 := by norm_num
        have n64 : (2 : ℚ) ^ (64 : Int) = 18446744073709551616 := by norm_num
        rw [n53] at h34
        rw [n64]
        linarith
      obtain ⟨m, e, hr⟩ := F64.round_fin s 1 g hs (le_refl 1) hlt
      rw [hr]
      refine ⟨m, e, mt, et, rfl, rfl, fun h => by omega, fun _ => ?_⟩
      exact ⟨s, 1, g, m, e, hs, le_refl 1, hr, rfl, by rw [hval, hvA]⟩

/-- `Seconds` is monotone on the non-negative durations. -/
theorem Seconds_mono (d1 d2 : Nat) (h : d1 ≤ d2) (hd : d2 < 2 ^ 63) :
    F64.le (Seconds (d1 : Int)) (Seconds (d2 : Int)) = true := by
  obtain ⟨M1, E1, m1, e1, hS1, hT1, a1, b1⟩ := Seconds_spec d1 (by omega)
  obtain ⟨M2, E2, m2, e2, hS2, hT2, a2, b2⟩ := Seconds_spec d2 hd
  rw [hS1, hS2, F64.le_fin_iff]
  have hk1 : d1 % 1000000000 < 1000000000 := Nat.mod_lt _ (by norm_num)
  have hk2 : d2 % 1000000000 < 1000000000 := Nat.mod_lt _ (by norm_num)
  have hsec : d1 / 1000000000 ≤ d2 / 1000000000 := Nat.div_le_div_right h
  -- the two fractions are at most one and not negative
  have f1 : (m1 : ℚ) * (2 : ℚ) ^ e1 ≤ 1 := by
    obtain ⟨m, e, hq, hle⟩ := F64.frac_fin (d1 % 1000000000) hk1
    rw [hT1] at hq
    injection hq with _ i1 i2
    subst i1 i2
    exact hle
  have f2 : (0 : ℚ) ≤ (m2 : ℚ) * (2 : ℚ) ^ e2 := by positivity
  rcases Nat.eq_zero_or_pos (d1 / 1000000000) with h0 | h1
  · rw [a1 h0]
    rcases Nat.eq_zero_or_pos (d2 / 1000000000) with k0 | k1
    · rw [a2 k0]
      have hm : d1 % 1000000000 ≤ d2 % 1000000000 := by omega
      exact F64.frac_mono _ _ hm hk2 m1 e1 m2 e2 hT1 hT2
    · obtain ⟨n, dd, x, m, e, hn, hdd, hr, hv, hs⟩ := b2 k1
      rw [hv]
      have h1le : ((2 ^ 52 : Nat) : ℚ) * (2 : ℚ) ^ (-52 : Int) ≤ (m : ℚ) * (2 : ℚ) ^ e := by
        apply F64.round_mono 1 1 0 n dd x _ _ _ _ (le_refl 1) (le_refl 1) hn hdd
          F64.one_exact hr
        rw [hs, F64.scaled_int]
        have : (1 : ℚ) ≤ ((d2 / 1000000000 : Nat) : ℚ) := by exact_mod_cast k1
        push_cast
        linarith
      have e1' : (((2 ^ 52 : Nat) : ℚ)) * (2 : ℚ) ^ (-52 : Int) = 1 := by norm_num
      rw [e1'] at h1le
      linarith
  · have k1 : 1 ≤ d2 / 1000000000 := by omega
    obtain ⟨n, dd, x, m, e, hn, hdd, hr, hv, hs⟩ := b1 h1
    obtain ⟨n', dd', x', m', e', hn', hdd', hr', hv', hs'⟩ := b2 k1
    rw [hv, hv']
    apply F64.round_mono n dd x n' dd' x' _ _ _ _ hn hdd hn' hdd' hr hr'
    rw [hs, hs']
    rcases Nat.lt_or_ge (d1 / 1000000000) (d2 / 1000000000) with hlt | hge
    · have : ((d1 / 1000000000 : Nat) : ℚ) + 1 ≤ ((d2 / 1000000000 : Nat) : ℚ) := by
        exact_mod_cast hlt
      linarith
    · have heq : d1 / 1000000000 = d2 / 1000000000 := by omega
      have hm : d1 % 1000000000 ≤ d2 % 1000000000 := by omega
      have := F64.frac_mono _ _ hm hk2 m1 e1 m2 e2 hT1 hT2
      rw [heq]
      linarith

/-- `Seconds` of a non-negative duration is not negative. -/
theorem Seconds_nonneg (d : Nat) (hd : d < 2 ^ 63) :
    F64.le F64.zero (Seconds (d : Int)) = true := by
  have h := Seconds_mono 0 d (Nat.zero_le d) hd
  have h0 : Seconds ((0 : Nat) : Int) = F64.zero := by decide
  rw [h0] at h
  exact h

/-! ## C19: windows stay well-ordered and do not shrink -/

/-- The span of a well-ordered window as a `time.Duration` is not negative and grows
with the window. -/
theorem Sub_mono (s e s' e' : Time) (h1 : s.ns ≤ e.ns) (h2 : s'.ns ≤ s.ns)
    (h3 : e.ns ≤ e'.ns) :
    0 ≤ e.Sub s ∧ e.Sub s ≤ e'.Sub s' ∧ e'.Sub s' < 2 ^ 63 ∧
    (e'.ns - s'.ns ≤ 2 ^ 63 - 1 → e.Sub s = e.ns - s.ns) := by
  simp only [Time.Sub, Time.minDuration, Time.maxDuration]
  split_ifs <;> omega

/-- `Seconds` is monotone on the non-negative values of `time.Duration`. -/
theorem Seconds_le_of_le (a b : Int) (h0 : 0 ≤ a) (h1 : a ≤ b) (h2 : b < 2 ^ 63) :
    F64.le (Seconds a) (Seconds b) = true := by
  have ha : a = ((a.toNat : Nat) : Int) := (Int.toNat_of_nonneg h0).symm
  have hb : b = ((b.toNat : Nat) : Int) := (Int.toNat_of_nonneg (le_trans h0 h1)).symm
  rw [ha, hb]
  exact Seconds_mono a.toNat b.toNat (by omega) (by omega)

/-- C19 (as amended): for every non-empty sequence of records in which each record has
`Start` not after `End`, the aggregate has `Start` not after `End`, its window contains
the window of every input, and its `WallTime` is not negative and not less than
`Seconds()` of the span `End.Sub(Start)` of any input, a span that `Time.Sub` clamps to
the largest `time.Duration`; when the aggregate window itself fits a `time.Duration`
the span of every input is its exact `End - Start`. -/
theorem computeStats_window_ordered (rs : List PerfInfo) (v : VDRKillReport) (h : rs ≠ [])
    (hw : ∀ r ∈ rs, r.Start.After r.End = false) :
    (computeStats rs v).Start.After (computeStats rs v).End = false ∧
    (∀ r ∈ rs, (computeStats rs v).Start.After r.Start = false ∧
      (computeStats rs v).End.Before r.End = false) ∧
    F64.le F64.zero (computeStats rs v).WallTime = true ∧
    (∀ r ∈ rs, F64.le (Seconds (r.End.Sub r.Start)) (computeStats rs v).WallTime = true) ∧
    ((computeStats rs v).End.ns - (computeStats rs v).Start.ns ≤ 2 ^ 63 - 1 →
      ∀ r ∈ rs, r.End.Sub r.Start = r.End.ns - r.Start.ns) := by
  obtain ⟨_, hS, _, hE⟩ := computeStats_extremes rs v h
  have hw' : ∀ r ∈ rs, r.Start.ns ≤ r.End.ns := by
    intro r hr
    have := hw r hr
    simp only [Time.After, decide_eq_false_iff_not, not_lt] at this
    exact this
  obtain ⟨p, hp⟩ := List.exists_mem_of_ne_nil rs h
  have hord : (computeStats rs v).Start.ns ≤ (computeStats rs v).End.ns :=
    le_trans (hS p hp) (le_trans (hw' p hp) (hE p hp))
  have hle : ∀ r ∈ rs,
      F64.le (Seconds (r.End.Sub r.Start)) (computeStats rs v).WallTime = true := by
    intro r hr
    obtain ⟨k0, k1, k2, _⟩ := Sub_mono r.Start r.End (computeStats rs v).Start
      (computeStats rs v).End (hw' r hr) (hS r hr) (hE r hr)
    rw [computeStats_WallTime]
    exact Seconds_le_of_le _ _ k0 k1 k2
  refine ⟨?_, ?_, ?_, hle, ?_⟩
  · simp only [Time.After, decide_eq_false_iff_not, not_lt]
    exact hord
  · intro r hr
    simp only [Time.After, Time.Before, decide_eq_false_iff_not, not_lt]
    exact ⟨hS r hr, hE r hr⟩
  · obtain ⟨k0, k1, k2, _⟩ := Sub_mono (computeStats rs v).Start (computeStats rs v).Start
      (computeStats rs v).Start (computeStats rs v).End (le_refl _) (le_refl _) hord
    have hz : (computeStats rs v).Start.Sub (computeStats rs v).Start = 0 := by
      simp only [Time.Sub, Time.minDuration, Time.maxDuration]
      split_ifs <;> omega
    have h0 : Seconds 0 = F64.zero := by decide
    rw [computeStats_WallTime, ← h0]
    rw [hz] at k1
    exact Seconds_le_of_le _ _ (le_refl 0) k1 k2
  · intro hfit r hr
    exact (Sub_mono r.Start r.End (computeStats rs v).Start (computeStats rs v).End
      (hw' r hr) (hS r hr) (hE r hr)).2.2.2 hfit

set_option maxRecDepth 100000 in
/-- C19 witness: the windows 10:00-10:30, 10:05-10:20 and 09:55-10:10 are well-ordered;
their aggregate runs from 09:55 to 10:30, and its `WallTime` of 2100 seconds is not less
than the half hour of the longest input. -/
theorem computeStats_window_ordered_witness :
    exThree ≠ [] ∧ (∀ r ∈ exThree, r.Start.After r.End = false) ∧
    ((computeStats exThree ⟨0, 0⟩).Start.After (computeStats exThree ⟨0, 0⟩).End = false ∧
      (∀ r ∈ exThree, (computeStats exThree ⟨0, 0⟩).Start.After r.Start = false ∧
        (computeStats exThree ⟨0, 0⟩).End.Before r.End = false) ∧
      F64.le F64.zero (computeStats exThree ⟨0, 0⟩).WallTime = true ∧
      (∀ r ∈ exThree,
        F64.le (Seconds (r.End.Sub r.Start)) (computeStats exThree ⟨0, 0⟩).WallTime = true) ∧
      ((computeStats exThree ⟨0, 0⟩).End.ns - (computeStats exThree ⟨0, 0⟩).Start.ns
          ≤ 2 ^ 63 - 1 →
        ∀ r ∈ exThree, r.End.Sub r.Start = r.End.ns - r.Start.ns)) ∧
    (computeStats exThree ⟨0, 0⟩).WallTime = F64.ofInt 2100 ∧
    Seconds ((exWindow 10 0 10 30).End.Sub (exWindow 10 0 10 30).Start) = F64.ofInt 1800 :=
  ⟨by decide, by decide,
    computeStats_window_ordered exThree ⟨0, 0⟩ (by decide) (by decide),
    by decide, by decide⟩

set_option maxRecDepth 100000 in
/-- C19 counterexample: a wall-clock section with an empty start string and the end
`2014-01-01 10:30:00` gives a record with `Start` at the zero instant, not after its
`End`, and a span `End - Start` of 63524169000 seconds; the aggregate of that one record
has a `WallTime` of 9223372036.854776 seconds, the largest `time.Duration`, which is
less than the span of its input. -/
theorem computeStats_wallTime_below_span :
    ∃ r, reduceJobInfo exStat (exJob none (some exClockNoStart)) [] 1 = .ok r ∧
      [r] ≠ [] ∧ r.Start.After r.End = false ∧
      r.Start = Time.zero ∧ r.End = Date 2014 1 1 10 30 0 0 ∧
      r.End.ns - r.Start.ns = 63524169000 * 1000000000 ∧
      (computeStats [r] ⟨0, 0⟩).WallTime = F64.fin false 4835703278458517 (-19) ∧
      F64.le (F64.ofInt 63524169000) (computeStats [r] ⟨0, 0⟩).WallTime = false ∧
      F64.le (computeStats [r] ⟨0, 0⟩).WallTime (F64.ofInt 9223372037) = true :=
  ⟨_, rfl, by decide, by decide, by decide, by decide, by decide, by decide, by decide,
    by decide⟩

end Martian
